import Mathlib

/-!
# ATS_Builder: the résumé analyser of `src/main.cpp`

A shallow embedding of `ResumeAnalyzer` and of the helper functions it uses,
followed by the properties of the specification that were checked against it.

Conventions of the embedding.

* A C++ `std::string` is a `List Char`; every `Char` stands for one byte
  (`char`) of the string, so `size()` is `List.length`. String literals of
  the source that are pure ASCII are written `"...".toList`; the two
  multi-byte glyphs of the source are written as their three UTF-8 bytes.
* `std::vector<T>` is `List T`; `push_back` appends at the end.
* `double` values are the rationals they denote. Every arithmetic operation
  rounds its exact result to the nearest value with a 53-bit significand,
  ties to even (`fl`), as IEEE 754 binary64 does; the exponent range is not
  bounded (the program never leaves it).
* An out-of-bounds `operator[]` has no defined result: a function that can
  perform one returns `Option`, and `none` is that failure.
* `int` and `size_t` values are integers. The `size_t` subtractions that can
  wrap around (`lines.size() - 1`, `100 - size * 25`) are written with their
  wrap-around. Strings and vectors are taken to be shorter than `2^31`, so
  that the `int` variables that hold positions and counters hold them exactly.
-/

namespace ATS

/-! ## Text utilities -/

/-- The function `::tolower` in the "C" locale, on one byte. -/
def toLowerChar (c : Char) : Char :=
  if 'A' ≤ c ∧ c ≤ 'Z' then Char.ofNat (c.toNat + 32) else c

/-- The function `toLower`: `std::transform(..., ::tolower)`. -/
def toLower (s : List Char) : List Char :=
  s.map toLowerChar

/-- Membership in the set `" \t\r\n"` used by `trim`. -/
def isTrimChar (c : Char) : Bool :=
  c == ' ' || c == '\t' || c == '\r' || c == '\n'

/-- The call `s.find_first_not_of(" \t\r\n")`; `none` is `npos`. -/
def find_first_not_of : List Char → Option Nat
  | [] => none
  | c :: cs => if isTrimChar c then (find_first_not_of cs).map (· + 1) else some 0

/-- The call `s.find_last_not_of(" \t\r\n")`; `none` is `npos`. -/
def find_last_not_of : List Char → Option Nat
  | [] => none
  | c :: cs =>
    match find_last_not_of cs with
    | some i => some (i + 1)
    | none => if isTrimChar c then none else some 0

/-- The function `trim`: `s.substr(start, end - start + 1)`, or `""` when `start` is `npos`. -/
def trim (s : List Char) : List Char :=
  match find_first_not_of s with
  | none => []
  | some start =>
    match find_last_not_of s with
    | none => []
    | some stop => (s.drop start).take (stop - start + 1)

/-- The function `split`: the tokens read by `while (getline(tokenStream, token, separator))`.
`getline` reads up to and including the next separator and fails only when it
extracts nothing at all, so a separator always closes a (possibly empty)
token and text left after the last separator forms a final token. -/
def split : List Char → Char → List (List Char)
  | [], _ => []
  | c :: cs, separator =>
    if c = separator then [] :: split cs separator
    else
      match split cs separator with
      | [] => [[c]]
      | token :: tokens => (c :: token) :: tokens

/-- The lines read by `while (getline(iss, line)) lines.push_back(line)`. -/
def getLines (text : List Char) : List (List Char) :=
  split text '\n'

/-- The call `hay.find(needle)`: the first position at which `needle` occurs; `none` is `npos`. -/
def find : List Char → List Char → Option Nat
  | [], needle => if needle.isEmpty then some 0 else none
  | c :: cs, needle =>
    if needle.isPrefixOf (c :: cs) then some 0 else (find cs needle).map (· + 1)

/-- The test `hay.find(needle) != string::npos`. -/
def contains (hay needle : List Char) : Bool :=
  (find hay needle).isSome

/-! ## `double` arithmetic -/

/-- Number of halvings that take `n` below 2, with `fuel` steps available. -/
def log2Aux : Nat → Nat → Nat
  | 0, _ => 0
  | fuel + 1, n => if 2 ≤ n then log2Aux fuel (n / 2) + 1 else 0

/-- The value `⌊log₂ n⌋` for `n ≥ 1`. -/
def log2 (n : Nat) : Nat :=
  log2Aux n n

/-- The value `⌊log₂ (p / d)⌋` for positive `p`, `d`. -/
def ilog2 (p d : Nat) : Int :=
  let k : Int := (log2 p : Int) - (log2 d : Int)
  if d * 2 ^ k.toNat ≤ p * 2 ^ (-k).toNat then k else k - 1

/-- The integer nearest to `p / d`, ties to the even one. -/
def roundNE (p d : Nat) : Nat :=
  let q := p / d
  let r := p % d
  if 2 * r < d then q else if d < 2 * r then q + 1 else if q % 2 = 0 then q else q + 1

/-- The double nearest to `p / d` for positive `p`, `d`: the quotient is scaled
into `[2^52, 2^53)`, rounded to an integer, and scaled back. -/
def flPos (p d : Nat) : ℚ :=
  let e : Int := ilog2 p d - 52
  let m : Nat := roundNE (p * 2 ^ (-e).toNat) (d * 2 ^ e.toNat)
  mkRat (m * 2 ^ e.toNat) (2 ^ (-e).toNat)

/-- Rounding of an exact result to `double` (round to nearest, ties to even). -/
def fl (x : ℚ) : ℚ :=
  if x = 0 then 0
  else if 0 < x then flPos x.num.toNat x.den
  else -flPos (-x).num.toNat x.den

/-- Conversion of an integer to `double`. -/
def ofInt (n : Int) : ℚ := fl n

/-- The quotient `a / b` on doubles (`b` is never zero where the program divides). -/
def fdiv (a b : ℚ) : ℚ := fl (a / b)

/-- The product `a * b` on doubles. -/
def fmul (a b : ℚ) : ℚ := fl (a * b)

/-- The conversion `static_cast<int>(x)`: truncation toward zero. -/
def toInt (x : ℚ) : Int :=
  if 0 ≤ x then Int.ofNat (x.num.toNat / x.den) else -Int.ofNat ((-x).num.toNat / x.den)

/-- The conversion `static_cast<int>(round(x))`: `std::round` rounds halves away from zero. -/
def cround (x : ℚ) : Int :=
  toInt (if 0 ≤ x then x + 1 / 2 else x - 1 / 2)

/-! ## Keyword matching -/

/-- Embedding of `struct KeywordMatchResult`. -/
structure KeywordMatchResult where
  score : ℚ
  found_skills : List (List Char)
  missing_skills : List (List Char)

/-- One iteration of the loop over `required_skills` in `calculateKeywordMatch`:
the whole-text test, then the test on the `'.'`-separated sentences. -/
def matchStep (lower_text : List Char)
    (acc : List (List Char) × List (List Char)) (skill : List Char) :
    List (List Char) × List (List Char) :=
  let skill_lower := toLower skill
  if contains lower_text skill_lower then (acc.1 ++ [skill], acc.2)
  else
    let sentences := split lower_text '.'
    let found := sentences.any (fun sentence => contains sentence skill_lower)
    if found then (acc.1 ++ [skill], acc.2) else (acc.1, acc.2 ++ [skill])

/-- Embedding of `ResumeAnalyzer::calculateKeywordMatch`. -/
def calculateKeywordMatch (resume_text : List Char) (required_skills : List (List Char)) :
    KeywordMatchResult :=
  let lower_text := toLower resume_text
  let r := required_skills.foldl (matchStep lower_text) ([], [])
  { score :=
      if ¬ required_skills.isEmpty then
        fmul (fdiv (ofInt r.1.length) (ofInt required_skills.length)) (ofInt 100)
      else 0
    found_skills := r.1
    missing_skills := r.2 }

/-! ## Section presence -/

/-- The four keyword lists of `essential_sections`, in the iteration order of
the `std::map` (sorted by key: contact, education, experience, skills). -/
def essential_sections : List (List Char × List (List Char)) :=
  [ ("contact".toList,
      ["email".toList, "phone".toList, "address".toList, "linkedin".toList]),
    ("education".toList,
      ["education".toList, "university".toList, "college".toList, "degree".toList,
       "academic".toList]),
    ("experience".toList,
      ["experience".toList, "internship".toList, "work".toList,
       "position of responsibility".toList]),
    ("skills".toList,
      ["skills".toList, "technologies".toList, "tools".toList, "expertise".toList]) ]

/-- The counter `found` of one pass of the inner loop of `checkResumeSections`. -/
def countFound (lower_text : List Char) (keywords : List (List Char)) : Nat :=
  keywords.foldl (fun found keyword => if contains lower_text keyword then found + 1 else found) 0

/-- The value `section_score` of one category:
`min(25, static_cast<int>((static_cast<double>(found) / keywords.size()) * 25))`. -/
def categoryScore (found size : Nat) : Int :=
  min 25 (toInt (fmul (fdiv (ofInt found) (ofInt size)) (ofInt 25)))

/-- Embedding of `ResumeAnalyzer::checkResumeSections`. -/
def checkResumeSections (text : List Char) : Int :=
  let lower_text := toLower text
  essential_sections.foldl
    (fun total_score kv =>
      total_score + categoryScore (countFound lower_text kv.2) kv.2.length)
    0

/-! ## Regular expressions

The patterns handed to `std::regex` use only literals, character classes,
`\b`, grouping, alternation and greedy repetition. `regex_search` is modelled
by a backtracking matcher over these constructs. -/

/-- The pattern constructs that occur in the program. -/
inductive Regex where
  | eps : Regex
  | cls : (Char → Bool) → Regex
  | wordB : Regex
  | seq : Regex → Regex → Regex
  | alt : Regex → Regex → Regex
  | star : Regex → Regex

/-- The class `\d`. -/
def isDigit (c : Char) : Bool := '0' ≤ c && c ≤ '9'

/-- The class `\w`: letters, digits and the underscore. -/
def isWordChar (c : Char) : Bool :=
  ('a' ≤ c && c ≤ 'z') || ('A' ≤ c && c ≤ 'Z') || isDigit c || c == '_'

/-- The class `\s`. -/
def isSpace (c : Char) : Bool :=
  c == ' ' || c == '\t' || c == '\n' || c == '\r' || c == Char.ofNat 11 || c == Char.ofNat 12

/-- Whether the character at one side of a position is a word character;
there is none before the first and after the last character. -/
def isWordOpt : Option Char → Bool
  | none => false
  | some c => isWordChar c

/-- Greedy repetition: each round must consume input; `fuel` bounds the rounds. -/
def starRun (step : Option Char → List Char → List (Option Char × List Char)) :
    Nat → Option Char → List Char → List (Option Char × List Char)
  | 0, prev, s => [(prev, s)]
  | fuel + 1, prev, s =>
    ((step prev s).filter (fun r => r.2.length < s.length)).flatMap
        (fun r => starRun step fuel r.1 r.2)
      ++ [(prev, s)]

/-- All ways of matching a pattern at the start of `s`, in the order in which
a backtracking matcher tries them; each is the last character consumed (or
the character before `s`) and the input left. -/
def Regex.run : Regex → Option Char → List Char → List (Option Char × List Char)
  | .eps, prev, s => [(prev, s)]
  | .cls _, _, [] => []
  | .cls f, _, c :: s => if f c then [(some c, s)] else []
  | .wordB, prev, s => if isWordOpt prev != isWordOpt s.head? then [(prev, s)] else []
  | .seq a b, prev, s => (a.run prev s).flatMap (fun r => b.run r.1 r.2)
  | .alt a b, prev, s => a.run prev s ++ b.run prev s
  | .star a, prev, s => starRun (fun p t => a.run p t) s.length prev s

/-- The first match of a pattern at or after the start of `s`, as `match.str(0)`. -/
def searchFrom (r : Regex) : Option Char → List Char → Option (List Char)
  | prev, [] =>
    match r.run prev [] with
    | [] => none
    | _ :: _ => some []
  | prev, c :: s =>
    match r.run prev (c :: s) with
    | rest :: _ => some ((c :: s).take ((c :: s).length - rest.2.length))
    | [] => searchFrom r (some c) s

/-- The call `regex_search(text, pattern)`. -/
def regex_search (text : List Char) (pattern : Regex) : Bool :=
  (searchFrom pattern none text).isSome

namespace Regex

/-- One given character. -/
def chr (c : Char) : Regex := cls (fun x => x == c)

/-- A literal string. -/
def lit (s : String) : Regex := s.toList.foldr (fun c r => seq (chr c) r) eps

/-- The pattern `a+`. -/
def plus (a : Regex) : Regex := seq a (star a)

/-- The pattern `a?`. -/
def opt (a : Regex) : Regex := alt a eps

/-- Concatenation of a list of patterns. -/
def cat (rs : List Regex) : Regex := rs.foldr seq eps

/-- Alternation of a non-empty list of patterns, first alternative first. -/
def alts : List Regex → Regex
  | [] => cls (fun _ => false)
  | [r] => r
  | r :: rs => alt r (alts rs)

/-- The class `\d`. -/
def digit : Regex := cls isDigit

/-- The class `\w`. -/
def word : Regex := cls isWordChar

/-- The class `[\w\.-]`. -/
def wordDotDash : Regex := cls (fun c => isWordChar c || c == '.' || c == '-')

/-- The class `[\w-]`. -/
def wordDash : Regex := cls (fun c => isWordChar c || c == '-')

/-- The class `[-.]`. -/
def dashDot : Regex := cls (fun c => c == '-' || c == '.')

end Regex

/-! ## Formatting -/

/-- The bytes of the bullet glyph U+2022 in UTF-8. -/
def bulletGlyph : List Char := [Char.ofNat 0xE2, Char.ofNat 0x80, Char.ofNat 0xA2]

/-- The bytes of the arrow glyph U+2192 in UTF-8. -/
def arrowGlyph : List Char := [Char.ofNat 0xE2, Char.ofNat 0x86, Char.ofNat 0x92]

/-- The function `isalpha` in the "C" locale. -/
def isAlpha (c : Char) : Bool := ('a' ≤ c && c ≤ 'z') || ('A' ≤ c && c ≤ 'Z')

/-- The function `isupper` in the "C" locale. -/
def isUpper (c : Char) : Bool := 'A' ≤ c && c ≤ 'Z'

/-- The test of the first loop of `checkFormatting` on one line: non-empty
once trimmed and made of characters that are not letters or are upper case. -/
def isHeaderLine (ln : List Char) : Bool :=
  let trimmed := trim ln
  !trimmed.isEmpty && trimmed.all (fun c => !isAlpha c || isUpper c)

/-- The test of the second loop of `checkFormatting` on one line. -/
def isBulletLine (ln : List Char) : Bool :=
  let trimmed := trim ln
  if !trimmed.isEmpty then
    if trimmed.head? == some '-' || trimmed.head? == some '*' then true
    else if trimmed.take 3 == bulletGlyph || trimmed.take 3 == arrowGlyph then true
    else false
  else false

/-- The loop `for (int i = 0; i < lines.size() - 1; i++)` of `checkFormatting`,
from index `i` with `fuel` iterations left. The result is whether the body
reached its `break`; `lines[i]` and `lines[i + 1]` outside the vector have no
defined value, which is `none`. -/
def spacingLoop (lines : List (List Char)) : Nat → Nat → Option Bool
  | 0, _ => some false
  | fuel + 1, i =>
    match lines[i]? with
    | none => none
    | some li =>
      if (trim li).isEmpty then
        match lines[i + 1]? with
        | none => none
        | some lj => if (trim lj).isEmpty then some true else spacingLoop lines fuel (i + 1)
      else spacingLoop lines fuel (i + 1)

/-- The loop bound `lines.size() - 1`, computed in `size_t`: for an empty
vector the subtraction wraps around to `2^64 - 1`. -/
def spacingBound (size : Nat) : Nat :=
  if size = 0 then 2 ^ 64 - 1 else size - 1

/-- The pattern `\b[\w\.-]+@[\w\.-]+\.\w+\b` -/
def format_email_pattern : Regex :=
  Regex.cat [.wordB, .plus .wordDotDash, .chr '@', .plus .wordDotDash, .chr '.',
    .plus .word, .wordB]

/-- The pattern `\b\d{3}[-.]?\d{3}[-.]?\d{4}\b` -/
def format_phone_pattern : Regex :=
  Regex.cat [.wordB, .digit, .digit, .digit, .opt .dashDot, .digit, .digit, .digit,
    .opt .dashDot, .digit, .digit, .digit, .digit, .wordB]

/-- The pattern `linkedin\.com/\w+` -/
def format_linkedin_pattern : Regex :=
  Regex.cat [.lit "linkedin.com/", .plus .word]

/-- The last test of `checkFormatting`: none of the three patterns is found. -/
def noContactPattern (text : List Char) : Bool :=
  !regex_search text format_email_pattern &&
  !regex_search text format_phone_pattern &&
  !regex_search text format_linkedin_pattern

/-- Embedding of `ResumeAnalyzer::checkFormatting`: the pair of the score and the deduction
messages, or `none` when the blank-line loop reads outside `lines`. -/
def checkFormatting (text : List Char) : Option (Int × List (List Char)) :=
  let deductions : List (List Char) := []
  let score : Int := 100
  let (score, deductions) :=
    if text.length < 300 then (score - 30, deductions ++ ["Resume is too short".toList])
    else (score, deductions)
  let lines := getLines text
  let hasSectionHeader := lines.any isHeaderLine
  let (score, deductions) :=
    if !hasSectionHeader then
      (score - 20, deductions ++ ["No clear section headers found".toList])
    else (score, deductions)
  let hasBullets := lines.any isBulletLine
  let (score, deductions) :=
    if !hasBullets then
      (score - 20, deductions ++ ["No bullet points found for listing details".toList])
    else (score, deductions)
  match spacingLoop lines (spacingBound lines.length) 0 with
  | none => none
  | some spaced =>
    let (score, deductions) :=
      if spaced then (score - 15, deductions ++ ["Inconsistent spacing between sections".toList])
      else (score, deductions)
    let (score, deductions) :=
      if noContactPattern text then
        (score - 15,
          deductions ++ ["Missing or improperly formatted contact information".toList])
      else (score, deductions)
    some (max 0 score, deductions)

/-! ## Personal information -/

/-- Embedding of `struct PersonalInfo`. -/
structure PersonalInfo where
  name : List Char
  email : List Char
  phone : List Char
  linkedin : List Char
  github : List Char
  codeforces : List Char

/-- The pattern `[\w\.-]+@[\w\.-]+\.\w+` -/
def info_email_pattern : Regex :=
  Regex.cat [.plus .wordDotDash, .chr '@', .plus .wordDotDash, .chr '.', .plus .word]

/-- The pattern `(\+\d{1,3}[-.]?)?\s*\(?\d{3}\)?[-.]?\s*\d{3}[-.]?\s*\d{4}` -/
def info_phone_pattern : Regex :=
  Regex.cat
    [.opt (Regex.cat [.chr '+', .digit, .opt (.seq .digit (.opt .digit)), .opt .dashDot]),
     .star (.cls isSpace), .opt (.chr '('), .digit, .digit, .digit, .opt (.chr ')'),
     .opt .dashDot, .star (.cls isSpace), .digit, .digit, .digit, .opt .dashDot,
     .star (.cls isSpace), .digit, .digit, .digit, .digit]

/-- The pattern `linkedin\.com/in/[\w-]+` -/
def info_linkedin_pattern : Regex :=
  Regex.cat [.lit "linkedin.com/in/", .plus .wordDash]

/-- The pattern `github\.com/[\w-]+` -/
def github_pattern : Regex :=
  Regex.cat [.lit "github.com/", .plus .wordDash]

/-- The pattern `codeforces\.com/profile/[\w-]+` -/
def codeforces_pattern : Regex :=
  Regex.cat [.lit "codeforces.com/profile/", .plus .wordDash]

/-- The value of a field after `if (regex_search(text, match, p)) field = match.str(0)`;
the field starts out empty. -/
def matchStr (text : List Char) (pattern : Regex) : List Char :=
  match searchFrom pattern none text with
  | some m => m
  | none => []

/-- The string read by the single `getline(iss, info.name)`: the first line,
or the empty string when there is none. -/
def firstLine (text : List Char) : List Char :=
  match getLines text with
  | [] => []
  | line :: _ => line

/-- Embedding of `ResumeAnalyzer::extractPersonalInfo`. -/
def extractPersonalInfo (text : List Char) : PersonalInfo :=
  let name := trim (firstLine text)
  { name := if name.isEmpty then "Unknown".toList else name
    email := matchStr text info_email_pattern
    phone := matchStr text info_phone_pattern
    linkedin := matchStr text info_linkedin_pattern
    github := matchStr text github_pattern
    codeforces := matchStr text codeforces_pattern }

/-! ## Section extraction -/

/-- The member `file` set by the constructor of `ResumeAnalyzer`. -/
def file : List (List Char) :=
  ["experience".toList, "education".toList, "skills".toList, "work".toList,
   "project".toList, "objective".toList, "summary".toList, "employment".toList,
   "qualification".toList, "achievements".toList]

/-- The string built by `for (auto &part : current_entry) oss << part << " "`. -/
def entryText (current_entry : List (List Char)) : List Char :=
  current_entry.foldl (fun oss part => oss ++ part ++ [' ']) []

/-- The list `education_keywords` of `extractEducation`. -/
def education_keywords : List (List Char) :=
  ["education".toList, "academic".toList, "qualification".toList, "degree".toList,
   "university".toList, "college".toList, "school".toList, "institute".toList,
   "certification".toList, "diploma".toList, "bachelor".toList, "master".toList,
   "phd".toList, "b.tech".toList, "m.tech".toList, "b.e".toList, "m.e".toList,
   "b.sc".toList, "m.sc".toList, "bca".toList, "mca".toList, "b.com".toList,
   "m.com".toList, "b.cs-it".toList, "imca".toList, "bba".toList, "mba".toList,
   "honors".toList, "scholarship".toList]

/-- The variables of the loop of `extractEducation`. -/
structure EducationLoop where
  education : List (List Char)
  inEducationSection : Bool
  current_entry : List (List Char)

/-- One iteration of the loop of `extractEducation` over `lines`. -/
def extractEducation.step (file : List (List Char)) (st : EducationLoop) (ln : List Char) :
    EducationLoop :=
  let trimmed := trim ln
  let lower_ln := toLower trimmed
  let isHeader := education_keywords.any (fun keyword => contains lower_ln keyword)
  if isHeader then
    { st with
      current_entry :=
        if !trimmed.isEmpty then st.current_entry ++ [trimmed] else st.current_entry
      inEducationSection := true }
  else if st.inEducationSection then
    let hitOtherSection := file.any (fun kw => contains lower_ln kw)
    if hitOtherSection then
      if !st.current_entry.isEmpty then
        { education := st.education ++ [entryText st.current_entry]
          inEducationSection := false
          current_entry := [] }
      else { st with inEducationSection := false }
    else if !trimmed.isEmpty then
      { st with current_entry := st.current_entry ++ [trimmed] }
    else if !st.current_entry.isEmpty then
      { st with
        education := st.education ++ [entryText st.current_entry]
        current_entry := [] }
    else st
  else st

/-- Embedding of `ResumeAnalyzer::extractEducation`. -/
def extractEducation (file : List (List Char)) (text : List Char) : List (List Char) :=
  let lines := getLines text
  let st := lines.foldl (extractEducation.step file)
    { education := [], inEducationSection := false, current_entry := [] }
  if !st.current_entry.isEmpty then st.education ++ [entryText st.current_entry]
  else st.education

/-- The list `experience_keywords` of `extractExperience`. -/
def experience_keywords : List (List Char) :=
  ["experience".toList, "employment".toList, "work history".toList,
   "professional experience".toList, "work experience".toList, "career history".toList,
   "professional background".toList, "employment history".toList, "job history".toList,
   "positions held".toList, "job title".toList, "job responsibilities".toList,
   "job description".toList, "job summary".toList]

/-- The variables of the loop of `extractExperience`. -/
structure ExperienceLoop where
  experience : List (List Char)
  inExperienceSection : Bool
  current_entry : List (List Char)

/-- One iteration of the loop of `extractExperience` over `lines`. -/
def extractExperience.step (file : List (List Char)) (st : ExperienceLoop) (ln : List Char) :
    ExperienceLoop :=
  let trimmed := trim ln
  let lower_ln := toLower trimmed
  let isHeader := experience_keywords.any (fun keyword => contains lower_ln keyword)
  if isHeader then
    { st with
      current_entry :=
        if !trimmed.isEmpty then st.current_entry ++ [trimmed] else st.current_entry
      inExperienceSection := true }
  else if st.inExperienceSection then
    let hitOtherSection := file.any (fun kw => contains lower_ln kw)
    if hitOtherSection then
      if !st.current_entry.isEmpty then
        { experience := st.experience ++ [entryText st.current_entry]
          inExperienceSection := false
          current_entry := [] }
      else { st with inExperienceSection := false }
    else if !trimmed.isEmpty then
      { st with current_entry := st.current_entry ++ [trimmed] }
    else if !st.current_entry.isEmpty then
      { st with
        experience := st.experience ++ [entryText st.current_entry]
        current_entry := [] }
    else st
  else st

/-- Embedding of `ResumeAnalyzer::extractExperience`. -/
def extractExperience (file : List (List Char)) (text : List Char) : List (List Char) :=
  let lines := getLines text
  let st := lines.foldl (extractExperience.step file)
    { experience := [], inExperienceSection := false, current_entry := [] }
  if !st.current_entry.isEmpty then st.experience ++ [entryText st.current_entry]
  else st.experience

/-- The list `project_keywords` of `extractProjects`. -/
def project_keywords : List (List Char) :=
  ["projects".toList, "personal projects".toList, "academic projects".toList,
   "key projects".toList, "major projects".toList, "professional projects".toList,
   "project experience".toList, "relevant projects".toList, "featured projects".toList,
   "latest projects".toList, "top projects".toList]

/-- The variables of the loop of `extractProjects`. -/
structure ProjectsLoop where
  projects : List (List Char)
  inProjectSection : Bool
  current_entry : List (List Char)

/-- One iteration of the loop of `extractProjects` over `lines`. -/
def extractProjects.step (file : List (List Char)) (st : ProjectsLoop) (ln : List Char) :
    ProjectsLoop :=
  let trimmed := trim ln
  let lower_ln := toLower trimmed
  let isHeader := project_keywords.any (fun keyword => contains lower_ln keyword)
  if isHeader then
    { st with
      current_entry :=
        if !trimmed.isEmpty then st.current_entry ++ [trimmed] else st.current_entry
      inProjectSection := true }
  else if st.inProjectSection then
    let hitOtherSection := file.any (fun kw => contains lower_ln kw)
    if hitOtherSection then
      if !st.current_entry.isEmpty then
        { projects := st.projects ++ [entryText st.current_entry]
          inProjectSection := false
          current_entry := [] }
      else { st with inProjectSection := false }
    else if !trimmed.isEmpty then
      { st with current_entry := st.current_entry ++ [trimmed] }
    else if !st.current_entry.isEmpty then
      { st with
        projects := st.projects ++ [entryText st.current_entry]
        current_entry := [] }
    else st
  else st

/-- Embedding of `ResumeAnalyzer::extractProjects`. -/
def extractProjects (file : List (List Char)) (text : List Char) : List (List Char) :=
  let lines := getLines text
  let st := lines.foldl (extractProjects.step file)
    { projects := [], inProjectSection := false, current_entry := [] }
  if !st.current_entry.isEmpty then st.projects ++ [entryText st.current_entry]
  else st.projects

/-! ## The analysis -/

/-- Embedding of `struct ResumeAnalysisResult`; `section_scores` lists the entries of the
`std::map` in key order. -/
structure ResumeAnalysisResult where
  personal_info : PersonalInfo
  ats_score : Int
  keyword_match : KeywordMatchResult
  section_score : Int
  format_score : Int
  education : List (List Char)
  experience : List (List Char)
  projects : List (List Char)
  skills : List (List Char)
  suggestions : List (List Char)
  section_scores : List (List Char × Int)

/-- The pattern `\b(19|20)\d{2}\b` -/
def date_pattern : Regex :=
  Regex.cat [.wordB, .alt (.lit "19") (.lit "20"), .digit, .digit, .wordB]

/-- The bracket expression of `bullet_pattern`: the three bytes of the bullet
glyph, `-` and `*`. -/
def bullet_pattern : Regex :=
  .cls (fun c => bulletGlyph.contains c || c == '-' || c == '*')

/-- The pattern `\b(developed|managed|created|implemented|designed|led|improved)\b` -/
def action_verbs : Regex :=
  Regex.cat [.wordB,
    Regex.alts [.lit "developed", .lit "managed", .lit "created", .lit "implemented",
      .lit "designed", .lit "led", .lit "improved"],
    .wordB]

/-- The pattern `\b(bachelor|master|phd|b\.|m\.|diploma)\b` -/
def degree_pattern : Regex :=
  Regex.cat [.wordB,
    Regex.alts [.lit "bachelor", .lit "master", .lit "phd", .lit "b.", .lit "m.",
      .lit "diploma"],
    .wordB]

/-- The pattern `\b(gpa|cgpa|grade|percentage)\b` -/
def gpa_pattern : Regex :=
  Regex.cat [.wordB,
    Regex.alts [.lit "gpa", .lit "cgpa", .lit "grade", .lit "percentage"],
    .wordB]

/-- Conversion of a `size_t` value to `int`: the low 32 bits, read as signed. -/
def sizeToInt (n : Nat) : Int :=
  if n % 2 ^ 32 < 2 ^ 31 then Int.ofNat (n % 2 ^ 32) else Int.ofNat (n % 2 ^ 32) - 2 ^ 32

/-- The statement `int x = 100 - (suggestions.size() * 25);`: the subtraction is carried out
in `size_t` (64 bits) and the result converted to `int`. -/
def groupScore (size : Nat) : Int :=
  sizeToInt ((100 + (2 ^ 64 - size * 25 % 2 ^ 64)) % 2 ^ 64)

/-- The contact suggestions of `analyzeResume`. -/
def contactSuggestions (info : PersonalInfo) : List (List Char) :=
  (if info.email.isEmpty then ["Add your email address".toList] else []) ++
  (if info.phone.isEmpty then ["Add your phone number".toList] else []) ++
  (if info.linkedin.isEmpty then ["Add your LinkedIn profile URL".toList] else [])

/-- The skills suggestions of `analyzeResume`. -/
def skillsSuggestions (missing_skills : List (List Char)) : List (List Char) :=
  if !missing_skills.isEmpty then
    missing_skills.foldl (fun acc it => acc ++ [it]) ["Mising skills are: ".toList]
  else []

/-- The experience suggestions of `analyzeResume`. -/
def experienceSuggestions (experience : List (List Char)) : List (List Char) :=
  if experience.isEmpty then ["Add your work experience section".toList]
  else
    let has_dates := experience.any (fun exp => regex_search exp date_pattern)
    let has_bullets := experience.any (fun exp => regex_search exp bullet_pattern)
    let has_action_verbs := experience.any (fun exp => regex_search (toLower exp) action_verbs)
    (if !has_dates then ["Include dates for each work experience".toList] else []) ++
    (if !has_bullets then
      ["Use bullet points to list your achievements and responsibilities".toList]
     else []) ++
    (if !has_action_verbs then ["Start bullet points with strong action verbs".toList]
     else [])

/-- The education suggestions of `analyzeResume`. -/
def educationSuggestions (education : List (List Char)) (require_gpa : Bool) :
    List (List Char) :=
  if education.isEmpty then ["Add your educational background".toList]
  else
    let has_dates := education.any (fun edu => regex_search edu date_pattern)
    let has_degree := education.any (fun edu => regex_search (toLower edu) degree_pattern)
    let has_gpa := education.any (fun edu => regex_search (toLower edu) gpa_pattern)
    (if !has_dates then ["Include graduation dates".toList] else []) ++
    (if !has_degree then ["Specify your degree type".toList] else []) ++
    (if !has_gpa && require_gpa then ["Include your CGPA if it's above 7.0".toList] else [])

/-- The weighted sum of `analyzeResume`: every product is a `double`, rounded
by `round` and converted to `int` before the sum. The weights are the doubles
nearest to 0.1, 0.35, 0.25 and 0.2. -/
def atsScore (contact_score skills_score experience_score education_score format_score : Int) :
    Int :=
  cround (fmul (ofInt contact_score) (fl (1 / 10))) +
  cround (fmul (ofInt skills_score) (fl (35 / 100))) +
  cround (fmul (ofInt experience_score) (fl (25 / 100))) +
  cround (fmul (ofInt education_score) (fl (1 / 10))) +
  cround (fmul (ofInt format_score) (fl (2 / 10)))

/-- Embedding of `ResumeAnalyzer::analyzeResume`; `none` when `checkFormatting` fails. -/
def analyzeResume (raw_text : List Char) (required_skills : List (List Char))
    (require_gpa : Bool) : Option ResumeAnalysisResult :=
  let personal_info := extractPersonalInfo raw_text
  let keyword_match := calculateKeywordMatch raw_text required_skills
  let education := extractEducation file raw_text
  let experience := extractExperience file raw_text
  let projects := extractProjects file raw_text
  let section_score := checkResumeSections raw_text
  match checkFormatting raw_text with
  | none => none
  | some formatResult =>
    let format_score := formatResult.1
    let format_deductions := formatResult.2
    let contact_suggestions := contactSuggestions personal_info
    let skills_suggestions := skillsSuggestions keyword_match.missing_skills
    let experience_suggestions := experienceSuggestions experience
    let education_suggestions := educationSuggestions education require_gpa
    let format_suggestions := if format_score < 100 then format_deductions else []
    let contact_score := groupScore contact_suggestions.length
    let skills_score := toInt keyword_match.score
    let experience_score := groupScore experience_suggestions.length
    let education_score := groupScore education_suggestions.length
    let ats_score :=
      atsScore contact_score skills_score experience_score education_score format_score
    let suggestions :=
      contact_suggestions ++ skills_suggestions ++ experience_suggestions ++
        education_suggestions ++ format_suggestions
    some
      { personal_info := personal_info
        ats_score := ats_score
        keyword_match := keyword_match
        section_score := section_score
        format_score := format_score
        education := education
        experience := experience
        projects := projects
        skills := []
        suggestions :=
          if suggestions.isEmpty then
            ["Your resume is well-optimized for ATS systems".toList]
          else suggestions
        section_scores :=
          [("contact".toList, contact_score), ("education".toList, education_score),
           ("experience".toList, experience_score), ("format".toList, format_score),
           ("skills".toList, skills_score)] }

/-! ## Definitions used in the statements -/

/-- The test that decides whether a skill is pushed to `found_skills`. -/
def skillFound (lower_text skill : List Char) : Bool :=
  contains lower_text (toLower skill) ||
    (split lower_text '.').any (fun sentence => contains sentence (toLower skill))

/-- The significand chosen by `flPos`. -/
def flMant (p d : Nat) : Nat :=
  roundNE (p * 2 ^ (-(ilog2 p d - 52)).toNat) (d * 2 ^ (ilog2 p d - 52).toNat)

/-- The binade of a positive rational. -/
def expo (x : ℚ) : ℤ := ilog2 x.num.toNat x.den

/-- The significand of the double nearest to a positive rational. -/
def mant (x : ℚ) : ℕ := flMant x.num.toNat x.den

/-- The number of keywords of a list that occur in the case-folded text. -/
def keywordsPresent (text : List Char) (keywords : List (List Char)) : Nat :=
  (keywords.filter (fun keyword => contains (toLower text) keyword)).length

/-- The four values `section_score` that `checkResumeSections` adds up, in
the order contact, education, experience, skills. -/
def sectionContributions (text : List Char) : List Int :=
  essential_sections.map
    (fun kv => categoryScore (countFound (toLower text) kv.2) kv.2.length)

/-- The contribution the specification gives for a category:
`min(25, round(25 * found / total))`, halves rounded away from zero. -/
def roundedShare (found total : Nat) : Int :=
  min 25 (cround (25 * (found : ℚ) / total))

/-- The contribution with the quotient truncated: `min(25, ⌊25 * found / total⌋)`. -/
def truncatedShare (found total : Nat) : Int :=
  min 25 (Int.ofNat (25 * found / total))

/-- The text of scenario C: the lines `PROJECTS`, `- Built a cache`, a blank
line and `SKILLS`. -/
def scenarioC : List Char :=
  "PROJECTS\n- Built a cache\n\nSKILLS".toList

/-! ### The section segmenter of the specification -/

/-- The two states of the segmenter. -/
inductive SegState where
  | OUTSIDE : SegState
  | INSIDE : SegState
  deriving DecidableEq

/-- The segmenter: its state, the pending entry buffer and the entries completed so far. -/
structure Segmenter where
  state : SegState
  buffer : List (List Char)
  output : List (List Char)

/-- Flushing: a non-empty buffer becomes a completed entry and is cleared. -/
def Segmenter.flush (m : Segmenter) : Segmenter :=
  if m.buffer.isEmpty then m
  else { m with output := m.output ++ [entryText m.buffer], buffer := [] }

/-- The transition rules 1 to 5 of the segmenter, for one line. -/
def segment.step (headerKeywords foreignKeywords : List (List Char)) (m : Segmenter)
    (line : List Char) : Segmenter :=
  let trimmed := trim line
  let folded := toLower trimmed
  if headerKeywords.any (fun keyword => contains folded keyword) then
    -- rule 1: a header line is appended and the state becomes INSIDE
    { m with
      buffer := if trimmed.isEmpty then m.buffer else m.buffer ++ [trimmed]
      state := SegState.INSIDE }
  else
    match m.state with
    | SegState.INSIDE =>
      if foreignKeywords.any (fun keyword => contains folded keyword) then
        -- rule 2: a foreign line flushes and leaves the section; it is not added
        { m.flush with state := SegState.OUTSIDE }
      else if !trimmed.isEmpty then
        -- rule 3: a non-blank line is appended
        { m with buffer := m.buffer ++ [trimmed] }
      else
        -- rule 4: a blank line flushes and stays INSIDE
        m.flush
    | SegState.OUTSIDE =>
      -- rule 5: anything else while OUTSIDE is ignored
      m

/-- The segmenter run over the lines of a text from the state OUTSIDE, with
the flush at the end of the input. -/
def segment (headerKeywords foreignKeywords : List (List Char)) (text : List Char) :
    List (List Char) :=
  ((getLines text).foldl (segment.step headerKeywords foreignKeywords)
    { state := SegState.OUTSIDE, buffer := [], output := [] }).flush.output

/-- The segmenter state that the loop variables of `extractEducation` stand for. -/
def EducationLoop.toSegmenter (st : EducationLoop) : Segmenter :=
  { state := if st.inEducationSection then SegState.INSIDE else SegState.OUTSIDE
    buffer := st.current_entry
    output := st.education }

/-- The segmenter state that the loop variables of `extractExperience` stand for. -/
def ExperienceLoop.toSegmenter (st : ExperienceLoop) : Segmenter :=
  { state := if st.inExperienceSection then SegState.INSIDE else SegState.OUTSIDE
    buffer := st.current_entry
    output := st.experience }

/-- The segmenter state that the loop variables of `extractProjects` stand for. -/
def ProjectsLoop.toSegmenter (st : ProjectsLoop) : Segmenter :=
  { state := if st.inProjectSection then SegState.INSIDE else SegState.OUTSIDE
    buffer := st.current_entry
    output := st.projects }

/-! ### The formatting checks of the specification -/

/-- Two consecutive lines are both blank after trimming. -/
def hasBlankPair : List (List Char) → Bool
  | a :: b :: rest => ((trim a).isEmpty && (trim b).isEmpty) || hasBlankPair (b :: rest)
  | _ => false

/-- The points a check takes off: `points` when it fired, nothing otherwise. -/
def deduct (fired : Bool) (points : Int) : Int :=
  if fired then points else 0

/-- The message of a check: present when it fired. -/
def message (fired : Bool) (text : String) : List (List Char) :=
  if fired then [text.toList] else []

/-- The five checks, in their order: too short, no header line, no bullet
line, two consecutive blank lines, no contact pattern. -/
def formatChecks (text : List Char) : Bool × Bool × Bool × Bool × Bool :=
  (decide (text.length < 300),
   !(getLines text).any isHeaderLine,
   !(getLines text).any isBulletLine,
   hasBlankPair (getLines text),
   noContactPattern text)

/-- The score of the specification for given outcomes of the five checks. -/
def scoreOfChecks (c : Bool × Bool × Bool × Bool × Bool) : Int :=
  max 0 (100 - deduct c.1 30 - deduct c.2.1 20 - deduct c.2.2.1 20 - deduct c.2.2.2.1 15
    - deduct c.2.2.2.2 15)

/-- The messages of the specification for given outcomes of the five checks. -/
def messagesOfChecks (c : Bool × Bool × Bool × Bool × Bool) : List (List Char) :=
  message c.1 "Resume is too short" ++
  message c.2.1 "No clear section headers found" ++
  message c.2.2.1 "No bullet points found for listing details" ++
  message c.2.2.2.1 "Inconsistent spacing between sections" ++
  message c.2.2.2.2 "Missing or improperly formatted contact information"

/-- The formatting score of the specification. -/
def formatScore (text : List Char) : Int :=
  scoreOfChecks (formatChecks text)

/-- The deduction messages of the specification. -/
def formatMessages (text : List Char) : List (List Char) :=
  messagesOfChecks (formatChecks text)

/-- A text on which all five checks fire. -/
def allFiveText : List Char := "a\n\n\n".toList

/-! ### The name of the specification -/

/-- The name the specification gives: the first line that is non-blank after
trimming, trimmed, and `Unknown` when there is no such line. -/
def firstNonBlankName (text : List Char) : List Char :=
  match (getLines text).find? (fun line => !(trim line).isEmpty) with
  | some line => trim line
  | none => "Unknown".toList

/-- A text whose first line is blank and whose second line is `John`. -/
def blankThenJohn : List Char := "\nJohn".toList

/-- The text of scenario E. -/
def scenarioE : List Char := "It uses C++. Also Python.".toList

/-! ### The suggestion groups -/

/-- The header of the skills suggestions (spelled as in the source). -/
def skillsHeader : List Char := "Mising skills are: ".toList

/-- The formatting group: the deduction messages when the formatting score is
below 100, nothing otherwise. -/
def formatSuggestions (text : List Char) : List (List Char) :=
  if formatScore text < 100 then formatMessages text else []

/-- The five suggestion groups of `analyzeResume` in their order: contact,
skills, experience, education, formatting. -/
def suggestionGroups (text : List Char) (required_skills : List (List Char))
    (require_gpa : Bool) : List (List (List Char)) :=
  [contactSuggestions (extractPersonalInfo text),
   skillsSuggestions (calculateKeywordMatch text required_skills).missing_skills,
   experienceSuggestions (extractExperience file text),
   educationSuggestions (extractEducation file text) require_gpa,
   formatSuggestions text]

/-- The message that stands for an empty suggestion list. -/
def wellOptimized : List Char := "Your resume is well-optimized for ATS systems".toList

/-- The five sub-scores of `analyzeResume` as functions of its input, in the
key order of `section_scores`. -/
def subScores (text : List Char) (required_skills : List (List Char)) (require_gpa : Bool) :
    List (List Char × Int) :=
  [("contact".toList, groupScore (contactSuggestions (extractPersonalInfo text)).length),
   ("education".toList,
     groupScore (educationSuggestions (extractEducation file text) require_gpa).length),
   ("experience".toList, groupScore (experienceSuggestions (extractExperience file text)).length),
   ("format".toList, formatScore text),
   ("skills".toList, toInt (calculateKeywordMatch text required_skills).score)]

/-- The entry of `section_scores` under a key. -/
def sectionScore (res : ResumeAnalysisResult) (key : String) : Option Int :=
  res.section_scores.lookup key.toList

/-- A text for which `analyzeResume` has nothing to suggest: contact data, an
experience and an education section with dates, a bullet, an action verb and
a degree, and more than 300 characters. -/
def completeResume : List Char :=
  ("John Doe\nEmail: john@x.com\nPhone: 636-212-7519\nlinkedin.com/in/johndoe\n" ++
   "EXPERIENCE\n- Developed software at Acme in 2019\n" ++
   "EDUCATION\n- Bachelor of Science 2018\n").toList ++ List.replicate 200 'x'


/-- The entries are built, in order, from groups of non-blank trimmed lines,
and the lines of all groups, one group after the other, are lines of the
document in document order. -/
def EntriesInOrder (text : List Char) (entries : List (List Char)) : Prop :=
  ∃ groups : List (List (List Char)),
    entries = groups.map entryText ∧
    (∀ g ∈ groups, g ≠ []) ∧
    (∀ l ∈ groups.flatten, l ≠ []) ∧
    groups.flatten.Sublist ((getLines text).map trim)

/-! ### Words, years and bullets in an entry -/

/-- The character before a position: the last character of what precedes it,
or `prev` when nothing precedes it. -/
def charBefore (prev : Option Char) (a : List Char) : Option Char :=
  match a.getLast? with
  | some c => some c
  | none => prev

/-- The string `w` occurs in `e` as a word of its own: the characters next
to the occurrence, if any, are not letters, digits or underscores. -/
def OccursAsWord (w e : List Char) : Prop :=
  ∃ pre post, e = pre ++ w ++ post ∧
    isWordOpt pre.getLast? = false ∧ isWordOpt post.head? = false

/-- A four-digit year from 1900 to 2099. -/
def IsYear (w : List Char) : Prop :=
  ∃ d3 d4, (w = ['1', '9', d3, d4] ∨ w = ['2', '0', d3, d4]) ∧
    isDigit d3 = true ∧ isDigit d4 = true

/-- The entry contains a bullet character: the bullet glyph, `-` or `*`. -/
def HasBullet (e : List Char) : Prop :=
  bulletGlyph <:+: e ∨ '-' ∈ e ∨ '*' ∈ e

/-- A text whose experience entry has a bullet, the verb `developed` and the
year 2019 written right after letters. -/
def attachedYearText : List Char := "EXPERIENCE\n- developed tools in FY2019".toList

/-- A text whose experience entry has a bullet, the verb `developed` and the
year 2019 as a word of its own. -/
def scenarioD : List Char := "EXPERIENCE\n- Developed a cache in 2019".toList

/-- A text of four lines: a line with a header keyword of each extractor, a
plain line, a blank line and another plain line. -/
def blankLineText : List Char :=
  "Education, Experience and Projects\nAcme 2019\n \nInitech 2020".toList

/-! ### Repeated suggestions -/

/-- The messages of the contact, experience, education and formatting groups,
in the order in which `analyzeResume` can emit them. -/
def fixedMessages : List (List Char) :=
  ["Add your email address".toList, "Add your phone number".toList,
   "Add your LinkedIn profile URL".toList,
   "Add your work experience section".toList,
   "Include dates for each work experience".toList,
   "Use bullet points to list your achievements and responsibilities".toList,
   "Start bullet points with strong action verbs".toList,
   "Add your educational background".toList, "Include graduation dates".toList,
   "Specify your degree type".toList, "Include your CGPA if it's above 7.0".toList,
   "Resume is too short".toList, "No clear section headers found".toList,
   "No bullet points found for listing details".toList,
   "Inconsistent spacing between sections".toList,
   "Missing or improperly formatted contact information".toList]

/-- The suggestions of the four groups whose messages are fixed: contact,
experience, education and formatting, in this order. -/
def fixedGroupSuggestions (text : List Char) (require_gpa : Bool) : List (List Char) :=
  contactSuggestions (extractPersonalInfo text) ++
  experienceSuggestions (extractExperience file text) ++
  educationSuggestions (extractEducation file text) require_gpa ++
  formatSuggestions text

/-! ### The one-phase matcher -/

/-- One iteration of the one-phase matcher: a skill is found exactly when its
case-folded form is a substring of the case-folded text. -/
def onePhaseStep (lower_text : List Char)
    (acc : List (List Char) × List (List Char)) (skill : List Char) :
    List (List Char) × List (List Char) :=
  if contains lower_text (toLower skill) then (acc.1 ++ [skill], acc.2)
  else (acc.1, acc.2 ++ [skill])

/-- The one-phase matcher: the loop of `calculateKeywordMatch` with the
whole-text test alone, and the same score. -/
def onePhaseMatch (resume_text : List Char) (required_skills : List (List Char)) :
    KeywordMatchResult :=
  let lower_text := toLower resume_text
  let r := required_skills.foldl (onePhaseStep lower_text) ([], [])
  { score :=
      if ¬ required_skills.isEmpty then
        fmul (fdiv (ofInt r.1.length) (ofInt required_skills.length)) (ofInt 100)
      else 0
    found_skills := r.1
    missing_skills := r.2 }

/-- A text with the lowest possible ATS score: no contact data, an experience
and an education entry without dates, bullets, verbs or degree, and all five
formatting deductions. -/
def lowestScoreText : List Char := "experience school\n\n\n".toList

/-! ### The weighted sum of the specification -/

/-- The weighted sum as the specification writes it: every product
score × weight is taken exactly and rounded half away from zero on its own. -/
def claimedAtsScore (contact skills experience education format : Int) : Int :=
  cround ((contact : ℚ) * (1 / 10)) + cround ((skills : ℚ) * (35 / 100)) +
  cround ((experience : ℚ) * (25 / 100)) + cround ((education : ℚ) * (1 / 10)) +
  cround ((format : ℚ) * (2 / 10))

/-- A text that contains nine of the ten skills of `nineOfTenSkills`. -/
def nineOfTenText : List Char := "abcdefghi email".toList

/-- Ten required skills, the last of which does not occur in `nineOfTenText`. -/
def nineOfTenSkills : List (List Char) :=
  ["a".toList, "b".toList, "c".toList, "d".toList, "e".toList, "f".toList, "g".toList,
   "h".toList, "i".toList, "z".toList]

/-! # Properties -/

/-! ## Rounding to `double` -/

theorem log2Aux_spec (fuel : Nat) : ∀ n : Nat, n ≤ fuel → 1 ≤ n →
    2 ^ log2Aux fuel n ≤ n ∧ n < 2 ^ (log2Aux fuel n + 1) := by
  induction fuel with
  | zero => intro n h1 h2; omega
  | succ fuel ih =>
    intro n h1 h2
    unfold log2Aux
    by_cases h : 2 ≤ n
    · rw [if_pos h]
      have h3 : n / 2 ≤ fuel := by omega
      have h4 : 1 ≤ n / 2 := by omega
      obtain ⟨ha, hb⟩ := ih (n / 2) h3 h4
      constructor
      · rw [pow_succ]; omega
      · rw [pow_succ]; omega
    · rw [if_neg h]
      have : n = 1 := by omega
      subst this
      simp

theorem log2_spec (n : Nat) (h : 1 ≤ n) : 2 ^ log2 n ≤ n ∧ n < 2 ^ (log2 n + 1) :=
  log2Aux_spec n n (le_refl n) h

/-- A power of two with an integer exponent, as a quotient of two natural powers. -/
theorem zpow_two_eq (e : Int) : (2 : ℚ) ^ e = (2 ^ e.toNat : ℕ) / (2 ^ (-e).toNat : ℕ) := by
  rcases le_total 0 e with h | h
  · obtain ⟨n, rfl⟩ := Int.eq_ofNat_of_zero_le h
    simp
  · obtain ⟨n, hn⟩ := Int.eq_ofNat_of_zero_le (neg_nonneg.mpr h)
    have he : e = -(n : Int) := by omega
    subst he
    simp

theorem ilog2_spec (p d : Nat) (hp : 1 ≤ p) (hd : 1 ≤ d) :
    (2 : ℚ) ^ ilog2 p d ≤ (p : ℚ) / d ∧ (p : ℚ) / d < (2 : ℚ) ^ (ilog2 p d + 1) := by
  obtain ⟨pa, pb⟩ := log2_spec p hp
  obtain ⟨da, db⟩ := log2_spec d hd
  have hdq : (0 : ℚ) < d := by exact_mod_cast hd
  have pa' : (2 : ℚ) ^ (log2 p : ℤ) ≤ p := by
    rw [zpow_natCast]; exact_mod_cast pa
  have pb' : (p : ℚ) < (2 : ℚ) ^ ((log2 p : ℤ) + 1) := by
    have : ((log2 p : ℤ) + 1) = ((log2 p + 1 : ℕ) : ℤ) := by push_cast; ring
    rw [this, zpow_natCast]; exact_mod_cast pb
  have da' : (2 : ℚ) ^ (log2 d : ℤ) ≤ d := by
    rw [zpow_natCast]; exact_mod_cast da
  have db' : (d : ℚ) < (2 : ℚ) ^ ((log2 d : ℤ) + 1) := by
    have : ((log2 d : ℤ) + 1) = ((log2 d + 1 : ℕ) : ℤ) := by push_cast; ring
    rw [this, zpow_natCast]; exact_mod_cast db
  have key : ∀ k : ℤ, (d * 2 ^ k.toNat ≤ p * 2 ^ (-k).toNat) ↔ (2 : ℚ) ^ k ≤ (p : ℚ) / d := by
    intro k
    rw [zpow_two_eq, le_div_iff₀ hdq, div_mul_eq_mul_div, div_le_iff₀ (by positivity)]
    constructor
    · intro h
      have : ((d * 2 ^ k.toNat : ℕ) : ℚ) ≤ ((p * 2 ^ (-k).toNat : ℕ) : ℚ) := by exact_mod_cast h
      push_cast at this ⊢
      linarith
    · intro h
      have : ((d * 2 ^ k.toNat : ℕ) : ℚ) ≤ ((p * 2 ^ (-k).toNat : ℕ) : ℚ) := by
        push_cast at h ⊢
        linarith
      exact_mod_cast this
  have two_pos : ∀ k : ℤ, (0 : ℚ) < (2 : ℚ) ^ k := fun k => zpow_pos (by norm_num) k
  unfold ilog2
  simp only
  split_ifs with h
  · refine ⟨(key _).mp h, ?_⟩
    -- p / d < 2^(a+1) / 2^b
    rw [div_lt_iff₀ hdq]
    calc (p : ℚ) < (2 : ℚ) ^ ((log2 p : ℤ) + 1) := pb'
      _ = (2 : ℚ) ^ ((log2 p : ℤ) - (log2 d : ℤ) + 1) * (2 : ℚ) ^ (log2 d : ℤ) := by
          rw [← zpow_add₀ (by norm_num : (2 : ℚ) ≠ 0)]; congr 1; ring
      _ ≤ (2 : ℚ) ^ ((log2 p : ℤ) - (log2 d : ℤ) + 1) * d :=
          mul_le_mul_of_nonneg_left da' (le_of_lt (two_pos _))
  · constructor
    · rw [le_div_iff₀ hdq]
      calc (2 : ℚ) ^ ((log2 p : ℤ) - (log2 d : ℤ) - 1) * d
          ≤ (2 : ℚ) ^ ((log2 p : ℤ) - (log2 d : ℤ) - 1) * (2 : ℚ) ^ ((log2 d : ℤ) + 1) :=
            mul_le_mul_of_nonneg_left (le_of_lt db') (le_of_lt (two_pos _))
        _ = (2 : ℚ) ^ (log2 p : ℤ) := by
            rw [← zpow_add₀ (by norm_num : (2 : ℚ) ≠ 0)]; congr 1; ring
        _ ≤ p := pa'
    · have := (key ((log2 p : ℤ) - (log2 d : ℤ))).not.mp h
      have e : (log2 p : ℤ) - (log2 d : ℤ) - 1 + 1 = (log2 p : ℤ) - (log2 d : ℤ) := by ring
      rw [e]
      exact not_le.mp this
theorem roundNE_cases (p d : Nat) :
    (roundNE p d = p / d ∧ 2 * (p % d) ≤ d) ∨ (roundNE p d = p / d + 1 ∧ d ≤ 2 * (p % d)) := by
  unfold roundNE
  simp only
  split_ifs <;> omega

theorem roundNE_le (p d M : Nat) (hd : 1 ≤ d) (h : p ≤ M * d) : roundNE p d ≤ M := by
  have hq : p / d ≤ M := Nat.div_le_of_le_mul (by rw [Nat.mul_comm]; exact h)
  rcases roundNE_cases p d with ⟨e, _⟩ | ⟨e, hr⟩
  · omega
  · rw [e]
    by_contra hc
    have hqM : p / d = M := by omega
    have h1 := Nat.div_add_mod p d
    rw [hqM, Nat.mul_comm] at h1
    omega

theorem le_roundNE (p d M : Nat) (hd : 1 ≤ d) (h : M * d ≤ p) : M ≤ roundNE p d := by
  have hq : M ≤ p / d := (Nat.le_div_iff_mul_le (by omega)).mpr h
  rcases roundNE_cases p d with ⟨e, _⟩ | ⟨e, _⟩ <;> omega

theorem roundNE_err (p d : Nat) (hd : 1 ≤ d) :
    |(roundNE p d : ℚ) - (p : ℚ) / d| ≤ 1 / 2 := by
  have hdq : (0 : ℚ) < d := by exact_mod_cast hd
  have h1 : ((d * (p / d) + p % d : ℕ) : ℚ) = p := by exact_mod_cast Nat.div_add_mod p d
  have hr : p % d < d := Nat.mod_lt _ (by omega)
  have hrq : ((p % d : ℕ) : ℚ) < d := by exact_mod_cast hr
  push_cast at h1
  have hpd : (p : ℚ) / d = ((p / d : ℕ) : ℚ) + ((p % d : ℕ) : ℚ) / d := by
    rw [← h1]; field_simp; ring
  rw [abs_le]
  rcases roundNE_cases p d with ⟨e, h2⟩ | ⟨e, h2⟩
  · have h2q : (2 : ℚ) * ((p % d : ℕ) : ℚ) ≤ d := by exact_mod_cast h2
    have h3 : ((p % d : ℕ) : ℚ) / d ≤ 1 / 2 := by
      rw [div_le_iff₀ hdq]; linarith
    have h4 : (0 : ℚ) ≤ ((p % d : ℕ) : ℚ) / d := by positivity
    rw [e, hpd]
    constructor <;> linarith
  · have h2q : (d : ℚ) ≤ 2 * ((p % d : ℕ) : ℚ) := by exact_mod_cast h2
    have h3 : 1 / 2 ≤ ((p % d : ℕ) : ℚ) / d := by
      rw [le_div_iff₀ hdq]; linarith
    have h4 : ((p % d : ℕ) : ℚ) / d < 1 := by
      rw [div_lt_iff₀ hdq]; linarith
    rw [e, hpd]
    push_cast
    constructor <;> linarith

theorem two_zpow_pos (k : ℤ) : (0 : ℚ) < (2 : ℚ) ^ k := zpow_pos (by norm_num) k

theorem flPos_eq (p d : Nat) : flPos p d = (flMant p d : ℚ) * (2 : ℚ) ^ (ilog2 p d - 52) := by
  unfold flPos flMant
  simp only
  rw [Rat.mkRat_eq_div, zpow_two_eq]
  push_cast
  ring

/-- The quotient handed to `roundNE` is `p / d` scaled by the chosen power of two. -/
theorem scaled_eq (p d : Nat) (e : ℤ) (hd : 1 ≤ d) :
    ((p * 2 ^ (-e).toNat : ℕ) : ℚ) / ((d * 2 ^ e.toNat : ℕ) : ℚ) = (p : ℚ) / d / (2 : ℚ) ^ e := by
  have hdq : (0 : ℚ) < d := by exact_mod_cast hd
  rw [zpow_two_eq]
  push_cast
  field_simp

theorem scaled_den_pos (d : Nat) (e : ℤ) (hd : 1 ≤ d) : 1 ≤ d * 2 ^ e.toNat :=
  Nat.mul_pos hd (by positivity)

theorem flMant_le (p d M : Nat) (hd : 1 ≤ d)
    (h : (p : ℚ) / d / (2 : ℚ) ^ (ilog2 p d - 52) ≤ M) : flMant p d ≤ M := by
  unfold flMant
  apply roundNE_le _ _ _ (scaled_den_pos d _ hd)
  rw [← scaled_eq p d _ hd, div_le_iff₀ (by exact_mod_cast scaled_den_pos d _ hd)] at h
  exact_mod_cast h

theorem le_flMant (p d M : Nat) (hd : 1 ≤ d)
    (h : (M : ℚ) ≤ (p : ℚ) / d / (2 : ℚ) ^ (ilog2 p d - 52)) : M ≤ flMant p d := by
  unfold flMant
  apply le_roundNE _ _ _ (scaled_den_pos d _ hd)
  rw [← scaled_eq p d _ hd, le_div_iff₀ (by exact_mod_cast scaled_den_pos d _ hd)] at h
  exact_mod_cast h

theorem flMant_err (p d : Nat) (hd : 1 ≤ d) :
    |(flMant p d : ℚ) - (p : ℚ) / d / (2 : ℚ) ^ (ilog2 p d - 52)| ≤ 1 / 2 := by
  rw [← scaled_eq p d _ hd]
  exact roundNE_err _ _ (scaled_den_pos d _ hd)

theorem flMant_bounds (p d : Nat) (hp : 1 ≤ p) (hd : 1 ≤ d) :
    2 ^ 52 ≤ flMant p d ∧ flMant p d ≤ 2 ^ 53 := by
  obtain ⟨h1, h2⟩ := ilog2_spec p d hp hd
  have hpos := two_zpow_pos (ilog2 p d - 52)
  constructor
  · apply le_flMant p d _ hd
    rw [le_div_iff₀ hpos]
    calc ((2 ^ 52 : ℕ) : ℚ) * (2 : ℚ) ^ (ilog2 p d - 52)
        = (2 : ℚ) ^ (52 : ℤ) * (2 : ℚ) ^ (ilog2 p d - 52) := by norm_num
      _ = (2 : ℚ) ^ (ilog2 p d) := by
          rw [← zpow_add₀ (by norm_num : (2 : ℚ) ≠ 0)]; congr 1; ring
      _ ≤ _ := h1
  · apply flMant_le p d _ hd
    rw [div_le_iff₀ hpos]
    calc (p : ℚ) / d ≤ (2 : ℚ) ^ (ilog2 p d + 1) := le_of_lt h2
      _ = (2 : ℚ) ^ (53 : ℤ) * (2 : ℚ) ^ (ilog2 p d - 52) := by
          rw [← zpow_add₀ (by norm_num : (2 : ℚ) ≠ 0)]; congr 1; ring
      _ = ((2 ^ 53 : ℕ) : ℚ) * (2 : ℚ) ^ (ilog2 p d - 52) := by norm_num


/-- On a tie `roundNE` depends on the parity of the quotient only. -/
theorem roundNE_tie (P D q : Nat) (hD : 1 ≤ D) (h : 2 * P = (2 * q + 1) * D) :
    roundNE P D = if q % 2 = 0 then q else q + 1 := by
  have h1 : P / D = q := by
    apply Nat.div_eq_of_lt_le
    · nlinarith
    · nlinarith
  have h2 := Nat.div_add_mod P D
  rw [h1] at h2
  have h3 : 2 * (P % D) = D := by nlinarith
  unfold roundNE
  simp only [h1]
  rw [if_neg (by omega), if_neg (by omega)]

theorem roundNE_mono (P D P' D' : Nat) (hD : 1 ≤ D) (hD' : 1 ≤ D')
    (h : (P : ℚ) / D ≤ (P' : ℚ) / D') : roundNE P D ≤ roundNE P' D' := by
  by_contra hc
  push_neg at hc
  have e1 := roundNE_err P D hD
  have e2 := roundNE_err P' D' hD'
  rw [abs_le] at e1 e2
  have hc' : ((roundNE P' D' : ℕ) : ℚ) + 1 ≤ (roundNE P D : ℕ) := by exact_mod_cast hc
  have hDq : (0 : ℚ) < D := by exact_mod_cast hD
  have hD'q : (0 : ℚ) < D' := by exact_mod_cast hD'
  -- both quotients are the same tie
  have t1 : (P : ℚ) / D = (roundNE P' D' : ℕ) + 1 / 2 := by linarith [e1.1, e1.2, e2.1, e2.2]
  have t2 : (P' : ℚ) / D' = (roundNE P' D' : ℕ) + 1 / 2 := by linarith [e1.1, e1.2, e2.1, e2.2]
  have n1 : 2 * P = (2 * roundNE P' D' + 1) * D := by
    rw [div_eq_iff (ne_of_gt hDq)] at t1
    have : (2 : ℚ) * P = (2 * (roundNE P' D' : ℕ) + 1) * D := by linarith
    exact_mod_cast this
  have n2 : 2 * P' = (2 * roundNE P' D' + 1) * D' := by
    rw [div_eq_iff (ne_of_gt hD'q)] at t2
    have : (2 : ℚ) * P' = (2 * (roundNE P' D' : ℕ) + 1) * D' := by linarith
    exact_mod_cast this
  have r1 := roundNE_tie P D _ hD n1
  have r2 := roundNE_tie P' D' _ hD' n2
  rw [← r2] at r1
  omega

/-! ### Rounding of a positive rational -/

theorem num_toNat_pos (x : ℚ) (hx : 0 < x) : 1 ≤ x.num.toNat := by
  have : 0 < x.num := Rat.num_pos.mpr hx
  omega

theorem num_toNat_div (x : ℚ) (hx : 0 < x) : ((x.num.toNat : ℕ) : ℚ) / (x.den : ℚ) = x := by
  have h : 0 < x.num := Rat.num_pos.mpr hx
  have e : ((x.num.toNat : ℕ) : ℤ) = x.num := Int.toNat_of_nonneg (le_of_lt h)
  have e2 : ((x.num.toNat : ℕ) : ℚ) = (x.num : ℚ) := by exact_mod_cast congrArg (Int.cast (R := ℚ)) e
  rw [e2]
  exact Rat.num_div_den x

theorem fl_of_pos (x : ℚ) (hx : 0 < x) : fl x = (mant x : ℚ) * (2 : ℚ) ^ (expo x - 52) := by
  unfold fl
  rw [if_neg (ne_of_gt hx), if_pos hx, flPos_eq]
  rfl

theorem expo_spec (x : ℚ) (hx : 0 < x) :
    (2 : ℚ) ^ expo x ≤ x ∧ x < (2 : ℚ) ^ (expo x + 1) := by
  have h := ilog2_spec x.num.toNat x.den (num_toNat_pos x hx) x.den_pos
  rw [num_toNat_div x hx] at h
  exact h

theorem mant_bounds (x : ℚ) (hx : 0 < x) : 2 ^ 52 ≤ mant x ∧ mant x ≤ 2 ^ 53 :=
  flMant_bounds _ _ (num_toNat_pos x hx) x.den_pos

theorem mant_err (x : ℚ) (hx : 0 < x) :
    |(mant x : ℚ) - x / (2 : ℚ) ^ (expo x - 52)| ≤ 1 / 2 := by
  have h := flMant_err x.num.toNat x.den x.den_pos
  rw [num_toNat_div x hx] at h
  exact h

theorem mant_le (x : ℚ) (hx : 0 < x) (M : ℕ) (h : x / (2 : ℚ) ^ (expo x - 52) ≤ M) :
    mant x ≤ M := by
  apply flMant_le _ _ _ x.den_pos
  rw [num_toNat_div x hx]
  exact h

theorem le_mant (x : ℚ) (hx : 0 < x) (M : ℕ) (h : (M : ℚ) ≤ x / (2 : ℚ) ^ (expo x - 52)) :
    M ≤ mant x := by
  apply le_flMant _ _ _ x.den_pos
  rw [num_toNat_div x hx]
  exact h

theorem expo_unique (x : ℚ) (hx : 0 < x) (K : ℤ) (h1 : (2 : ℚ) ^ K ≤ x)
    (h2 : x < (2 : ℚ) ^ (K + 1)) : expo x = K := by
  obtain ⟨a, b⟩ := expo_spec x hx
  have c1 : (2 : ℚ) ^ K < (2 : ℚ) ^ (expo x + 1) := lt_of_le_of_lt h1 b
  have c2 : (2 : ℚ) ^ expo x < (2 : ℚ) ^ (K + 1) := lt_of_le_of_lt a h2
  rw [zpow_lt_zpow_iff_right₀ (by norm_num)] at c1 c2
  omega

theorem expo_mono (x y : ℚ) (hx : 0 < x) (hxy : x ≤ y) : expo x ≤ expo y := by
  obtain ⟨a, _⟩ := expo_spec x hx
  obtain ⟨_, b⟩ := expo_spec y (lt_of_lt_of_le hx hxy)
  have c : (2 : ℚ) ^ expo x < (2 : ℚ) ^ (expo y + 1) := lt_of_le_of_lt (le_trans a hxy) b
  rw [zpow_lt_zpow_iff_right₀ (by norm_num)] at c
  omega

theorem fl_pos_bounds (x : ℚ) (hx : 0 < x) :
    (2 : ℚ) ^ expo x ≤ fl x ∧ fl x ≤ (2 : ℚ) ^ (expo x + 1) := by
  obtain ⟨m1, m2⟩ := mant_bounds x hx
  have hpos := two_zpow_pos (expo x - 52)
  rw [fl_of_pos x hx]
  constructor
  · calc (2 : ℚ) ^ expo x = (2 : ℚ) ^ (52 : ℤ) * (2 : ℚ) ^ (expo x - 52) := by
          rw [← zpow_add₀ (by norm_num : (2 : ℚ) ≠ 0)]; congr 1; ring
      _ = ((2 ^ 52 : ℕ) : ℚ) * (2 : ℚ) ^ (expo x - 52) := by norm_num
      _ ≤ _ := mul_le_mul_of_nonneg_right (by exact_mod_cast m1) (le_of_lt hpos)
  · calc (mant x : ℚ) * (2 : ℚ) ^ (expo x - 52)
        ≤ ((2 ^ 53 : ℕ) : ℚ) * (2 : ℚ) ^ (expo x - 52) :=
          mul_le_mul_of_nonneg_right (by exact_mod_cast m2) (le_of_lt hpos)
      _ = (2 : ℚ) ^ (53 : ℤ) * (2 : ℚ) ^ (expo x - 52) := by norm_num
      _ = (2 : ℚ) ^ (expo x + 1) := by
          rw [← zpow_add₀ (by norm_num : (2 : ℚ) ≠ 0)]; congr 1; ring

theorem fl_pos (x : ℚ) (hx : 0 < x) : 0 < fl x :=
  lt_of_lt_of_le (two_zpow_pos _) (fl_pos_bounds x hx).1

theorem fl_zero : fl 0 = 0 := by simp [fl]

theorem fl_nonneg (x : ℚ) (hx : 0 ≤ x) : 0 ≤ fl x := by
  rcases eq_or_lt_of_le hx with h | h
  · rw [← h, fl_zero]
  · exact le_of_lt (fl_pos x h)

/-- Rounding is monotone on the non-negative rationals. -/
theorem fl_mono (x y : ℚ) (hx : 0 ≤ x) (hxy : x ≤ y) : fl x ≤ fl y := by
  rcases eq_or_lt_of_le hx with h | h
  · rw [← h, fl_zero]; exact fl_nonneg y (le_trans hx hxy)
  · have hy : 0 < y := lt_of_lt_of_le h hxy
    rcases lt_or_eq_of_le (expo_mono x y h hxy) with hlt | heq
    · calc fl x ≤ (2 : ℚ) ^ (expo x + 1) := (fl_pos_bounds x h).2
        _ ≤ (2 : ℚ) ^ expo y := zpow_le_zpow_right₀ (by norm_num) (by omega)
        _ ≤ fl y := (fl_pos_bounds y hy).1
    · rw [fl_of_pos x h, fl_of_pos y hy, heq]
      apply mul_le_mul_of_nonneg_right _ (le_of_lt (two_zpow_pos _))
      have : mant x ≤ mant y := by
        unfold mant flMant
        apply roundNE_mono _ _ _ _ (scaled_den_pos _ _ x.den_pos) (scaled_den_pos _ _ y.den_pos)
        rw [scaled_eq _ _ _ x.den_pos, scaled_eq _ _ _ y.den_pos, num_toNat_div x h,
          num_toNat_div y hy]
        have e : ilog2 x.num.toNat x.den = ilog2 y.num.toNat y.den := heq
        rw [e]
        exact div_le_div_of_nonneg_right hxy (le_of_lt (two_zpow_pos _))
      exact_mod_cast this

/-- A rational with a 53-bit significand is its own rounding. -/
theorem fl_exact (M : ℕ) (E : ℤ) (h1 : 2 ^ 52 ≤ M) (h2 : M < 2 ^ 53) :
    fl ((M : ℚ) * (2 : ℚ) ^ E) = (M : ℚ) * (2 : ℚ) ^ E := by
  have hpos := two_zpow_pos E
  have hM : (0 : ℚ) < M := by
    have : 0 < M := by omega
    exact_mod_cast this
  have hx : (0 : ℚ) < (M : ℚ) * (2 : ℚ) ^ E := mul_pos hM hpos
  have hexp : expo ((M : ℚ) * (2 : ℚ) ^ E) = E + 52 := by
    apply expo_unique _ hx
    · calc (2 : ℚ) ^ (E + 52) = ((2 ^ 52 : ℕ) : ℚ) * (2 : ℚ) ^ E := by
            rw [zpow_add₀ (by norm_num : (2 : ℚ) ≠ 0)]; norm_num; ring
        _ ≤ _ := mul_le_mul_of_nonneg_right (by exact_mod_cast h1) (le_of_lt hpos)
    · calc (M : ℚ) * (2 : ℚ) ^ E < ((2 ^ 53 : ℕ) : ℚ) * (2 : ℚ) ^ E :=
            mul_lt_mul_of_pos_right (by exact_mod_cast h2) hpos
        _ = (2 : ℚ) ^ (E + 52 + 1) := by
            rw [zpow_add₀ (by norm_num : (2 : ℚ) ≠ 0), zpow_add₀ (by norm_num : (2 : ℚ) ≠ 0)]
            norm_num; ring
  have hsc : (M : ℚ) * (2 : ℚ) ^ E / (2 : ℚ) ^ (expo ((M : ℚ) * (2 : ℚ) ^ E) - 52) = M := by
    rw [hexp]
    have : E + 52 - 52 = E := by ring
    rw [this]
    field_simp
  have hm : mant ((M : ℚ) * (2 : ℚ) ^ E) = M := by
    apply le_antisymm
    · exact mant_le _ hx M (le_of_eq hsc)
    · exact le_mant _ hx M (le_of_eq hsc.symm)
  rw [fl_of_pos _ hx, hm, hexp]
  congr 2
  ring

/-- The rounding error is at most `2^-53` of the value. -/
theorem fl_err (x : ℚ) (hx : 0 ≤ x) : |fl x - x| ≤ x / 2 ^ 53 := by
  rcases eq_or_lt_of_le hx with h | h
  · rw [← h, fl_zero]; simp
  · have hpos := two_zpow_pos (expo x - 52)
    have e := mant_err x h
    obtain ⟨a, _⟩ := expo_spec x h
    rw [fl_of_pos x h]
    have e1 : (mant x : ℚ) * (2 : ℚ) ^ (expo x - 52) - x
        = ((mant x : ℚ) - x / (2 : ℚ) ^ (expo x - 52)) * (2 : ℚ) ^ (expo x - 52) := by
      field_simp
    rw [e1, abs_mul, abs_of_pos hpos]
    calc |(mant x : ℚ) - x / (2 : ℚ) ^ (expo x - 52)| * (2 : ℚ) ^ (expo x - 52)
        ≤ 1 / 2 * (2 : ℚ) ^ (expo x - 52) := mul_le_mul_of_nonneg_right e (le_of_lt hpos)
      _ = (2 : ℚ) ^ expo x / 2 ^ 53 := by
          have : expo x - 52 = expo x + (-52) := by ring
          rw [this, zpow_add₀ (by norm_num : (2 : ℚ) ≠ 0)]
          norm_num
          ring
      _ ≤ x / 2 ^ 53 := div_le_div_of_nonneg_right a (by positivity)

/-! ## Keyword matching: the two lists -/

theorem matchStep_eq (lower_text : List Char) (acc : List (List Char) × List (List Char))
    (skill : List Char) :
    matchStep lower_text acc skill =
      if skillFound lower_text skill then (acc.1 ++ [skill], acc.2)
      else (acc.1, acc.2 ++ [skill]) := by
  unfold matchStep skillFound
  by_cases h : contains lower_text (toLower skill) = true
  · simp [h]
  · simp [h]

theorem foldl_matchStep (lower_text : List Char) (skills : List (List Char))
    (acc : List (List Char) × List (List Char)) :
    skills.foldl (matchStep lower_text) acc =
      (acc.1 ++ skills.filter (fun s => skillFound lower_text s),
       acc.2 ++ skills.filter (fun s => !skillFound lower_text s)) := by
  induction skills generalizing acc with
  | nil => simp
  | cons s rest ih =>
    rw [List.foldl_cons, ih, matchStep_eq]
    by_cases h : skillFound lower_text s = true
    · simp [h]
    · simp [h]

theorem found_skills_eq (text : List Char) (required : List (List Char)) :
    (calculateKeywordMatch text required).found_skills =
      required.filter (fun s => skillFound (toLower text) s) := by
  simp [calculateKeywordMatch, foldl_matchStep]

theorem missing_skills_eq (text : List Char) (required : List (List Char)) :
    (calculateKeywordMatch text required).missing_skills =
      required.filter (fun s => !skillFound (toLower text) s) := by
  simp [calculateKeywordMatch, foldl_matchStep]

/-- C1: `found_skills` and `missing_skills` are subsequences of the required
list in its order, their lengths add up to the length of the required list,
together they are a rearrangement of it, every required skill is in one of
them, and no string is in both. -/
theorem calculateKeywordMatch_partition (text : List Char) (required : List (List Char)) :
    (calculateKeywordMatch text required).found_skills.Sublist required ∧
    (calculateKeywordMatch text required).missing_skills.Sublist required ∧
    (calculateKeywordMatch text required).found_skills.length +
      (calculateKeywordMatch text required).missing_skills.length = required.length ∧
    ((calculateKeywordMatch text required).found_skills ++
      (calculateKeywordMatch text required).missing_skills).Perm required ∧
    (∀ s, s ∈ required ↔
      (s ∈ (calculateKeywordMatch text required).found_skills ∨
       s ∈ (calculateKeywordMatch text required).missing_skills)) ∧
    (∀ s, ¬ (s ∈ (calculateKeywordMatch text required).found_skills ∧
       s ∈ (calculateKeywordMatch text required).missing_skills)) := by
  rw [found_skills_eq, missing_skills_eq]
  refine ⟨List.filter_sublist _, List.filter_sublist _, ?_, ?_, ?_, ?_⟩
  · have h := List.length_eq_length_filter_add (l := required)
      (fun s => skillFound (toLower text) s)
    simpa using h.symm
  · exact List.filter_append_perm _ _
  · intro s
    simp only [List.mem_filter]
    by_cases h : skillFound (toLower text) s = true <;> simp [h]
  · intro s
    simp only [List.mem_filter]
    rintro ⟨⟨_, h1⟩, ⟨_, h2⟩⟩
    simp [h1] at h2


/-! ## Keyword matching: the score -/

theorem ofInt_natCast_nonneg (n : ℕ) : 0 ≤ ofInt (n : ℤ) := by
  unfold ofInt
  apply fl_nonneg
  exact_mod_cast Nat.zero_le n

theorem fl_one : fl 1 = 1 := by
  have h := fl_exact (2 ^ 52) (-52) (le_refl _) (by norm_num)
  have e : (((2 : ℕ) ^ 52 : ℕ) : ℚ) * (2 : ℚ) ^ (-52 : ℤ) = 1 := by norm_num
  rwa [e] at h

theorem fl_hundred : fl 100 = 100 := by
  have h := fl_exact (100 * 2 ^ 46) (-46) (by norm_num) (by norm_num)
  have e : (((100 * 2 ^ 46 : ℕ) : ℕ) : ℚ) * (2 : ℚ) ^ (-46 : ℤ) = 100 := by norm_num
  rwa [e] at h

theorem ofInt_hundred : ofInt 100 = 100 := by
  unfold ofInt
  exact_mod_cast fl_hundred

/-- The double computed by `(found / size) * 100` for `found ≤ size`, `size ≥ 1`, lies in `[0, 100]`. -/
theorem ratio_score_bounds (found size : ℕ) (h : found ≤ size) (hs : 1 ≤ size) :
    0 ≤ fmul (fdiv (ofInt found) (ofInt size)) (ofInt 100) ∧
    fmul (fdiv (ofInt found) (ofInt size)) (ofInt 100) ≤ 100 := by
  have ha : 0 ≤ ofInt (found : ℤ) := ofInt_natCast_nonneg found
  have hab : ofInt (found : ℤ) ≤ ofInt (size : ℤ) := by
    unfold ofInt
    apply fl_mono
    · exact_mod_cast Nat.zero_le found
    · exact_mod_cast h
  have hb : 0 < ofInt (size : ℤ) := by
    unfold ofInt
    apply fl_pos
    exact_mod_cast hs
  have hq0 : 0 ≤ ofInt (found : ℤ) / ofInt (size : ℤ) := div_nonneg ha (le_of_lt hb)
  have hq1 : ofInt (found : ℤ) / ofInt (size : ℤ) ≤ 1 := (div_le_one hb).mpr hab
  have hc0 : 0 ≤ fdiv (ofInt found) (ofInt size) := fl_nonneg _ hq0
  have hc1 : fdiv (ofInt found) (ofInt size) ≤ 1 := by
    have := fl_mono _ _ hq0 hq1
    rwa [fl_one] at this
  rw [ofInt_hundred]
  constructor
  · exact fl_nonneg _ (mul_nonneg hc0 (by norm_num))
  · have h100 : fdiv (ofInt found) (ofInt size) * 100 ≤ 100 := by linarith
    have := fl_mono _ _ (mul_nonneg hc0 (by norm_num)) h100
    rwa [fl_hundred] at this

theorem fl_upper (x : ℚ) (hx : 0 ≤ x) : fl x ≤ x * (1 + 1 / 2 ^ 53) := by
  have h := fl_err x hx
  rw [abs_le] at h
  linarith [h.2]

theorem fl_lower (x : ℚ) (hx : 0 ≤ x) : x * (1 - 1 / 2 ^ 53) ≤ fl x := by
  have h := fl_err x hx
  rw [abs_le] at h
  linarith [h.1]

/-- The double computed by `(found / size) * 100` is within a relative `2^-50` of `100 * found / size`. -/
theorem ratio_score_err (found size : ℕ) (hs : 1 ≤ size) :
    |fmul (fdiv (ofInt found) (ofInt size)) (ofInt 100) - 100 * (found : ℚ) / size| ≤
      100 * (found : ℚ) / size / 2 ^ 50 := by
  have hf : (0 : ℚ) ≤ found := by exact_mod_cast Nat.zero_le found
  have hn : (0 : ℚ) < size := by exact_mod_cast hs
  have ha0 : 0 ≤ ofInt (found : ℤ) := ofInt_natCast_nonneg found
  have ha1 : ofInt (found : ℤ) ≤ (found : ℚ) * (1 + 1 / 2 ^ 53) := by
    unfold ofInt; exact_mod_cast fl_upper found hf
  have ha2 : (found : ℚ) * (1 - 1 / 2 ^ 53) ≤ ofInt (found : ℤ) := by
    unfold ofInt; exact_mod_cast fl_lower found hf
  have hb1 : ofInt (size : ℤ) ≤ (size : ℚ) * (1 + 1 / 2 ^ 53) := by
    unfold ofInt; exact_mod_cast fl_upper size (le_of_lt hn)
  have hb2 : (size : ℚ) * (1 - 1 / 2 ^ 53) ≤ ofInt (size : ℤ) := by
    unfold ofInt; exact_mod_cast fl_lower size (le_of_lt hn)
  have hb0 : 0 < ofInt (size : ℤ) := by
    unfold ofInt
    apply fl_pos
    exact_mod_cast hs
  have hlow : (0 : ℚ) < (size : ℚ) * (1 - 1 / 2 ^ 53) := mul_pos hn (by norm_num)
  have hup : (0 : ℚ) < (size : ℚ) * (1 + 1 / 2 ^ 53) := mul_pos hn (by norm_num)
  set T : ℚ := (found : ℚ) / size with hT
  have hT0 : 0 ≤ T := div_nonneg hf (le_of_lt hn)
  -- the quotient
  have hq0 : 0 ≤ ofInt (found : ℤ) / ofInt (size : ℤ) := div_nonneg ha0 (le_of_lt hb0)
  have hq1 : ofInt (found : ℤ) / ofInt (size : ℤ) ≤ T * ((1 + 1 / 2 ^ 53) / (1 - 1 / 2 ^ 53)) := by
    calc ofInt (found : ℤ) / ofInt (size : ℤ)
        ≤ ((found : ℚ) * (1 + 1 / 2 ^ 53)) / ((size : ℚ) * (1 - 1 / 2 ^ 53)) :=
          div_le_div₀ (mul_nonneg hf (by norm_num)) ha1 hlow hb2
      _ = T * ((1 + 1 / 2 ^ 53) / (1 - 1 / 2 ^ 53)) := by
          rw [hT]; field_simp
  have hq2 : T * ((1 - 1 / 2 ^ 53) / (1 + 1 / 2 ^ 53)) ≤ ofInt (found : ℤ) / ofInt (size : ℤ) := by
    calc T * ((1 - 1 / 2 ^ 53) / (1 + 1 / 2 ^ 53))
        = ((found : ℚ) * (1 - 1 / 2 ^ 53)) / ((size : ℚ) * (1 + 1 / 2 ^ 53)) := by
          rw [hT]; field_simp
      _ ≤ ofInt (found : ℤ) / ofInt (size : ℤ) :=
          div_le_div₀ ha0 ha2 hb0 hb1
  -- its rounding
  have hc0 : 0 ≤ fdiv (ofInt found) (ofInt size) := fl_nonneg _ hq0
  have hc1 : fdiv (ofInt found) (ofInt size) ≤
      T * ((1 + 1 / 2 ^ 53) / (1 - 1 / 2 ^ 53)) * (1 + 1 / 2 ^ 53) :=
    le_trans (fl_upper _ hq0) (mul_le_mul_of_nonneg_right hq1 (by norm_num))
  have hc2 : T * ((1 - 1 / 2 ^ 53) / (1 + 1 / 2 ^ 53)) * (1 - 1 / 2 ^ 53) ≤
      fdiv (ofInt found) (ofInt size) :=
    le_trans (mul_le_mul_of_nonneg_right hq2 (by norm_num)) (fl_lower _ hq0)
  -- the product and its rounding
  have hy0 : 0 ≤ fdiv (ofInt found) (ofInt size) * 100 := mul_nonneg hc0 (by norm_num)
  have hs1 := fl_upper _ hy0
  have hs2 := fl_lower _ hy0
  rw [ofInt_hundred]
  unfold fmul
  have eT : 100 * (found : ℚ) / size = 100 * T := by rw [hT]; ring
  rw [eT, abs_le]
  have k1 : (1 + 1 / 2 ^ 53) / (1 - 1 / 2 ^ 53) * (1 + 1 / 2 ^ 53) * (1 + 1 / 2 ^ 53)
      ≤ (1 + 1 / 2 ^ 50 : ℚ) := by norm_num
  have k2 : (1 - 1 / 2 ^ 50 : ℚ) ≤
      (1 - 1 / 2 ^ 53) / (1 + 1 / 2 ^ 53) * (1 - 1 / 2 ^ 53) * (1 - 1 / 2 ^ 53) := by norm_num
  have u1 : fl (fdiv (ofInt found) (ofInt size) * 100) ≤
      100 * T * ((1 + 1 / 2 ^ 53) / (1 - 1 / 2 ^ 53) * (1 + 1 / 2 ^ 53) * (1 + 1 / 2 ^ 53)) := by
    calc fl (fdiv (ofInt found) (ofInt size) * 100)
        ≤ fdiv (ofInt found) (ofInt size) * 100 * (1 + 1 / 2 ^ 53) := hs1
      _ ≤ T * ((1 + 1 / 2 ^ 53) / (1 - 1 / 2 ^ 53)) * (1 + 1 / 2 ^ 53) * 100 * (1 + 1 / 2 ^ 53) := by
          apply mul_le_mul_of_nonneg_right _ (by norm_num)
          exact mul_le_mul_of_nonneg_right hc1 (by norm_num)
      _ = _ := by ring
  have u2 : 100 * T * ((1 - 1 / 2 ^ 53) / (1 + 1 / 2 ^ 53) * (1 - 1 / 2 ^ 53) * (1 - 1 / 2 ^ 53))
      ≤ fl (fdiv (ofInt found) (ofInt size) * 100) := by
    calc 100 * T * ((1 - 1 / 2 ^ 53) / (1 + 1 / 2 ^ 53) * (1 - 1 / 2 ^ 53) * (1 - 1 / 2 ^ 53))
        = T * ((1 - 1 / 2 ^ 53) / (1 + 1 / 2 ^ 53)) * (1 - 1 / 2 ^ 53) * 100 * (1 - 1 / 2 ^ 53) := by
          ring
      _ ≤ fdiv (ofInt found) (ofInt size) * 100 * (1 - 1 / 2 ^ 53) := by
          apply mul_le_mul_of_nonneg_right _ (by norm_num)
          exact mul_le_mul_of_nonneg_right hc2 (by norm_num)
      _ ≤ _ := hs2
  have hT100 : 0 ≤ 100 * T := mul_nonneg (by norm_num) hT0
  have v1 := mul_le_mul_of_nonneg_left k1 hT100
  have v2 := mul_le_mul_of_nonneg_left k2 hT100
  constructor
  · have : 100 * T * (1 - 1 / 2 ^ 50) = 100 * T - 100 * T / 2 ^ 50 := by ring
    linarith
  · have : 100 * T * (1 + 1 / 2 ^ 50) = 100 * T + 100 * T / 2 ^ 50 := by ring
    linarith

theorem found_le_required (text : List Char) (required : List (List Char)) :
    (calculateKeywordMatch text required).found_skills.length ≤ required.length := by
  rw [found_skills_eq]
  exact List.length_filter_le _ _

/-- C2 (as amended): the score is 0 for an empty required list and otherwise
the double `(found / size) * 100`, quotient and product each rounded to
nearest; it lies in `[0, 100]` and is within a relative `2^-50` of
`100 * |found| / |required|`. -/
theorem calculateKeywordMatch_score (text : List Char) (required : List (List Char)) :
    (calculateKeywordMatch text required).score =
      (if required.isEmpty then 0
       else fmul (fdiv (ofInt (calculateKeywordMatch text required).found_skills.length)
         (ofInt required.length)) (ofInt 100)) ∧
    0 ≤ (calculateKeywordMatch text required).score ∧
    (calculateKeywordMatch text required).score ≤ 100 ∧
    |(calculateKeywordMatch text required).score -
        100 * ((calculateKeywordMatch text required).found_skills.length : ℚ) / required.length| ≤
      100 * ((calculateKeywordMatch text required).found_skills.length : ℚ) / required.length
        / 2 ^ 50 := by
  have hscore : (calculateKeywordMatch text required).score =
      (if required.isEmpty then 0
       else fmul (fdiv (ofInt (calculateKeywordMatch text required).found_skills.length)
         (ofInt required.length)) (ofInt 100)) := by
    cases required <;> simp [calculateKeywordMatch]
  refine ⟨hscore, ?_⟩
  rw [hscore]
  cases required with
  | nil => simp
  | cons s rest =>
    have hs : 1 ≤ (s :: rest).length := by simp
    have hb := ratio_score_bounds _ _ (found_le_required text (s :: rest)) hs
    have he := ratio_score_err (calculateKeywordMatch text (s :: rest)).found_skills.length
      (s :: rest).length hs
    simp only [List.isEmpty_cons, Bool.false_eq_true, if_false]
    exact ⟨hb.1, hb.2, he⟩

/-- C2, counterexample: with 29 of 50 required skills found the score is not
`100 * 29 / 50 = 58` but the double just below 58, which truncates to 57;
the expression `100 * 29 / 50` evaluated in `double` is exactly 58. -/
theorem calculateKeywordMatch_score_not_exact :
    (calculateKeywordMatch "a".toList
        (List.replicate 29 "a".toList ++ List.replicate 21 "b".toList)).found_skills.length = 29 ∧
    (List.replicate 29 "a".toList ++ List.replicate 21 "b".toList).length = 50 ∧
    (calculateKeywordMatch "a".toList
        (List.replicate 29 "a".toList ++ List.replicate 21 "b".toList)).score ≠
      100 * (29 : ℚ) / 50 ∧
    (calculateKeywordMatch "a".toList
        (List.replicate 29 "a".toList ++ List.replicate 21 "b".toList)).score =
      8162774324609023 / 140737488355328 ∧
    toInt (calculateKeywordMatch "a".toList
        (List.replicate 29 "a".toList ++ List.replicate 21 "b".toList)).score = 57 ∧
    fdiv (fmul (ofInt 100) (ofInt 29)) (ofInt 50) = 58 := by
  decide!

/-! ## Scenario C -/

/-- C3, counterexample: the single entry extracted from scenario C is not the
string `PROJECTS - Built a cache`. -/
theorem extractProjects_scenarioC_not_joined :
    extractProjects file scenarioC ≠ ["PROJECTS - Built a cache".toList] := by
  decide

/-- C3 (as amended): scenario C yields exactly one entry, the trimmed lines
each followed by one space, so that the entry ends with a space; the text
`SKILLS` is in no entry. -/
theorem extractProjects_scenarioC :
    getLines scenarioC = ["PROJECTS".toList, "- Built a cache".toList, [], "SKILLS".toList] ∧
    extractProjects file scenarioC = ["PROJECTS - Built a cache ".toList] ∧
    (extractProjects file scenarioC).all (fun entry => !contains entry "SKILLS".toList) = true := by
  decide

/-! ## Section presence -/

theorem countFound_foldl (lower_text : List Char) (keywords : List (List Char)) (n : Nat) :
    keywords.foldl
        (fun found keyword => if contains lower_text keyword then found + 1 else found) n =
      n + (keywords.filter (fun keyword => contains lower_text keyword)).length := by
  induction keywords generalizing n with
  | nil => simp
  | cons k rest ih =>
    rw [List.foldl_cons, ih]
    by_cases h : contains lower_text k = true
    · simp [h]; omega
    · simp [h]

theorem countFound_eq (text : List Char) (keywords : List (List Char)) :
    countFound (toLower text) keywords = keywordsPresent text keywords := by
  unfold countFound keywordsPresent
  rw [countFound_foldl]
  simp

theorem keywordsPresent_le (text : List Char) (keywords : List (List Char)) :
    keywordsPresent text keywords ≤ keywords.length :=
  List.length_filter_le _ _

theorem categoryScore_four :
    ∀ found : Fin 5, categoryScore found.val 4 = truncatedShare found.val 4 := by
  decide!

theorem categoryScore_five :
    ∀ found : Fin 6, categoryScore found.val 5 = truncatedShare found.val 5 := by
  decide!

theorem categoryScore_of_le_four (found : Nat) (h : found ≤ 4) :
    categoryScore found 4 = truncatedShare found 4 :=
  categoryScore_four ⟨found, by omega⟩

theorem categoryScore_of_le_five (found : Nat) (h : found ≤ 5) :
    categoryScore found 5 = truncatedShare found 5 :=
  categoryScore_five ⟨found, by omega⟩

theorem truncatedShare_range (found total : Nat) :
    0 ≤ truncatedShare found total ∧ truncatedShare found total ≤ 25 := by
  unfold truncatedShare
  constructor
  · exact le_min (by norm_num) (Int.ofNat_nonneg _)
  · exact min_le_left _ _

theorem categoryScore_keywords (text : List Char) (keywords : List (List Char))
    (h : keywords.length = 4 ∨ keywords.length = 5) :
    categoryScore (keywordsPresent text keywords) keywords.length =
      truncatedShare (keywordsPresent text keywords) keywords.length := by
  have hle := keywordsPresent_le text keywords
  rcases h with h | h
  · rw [h] at hle ⊢
    exact categoryScore_of_le_four _ hle
  · rw [h] at hle ⊢
    exact categoryScore_of_le_five _ hle

theorem essential_sections_sizes :
    ∀ kv ∈ essential_sections, kv.2.length = 4 ∨ kv.2.length = 5 := by
  decide

/-- The four contributions are the truncated shares of the four categories. -/
theorem sectionContributions_eq (text : List Char) :
    sectionContributions text =
      essential_sections.map
        (fun kv => truncatedShare (keywordsPresent text kv.2) kv.2.length) := by
  unfold sectionContributions
  apply List.map_congr_left
  intro kv hkv
  rw [countFound_eq]
  exact categoryScore_keywords text kv.2 (essential_sections_sizes kv hkv)

theorem checkResumeSections_eq_sum (text : List Char) :
    checkResumeSections text = (sectionContributions text).sum := by
  simp [checkResumeSections, sectionContributions, essential_sections]
  ring

/-- C5, counterexample: for the text `email phone address` three of the four
contact keywords occur; the contact contribution is 18, not
`min(25, round(25 * 3 / 4)) = 19`. -/
theorem checkResumeSections_not_rounded :
    sectionContributions "email phone address".toList = [18, 0, 0, 0] ∧
    essential_sections.map
        (fun kv => roundedShare (keywordsPresent "email phone address".toList kv.2) kv.2.length)
      = [19, 0, 0, 0] ∧
    checkResumeSections "email phone address".toList = 18 := by
  decide!

/-- C5 (as amended): every category's contribution is
`min(25, ⌊25 * found / total⌋)`, the quotient truncated instead of rounded,
where `found` counts the category's keywords that occur in the case-folded
text, and the section score is the sum of the four contributions. -/
theorem checkResumeSections_truncated (text : List Char) :
    sectionContributions text =
      essential_sections.map
        (fun kv => truncatedShare (keywordsPresent text kv.2) kv.2.length) ∧
    checkResumeSections text = (sectionContributions text).sum :=
  ⟨sectionContributions_eq text, checkResumeSections_eq_sum text⟩

/-- C6: the section score is in `[0, 100]`, it is the sum of four
contributions, and each contribution is in `[0, 25]`. -/
theorem checkResumeSections_range (text : List Char) :
    0 ≤ checkResumeSections text ∧ checkResumeSections text ≤ 100 ∧
    checkResumeSections text = (sectionContributions text).sum ∧
    (sectionContributions text).length = 4 ∧
    ∀ c ∈ sectionContributions text, 0 ≤ c ∧ c ≤ 25 := by
  have hall : ∀ c ∈ sectionContributions text, 0 ≤ c ∧ c ≤ 25 := by
    intro c hc
    rw [sectionContributions_eq, List.mem_map] at hc
    obtain ⟨kv, _, rfl⟩ := hc
    exact truncatedShare_range _ _
  have hsum := checkResumeSections_eq_sum text
  have hlen : (sectionContributions text).length = 4 := by
    simp [sectionContributions, essential_sections]
  refine ⟨?_, ?_, hsum, hlen, hall⟩
  · rw [hsum]
    exact List.sum_nonneg (fun c hc => (hall c hc).1)
  · rw [hsum]
    have := List.sum_le_card_nsmul (sectionContributions text) 25 (fun c hc => (hall c hc).2)
    rw [hlen] at this
    simpa using this


/-! ## The three extractors and the segmenter -/

theorem extractEducation_step_sim (st : EducationLoop) (ln : List Char) :
    (extractEducation.step file st ln).toSegmenter =
      segment.step education_keywords file st.toSegmenter ln := by
  unfold extractEducation.step segment.step EducationLoop.toSegmenter Segmenter.flush
  by_cases h1 : (education_keywords.any fun keyword => contains (toLower (trim ln)) keyword) = true
  · by_cases h2 : (trim ln).isEmpty = true <;> simp [h1, h2]
  · by_cases h3 : st.inEducationSection = true
    · by_cases h4 : (file.any fun kw => contains (toLower (trim ln)) kw) = true
      · by_cases h5 : st.current_entry.isEmpty = true <;> simp [h1, h3, h4, h5]
      · by_cases h2 : (trim ln).isEmpty = true
        · by_cases h5 : st.current_entry.isEmpty = true <;> simp [h1, h2, h3, h4, h5]
        · simp [h1, h2, h3, h4]
    · simp [h1, h3]

theorem extractEducation_foldl_sim (lines : List (List Char)) (st : EducationLoop) :
    (lines.foldl (extractEducation.step file) st).toSegmenter =
      lines.foldl (segment.step education_keywords file) st.toSegmenter := by
  induction lines generalizing st with
  | nil => rfl
  | cons ln rest ih => rw [List.foldl_cons, List.foldl_cons, ih, extractEducation_step_sim]

theorem extractEducation_eq_segment (text : List Char) :
    extractEducation file text = segment education_keywords file text := by
  unfold extractEducation segment
  have h := extractEducation_foldl_sim (getLines text)
    { education := [], inEducationSection := false, current_entry := [] }
  have h0 : ({ education := [], inEducationSection := false, current_entry := [] } : EducationLoop).toSegmenter =
      { state := SegState.OUTSIDE, buffer := [], output := [] } := rfl
  rw [h0] at h
  rw [← h]
  unfold Segmenter.flush EducationLoop.toSegmenter
  simp only
  by_cases h5 : ((getLines text).foldl (extractEducation.step file)
      { education := [], inEducationSection := false, current_entry := [] }).current_entry.isEmpty = true
  · simp [h5]
  · simp [h5]

theorem extractExperience_step_sim (st : ExperienceLoop) (ln : List Char) :
    (extractExperience.step file st ln).toSegmenter =
      segment.step experience_keywords file st.toSegmenter ln := by
  unfold extractExperience.step segment.step ExperienceLoop.toSegmenter Segmenter.flush
  by_cases h1 : (experience_keywords.any fun keyword => contains (toLower (trim ln)) keyword) = true
  · by_cases h2 : (trim ln).isEmpty = true <;> simp [h1, h2]
  · by_cases h3 : st.inExperienceSection = true
    · by_cases h4 : (file.any fun kw => contains (toLower (trim ln)) kw) = true
      · by_cases h5 : st.current_entry.isEmpty = true <;> simp [h1, h3, h4, h5]
      · by_cases h2 : (trim ln).isEmpty = true
        · by_cases h5 : st.current_entry.isEmpty = true <;> simp [h1, h2, h3, h4, h5]
        · simp [h1, h2, h3, h4]
    · simp [h1, h3]

theorem extractExperience_foldl_sim (lines : List (List Char)) (st : ExperienceLoop) :
    (lines.foldl (extractExperience.step file) st).toSegmenter =
      lines.foldl (segment.step experience_keywords file) st.toSegmenter := by
  induction lines generalizing st with
  | nil => rfl
  | cons ln rest ih => rw [List.foldl_cons, List.foldl_cons, ih, extractExperience_step_sim]

theorem extractExperience_eq_segment (text : List Char) :
    extractExperience file text = segment experience_keywords file text := by
  unfold extractExperience segment
  have h := extractExperience_foldl_sim (getLines text)
    { experience := [], inExperienceSection := false, current_entry := [] }
  have h0 : ({ experience := [], inExperienceSection := false, current_entry := [] } : ExperienceLoop).toSegmenter =
      { state := SegState.OUTSIDE, buffer := [], output := [] } := rfl
  rw [h0] at h
  rw [← h]
  unfold Segmenter.flush ExperienceLoop.toSegmenter
  simp only
  by_cases h5 : ((getLines text).foldl (extractExperience.step file)
      { experience := [], inExperienceSection := false, current_entry := [] }).current_entry.isEmpty = true
  · simp [h5]
  · simp [h5]

theorem extractProjects_step_sim (st : ProjectsLoop) (ln : List Char) :
    (extractProjects.step file st ln).toSegmenter =
      segment.step project_keywords file st.toSegmenter ln := by
  unfold extractProjects.step segment.step ProjectsLoop.toSegmenter Segmenter.flush
  by_cases h1 : (project_keywords.any fun keyword => contains (toLower (trim ln)) keyword) = true
  · by_cases h2 : (trim ln).isEmpty = true <;> simp [h1, h2]
  · by_cases h3 : st.inProjectSection = true
    · by_cases h4 : (file.any fun kw => contains (toLower (trim ln)) kw) = true
      · by_cases h5 : st.current_entry.isEmpty = true <;> simp [h1, h3, h4, h5]
      · by_cases h2 : (trim ln).isEmpty = true
        · by_cases h5 : st.current_entry.isEmpty = true <;> simp [h1, h2, h3, h4, h5]
        · simp [h1, h2, h3, h4]
    · simp [h1, h3]

theorem extractProjects_foldl_sim (lines : List (List Char)) (st : ProjectsLoop) :
    (lines.foldl (extractProjects.step file) st).toSegmenter =
      lines.foldl (segment.step project_keywords file) st.toSegmenter := by
  induction lines generalizing st with
  | nil => rfl
  | cons ln rest ih => rw [List.foldl_cons, List.foldl_cons, ih, extractProjects_step_sim]

theorem extractProjects_eq_segment (text : List Char) :
    extractProjects file text = segment project_keywords file text := by
  unfold extractProjects segment
  have h := extractProjects_foldl_sim (getLines text)
    { projects := [], inProjectSection := false, current_entry := [] }
  have h0 : ({ projects := [], inProjectSection := false, current_entry := [] } : ProjectsLoop).toSegmenter =
      { state := SegState.OUTSIDE, buffer := [], output := [] } := rfl
  rw [h0] at h
  rw [← h]
  unfold Segmenter.flush ProjectsLoop.toSegmenter
  simp only
  by_cases h5 : ((getLines text).foldl (extractProjects.step file)
      { projects := [], inProjectSection := false, current_entry := [] }).current_entry.isEmpty = true
  · simp [h5]
  · simp [h5]

/-- C4: the three extractors are one machine. Each equals `segment`, the
two-state segmenter with rules 1 to 5 and the final flush, run with the
extractor's own header keywords and the same ten-word vocabulary `file` as
foreign keywords. -/
theorem extractors_eq_segment (text : List Char) :
    extractEducation file text = segment education_keywords file text ∧
    extractExperience file text = segment experience_keywords file text ∧
    extractProjects file text = segment project_keywords file text ∧
    file.length = 10 :=
  ⟨extractEducation_eq_segment text, extractExperience_eq_segment text,
    extractProjects_eq_segment text, rfl⟩


/-! ## Formatting -/

theorem split_cons_ne_nil (c : Char) (cs : List Char) (separator : Char) :
    split (c :: cs) separator ≠ [] := by
  unfold split
  split_ifs
  · simp
  · split <;> simp

theorem getLines_ne_nil (text : List Char) (h : text ≠ []) : getLines text ≠ [] := by
  cases text with
  | nil => exact absurd rfl h
  | cons c cs => exact split_cons_ne_nil c cs '\n'

theorem getElem?_append_cons (pre : List (List Char)) (a : List Char) (l : List (List Char)) :
    (pre ++ a :: l)[pre.length]? = some a := by
  induction pre with
  | nil => simp
  | cons x xs ih => simpa using ih

/-- On a non-empty vector the blank-line loop stays inside the vector and
finds whether two consecutive lines are blank. -/
theorem spacingLoop_suffix (suf : List (List Char)) :
    ∀ pre : List (List Char), suf ≠ [] →
      spacingLoop (pre ++ suf) (suf.length - 1) pre.length = some (hasBlankPair suf) := by
  induction suf with
  | nil => intro pre h; exact absurd rfl h
  | cons a rest ih =>
    intro pre _
    cases rest with
    | nil => simp [spacingLoop, hasBlankPair]
    | cons b rest' =>
      have hfuel : (a :: b :: rest').length - 1 = (b :: rest').length - 1 + 1 := by simp
      have hget : (pre ++ a :: b :: rest')[pre.length]? = some a := getElem?_append_cons pre a _
      have hget' : (pre ++ a :: b :: rest')[pre.length + 1]? = some b := by
        have h1 := getElem?_append_cons (pre ++ [a]) b rest'
        simpa using h1
      have hrec := ih (pre ++ [a]) (by simp)
      have e1 : pre ++ [a] ++ b :: rest' = pre ++ a :: b :: rest' := by simp
      have e2 : (pre ++ [a]).length = pre.length + 1 := by simp
      rw [e1, e2] at hrec
      rw [hfuel]
      unfold spacingLoop
      rw [hget, hget']
      simp only
      rw [hrec]
      by_cases ha : (trim a).isEmpty = true
      · by_cases hb : (trim b).isEmpty = true
        · simp [ha, hb, hasBlankPair]
        · simp [ha, hb, hasBlankPair]
      · simp [ha, hasBlankPair]

theorem spacingLoop_eq (lines : List (List Char)) (h : lines ≠ []) :
    spacingLoop lines (spacingBound lines.length) 0 = some (hasBlankPair lines) := by
  have hlen : lines.length ≠ 0 := by
    intro h0
    exact h (List.length_eq_zero.mp h0)
  have := spacingLoop_suffix lines [] h
  simpa [spacingBound, hlen] using this

theorem checkFormatting_nil : checkFormatting [] = none := by
  rfl

/-- On every non-empty text `checkFormatting` returns the score and the
messages of the specification. -/
theorem checkFormatting_of_ne_nil (text : List Char) (h : text ≠ []) :
    checkFormatting text = some (formatScore text, formatMessages text) := by
  have hloop := spacingLoop_eq (getLines text) (getLines_ne_nil text h)
  unfold checkFormatting
  simp only [hloop]
  unfold formatScore formatMessages scoreOfChecks messagesOfChecks formatChecks deduct message
  by_cases h1 : text.length < 300 <;>
  by_cases h2 : (getLines text).any isHeaderLine = true <;>
  by_cases h3 : (getLines text).any isBulletLine = true <;>
  by_cases h4 : hasBlankPair (getLines text) = true <;>
  by_cases h5 : noContactPattern text = true <;>
  simp [h1, h2, h3, h4, h5]

theorem scoreOfChecks_range (c : Bool × Bool × Bool × Bool × Bool) :
    0 ≤ scoreOfChecks c ∧ scoreOfChecks c ≤ 100 := by
  obtain ⟨c1, c2, c3, c4, c5⟩ := c
  cases c1 <;> cases c2 <;> cases c3 <;> cases c4 <;> cases c5 <;> decide

theorem messagesOfChecks_nodup (c : Bool × Bool × Bool × Bool × Bool) :
    (messagesOfChecks c).Nodup := by
  obtain ⟨c1, c2, c3, c4, c5⟩ := c
  cases c1 <;> cases c2 <;> cases c3 <;> cases c4 <;> cases c5 <;> decide


/-- C7: on the empty text `checkFormatting` returns nothing (the blank-line
loop reads `lines[0]` of an empty vector); on every other text it returns
the score `max(0, 100 - 30 - 20 - 20 - 15 - 15)` restricted to the checks
that fired, with the messages of exactly those checks, each once, in the
fixed order. -/
theorem checkFormatting_spec :
    checkFormatting [] = none ∧
    ∀ text : List Char, text ≠ [] →
      checkFormatting text = some (formatScore text, formatMessages text) ∧
      (formatMessages text).Nodup :=
  ⟨checkFormatting_nil, fun text h =>
    ⟨checkFormatting_of_ne_nil text h, messagesOfChecks_nodup (formatChecks text)⟩⟩

/-- C7, at a concrete text: a short text with a header line, a bullet line
and an e-mail address loses the 30 points of the first check only. -/
theorem checkFormatting_spec_witness :
    "SKILLS\n- a\nmail: a@b.com\n".toList ≠ [] ∧
    checkFormatting "SKILLS\n- a\nmail: a@b.com\n".toList =
      some (70, ["Resume is too short".toList]) := by
  refine ⟨by decide, ?_⟩
  rw [(checkFormatting_spec.2 "SKILLS\n- a\nmail: a@b.com\n".toList (by decide)).1]
  decide

/-- C8: every score that `checkFormatting` returns is in `[0, 100]`, and it
returns one for every non-empty text. -/
theorem checkFormatting_range (text : List Char) :
    (text ≠ [] → ∃ r, checkFormatting text = some r) ∧
    ∀ r, checkFormatting text = some r → 0 ≤ r.1 ∧ r.1 ≤ 100 := by
  constructor
  · intro h
    exact ⟨_, checkFormatting_of_ne_nil text h⟩
  · intro r hr
    by_cases h : text = []
    · subst h
      rw [checkFormatting_nil] at hr
      exact absurd hr (by simp)
    · rw [checkFormatting_of_ne_nil text h] at hr
      cases hr
      exact scoreOfChecks_range (formatChecks text)

/-- C8, at a concrete text: when all five checks fire the score is 0, not negative. -/
theorem checkFormatting_range_witness :
    formatChecks allFiveText = (true, true, true, true, true) ∧
    checkFormatting allFiveText =
      some (0, ["Resume is too short".toList, "No clear section headers found".toList,
        "No bullet points found for listing details".toList,
        "Inconsistent spacing between sections".toList,
        "Missing or improperly formatted contact information".toList]) ∧
    (0 : Int) ≤ 0 ∧ (0 : Int) ≤ 100 :=
  ⟨by decide, by decide,
    (checkFormatting_range allFiveText).2
      (0, ["Resume is too short".toList, "No clear section headers found".toList,
        "No bullet points found for listing details".toList,
        "Inconsistent spacing between sections".toList,
        "Missing or improperly formatted contact information".toList])
      (by decide)⟩

/-! ## The analysis -/

theorem analyzeResume_nil (required_skills : List (List Char)) (require_gpa : Bool) :
    analyzeResume [] required_skills require_gpa = none := by
  unfold analyzeResume
  simp only [checkFormatting_nil]

theorem analyzeResume_isSome (text : List Char) (required_skills : List (List Char))
    (require_gpa : Bool) (h : text ≠ []) :
    ∃ res, analyzeResume text required_skills require_gpa = some res := by
  unfold analyzeResume
  simp only [checkFormatting_of_ne_nil text h]
  exact ⟨_, rfl⟩

/-- C9: the empty text makes the blank-line loop of `checkFormatting` read
outside the line vector (the bound `lines.size() - 1` wraps around and
`lines[0]` does not exist), so neither `checkFormatting` nor `analyzeResume`
returns a result; on every non-empty text both return one. -/
theorem checkFormatting_empty_text_fails :
    getLines [] = [] ∧
    spacingBound (getLines []).length = 2 ^ 64 - 1 ∧
    (getLines [])[0]? = none ∧
    checkFormatting [] = none ∧
    (∀ (required_skills : List (List Char)) (require_gpa : Bool),
      analyzeResume [] required_skills require_gpa = none) ∧
    (∀ text : List Char, text ≠ [] → ∃ r, checkFormatting text = some r) ∧
    (∀ (text : List Char) (required_skills : List (List Char)) (require_gpa : Bool),
      text ≠ [] → ∃ res, analyzeResume text required_skills require_gpa = some res) :=
  ⟨rfl, rfl, rfl, checkFormatting_nil, analyzeResume_nil,
    fun text h => ⟨_, checkFormatting_of_ne_nil text h⟩,
    fun text required_skills require_gpa h => analyzeResume_isSome text required_skills require_gpa h⟩

/-- The products of `atsScore` against exact decimal arithmetic: for every
score from 0 to 100 the rounded double product is the rounded exact product,
except that `90 * 0.35` is a double below 31.5 and rounds to 31. -/
theorem weighted_terms_exact :
    (∀ s : Fin 101, cround (fmul (ofInt (s.val : ℤ)) (fl (1 / 10))) = cround ((s.val : ℚ) * 1 / 10)) ∧
    (∀ s : Fin 101, cround (fmul (ofInt (s.val : ℤ)) (fl (25 / 100))) = cround ((s.val : ℚ) * 25 / 100)) ∧
    (∀ s : Fin 101, cround (fmul (ofInt (s.val : ℤ)) (fl (2 / 10))) = cround ((s.val : ℚ) * 2 / 10)) ∧
    (∀ s : Fin 101, cround (fmul (ofInt (s.val : ℤ)) (fl (35 / 100))) =
      if s.val = 90 then 31 else cround ((s.val : ℚ) * 35 / 100)) ∧
    cround ((90 : ℚ) * 35 / 100) = 32 := by
  decide!

/-! ## Substrings -/

theorem contains_iff_substr (hay needle : List Char) :
    contains hay needle = true ↔ needle <:+: hay := by
  unfold contains
  induction hay with
  | nil =>
    cases needle with
    | nil => simp [find]
    | cons c cs => simp [find]
  | cons c cs ih =>
    rw [List.infix_cons_iff]
    unfold find
    by_cases h : needle.isPrefixOf (c :: cs) = true
    · rw [if_pos h]
      simp only [Option.isSome_some, true_iff]
      exact Or.inl (List.isPrefixOf_iff_prefix.mp h)
    · rw [if_neg h]
      have h' : ¬ needle <+: c :: cs := fun hp => h (List.isPrefixOf_iff_prefix.mpr hp)
      simp only [Option.isSome_map']
      rw [ih]
      constructor
      · exact Or.inr
      · rintro (hp | hi)
        · exact absurd hp h'
        · exact hi

theorem contains_of_substr {hay hay' needle : List Char} (h : hay <:+: hay')
    (hc : contains hay needle = true) : contains hay' needle = true :=
  (contains_iff_substr hay' needle).mpr (((contains_iff_substr hay needle).mp hc).trans h)

/-! ## `split` -/

theorem split_token_no_sep (s : List Char) (c : Char) : ∀ t ∈ split s c, c ∉ t := by
  induction s with
  | nil => intro t h; simp [split] at h
  | cons x xs ih =>
    intro t h
    unfold split at h
    by_cases hx : x = c
    · rw [if_pos hx] at h
      rcases List.mem_cons.mp h with rfl | h'
      · simp
      · exact ih t h'
    · rw [if_neg hx] at h
      cases hs : split xs c with
      | nil =>
        rw [hs] at h
        simp only [List.mem_singleton] at h
        subst h
        simp [Ne.symm hx]
      | cons tok toks =>
        rw [hs] at h ih
        rcases List.mem_cons.mp h with rfl | h'
        · have := ih tok (List.mem_cons_self _ _)
          simp [Ne.symm hx, this]
        · exact ih t (List.mem_cons_of_mem _ h')

/-- Joining the tokens with the separator gives the string back, without its
last character when that is a separator. -/
theorem split_join (s : List Char) (c : Char) :
    [c].intercalate (split s c) = if s.getLast? = some c then s.dropLast else s := by
  induction s with
  | nil => rfl
  | cons x xs ih =>
    unfold split
    by_cases hx : x = c
    · subst hx
      rw [if_pos rfl]
      cases xs with
      | nil => simp [split]; rfl
      | cons y ys =>
        have hne : split (y :: ys) x ≠ [] := split_cons_ne_nil y ys x
        cases hs : split (y :: ys) x with
        | nil => exact absurd hs hne
        | cons tok toks =>
          rw [hs] at ih
          have e : [x].intercalate ([] :: tok :: toks) = x :: [x].intercalate (tok :: toks) := by
            simp [List.intercalate, List.intersperse]
          rw [e, ih]
          by_cases hl : (y :: ys).getLast? = some x
          · simp [hl, List.getLast?_cons_cons, List.dropLast]
          · simp [hl, List.getLast?_cons_cons]
    · rw [if_neg hx]
      cases xs with
      | nil => simp [split, Ne.symm hx, hx]; rfl
      | cons y ys =>
        have hne : split (y :: ys) c ≠ [] := split_cons_ne_nil y ys c
        cases hs : split (y :: ys) c with
        | nil => exact absurd hs hne
        | cons tok toks =>
          rw [hs] at ih
          have e : [c].intercalate ((x :: tok) :: toks) = x :: [c].intercalate (tok :: toks) := by
            cases toks <;> simp [List.intercalate, List.intersperse]
          simp only []
          rw [e, ih]
          by_cases hl : (y :: ys).getLast? = some c
          · simp [hl, List.getLast?_cons_cons, List.dropLast]
          · simp [hl, List.getLast?_cons_cons]

/-! ## `trim` -/

theorem find_first_not_of_all (s : List Char) (h : s.all isTrimChar = true) :
    find_first_not_of s = none := by
  induction s with
  | nil => rfl
  | cons c cs ih =>
    simp only [List.all_cons, Bool.and_eq_true] at h
    simp [find_first_not_of, h.1, ih h.2]

theorem find_first_not_of_append (pre : List Char) (c : Char) (rest : List Char)
    (hpre : pre.all isTrimChar = true) (hc : isTrimChar c = false) :
    find_first_not_of (pre ++ c :: rest) = some pre.length := by
  induction pre with
  | nil => simp [find_first_not_of, hc]
  | cons x xs ih =>
    simp only [List.all_cons, Bool.and_eq_true] at hpre
    simp [find_first_not_of, hpre.1, ih hpre.2]

theorem find_last_not_of_all (s : List Char) (h : s.all isTrimChar = true) :
    find_last_not_of s = none := by
  induction s with
  | nil => rfl
  | cons c cs ih =>
    simp only [List.all_cons, Bool.and_eq_true] at h
    simp [find_last_not_of, h.1, ih h.2]

theorem find_last_not_of_cons (c : Char) (cs : List Char) :
    find_last_not_of (c :: cs) =
      match find_last_not_of cs with
      | some i => some (i + 1)
      | none => if isTrimChar c then none else some 0 := rfl

theorem find_last_not_of_append (pre l : List Char) (hpre : pre.all isTrimChar = true) :
    find_last_not_of (pre ++ l) = (find_last_not_of l).map (· + pre.length) := by
  induction pre with
  | nil => simp
  | cons x xs ih =>
    simp only [List.all_cons, Bool.and_eq_true] at hpre
    have h := ih hpre.2
    rw [List.cons_append, find_last_not_of_cons]
    cases hl : find_last_not_of l with
    | none =>
      rw [hl] at h
      rw [h]
      simp [hpre.1]
    | some j =>
      rw [hl] at h
      rw [h]
      simp [Nat.add_assoc]

/-- The position found by `find_last_not_of` splits the string into a part
that ends with a character outside the set and a tail inside the set. -/
theorem find_last_not_of_some (l : List Char) :
    ∀ j, find_last_not_of l = some j →
      ∃ init c post, l = init ++ c :: post ∧ init.length = j ∧
        isTrimChar c = false ∧ post.all isTrimChar = true := by
  induction l with
  | nil => intro j h; simp [find_last_not_of] at h
  | cons x xs ih =>
    intro j h
    unfold find_last_not_of at h
    cases hx : find_last_not_of xs with
    | some i =>
      rw [hx] at h
      simp only [Option.some.injEq] at h
      obtain ⟨init, c, post, e, hl, hc, hp⟩ := ih i hx
      refine ⟨x :: init, c, post, by rw [e]; rfl, by simp [hl, h], hc, hp⟩
    | none =>
      rw [hx] at h
      simp only at h
      by_cases ht : isTrimChar x = true
      · simp [ht] at h
      · simp only [ht, Bool.false_eq_true, if_false, Option.some.injEq] at h
        refine ⟨[], x, xs, rfl, by simp [h], by simpa using ht, ?_⟩
        -- nothing outside the set is left in the tail
        clear h ih
        induction xs with
        | nil => rfl
        | cons y ys ihy =>
          unfold find_last_not_of at hx
          cases hy : find_last_not_of ys with
          | some i => rw [hy] at hx; simp at hx
          | none =>
            rw [hy] at hx
            simp only at hx
            by_cases hty : isTrimChar y = true
            · simp [hty, ihy hy]
            · simp [hty] at hx

theorem find_last_not_of_cons_isSome (c : Char) (rest : List Char)
    (hc : isTrimChar c = false) : ∃ j, find_last_not_of (c :: rest) = some j := by
  unfold find_last_not_of
  cases find_last_not_of rest with
  | some i => exact ⟨_, rfl⟩
  | none => exact ⟨0, by simp [hc]⟩

/-- Every string is made of characters of the set only, or has a first
character outside the set. -/
theorem trim_split_cases (s : List Char) :
    s.all isTrimChar = true ∨
    ∃ pre c rest, s = pre ++ c :: rest ∧ pre.all isTrimChar = true ∧ isTrimChar c = false := by
  induction s with
  | nil => exact Or.inl rfl
  | cons x xs ih =>
    by_cases hx : isTrimChar x = true
    · rcases ih with h | ⟨pre, c, rest, e, hp, hc⟩
      · exact Or.inl (by simp [hx, h])
      · exact Or.inr ⟨x :: pre, c, rest, by rw [e]; rfl, by simp [hx, hp], hc⟩
    · exact Or.inr ⟨[], x, xs, rfl, rfl, by simpa using hx⟩

theorem trim_of_all (s : List Char) (h : s.all isTrimChar = true) : trim s = [] := by
  unfold trim
  rw [find_first_not_of_all s h]

/-- The shape of `trim` on a string with a character outside the set. -/
theorem trim_of_split (pre : List Char) (c : Char) (rest : List Char)
    (hpre : pre.all isTrimChar = true) (hc : isTrimChar c = false) :
    ∃ init c' post, c :: rest = init ++ c' :: post ∧ isTrimChar c' = false ∧
      post.all isTrimChar = true ∧ trim (pre ++ c :: rest) = init ++ [c'] := by
  obtain ⟨j, hj⟩ := find_last_not_of_cons_isSome c rest hc
  obtain ⟨init, c', post, e, hl, hc', hp⟩ := find_last_not_of_some (c :: rest) j hj
  refine ⟨init, c', post, e, hc', hp, ?_⟩
  unfold trim
  rw [find_first_not_of_append pre c rest hpre hc, find_last_not_of_append pre _ hpre, hj]
  simp only [Option.map_some', List.drop_left, Nat.add_sub_cancel]
  rw [e, ← hl]
  rw [List.take_append_eq_append_take]
  simp

theorem head_of_split (c : Char) (rest init : List Char) (c' : Char) (post : List Char)
    (e : c :: rest = init ++ c' :: post) : (init ++ [c']).head? = some c := by
  cases init with
  | nil => simp at e; simp [e.1]
  | cons x xs => simp at e; simp [e.1]

/-- C19: `trim s` is the part of `s` left between a prefix and a suffix made
of space, tab, CR and LF only; it neither starts nor ends with one of these;
it is empty exactly when `s` consists of them only; and `trim` is idempotent. -/
theorem trim_spec (s : List Char) :
    (∃ pre post, s = pre ++ trim s ++ post ∧
      pre.all isTrimChar = true ∧ post.all isTrimChar = true) ∧
    (∀ c, (trim s).head? = some c → isTrimChar c = false) ∧
    (∀ c, (trim s).getLast? = some c → isTrimChar c = false) ∧
    (trim s = [] ↔ s.all isTrimChar = true) ∧
    trim (trim s) = trim s := by
  rcases trim_split_cases s with h | ⟨pre, c, rest, e, hpre, hc⟩
  · have ht := trim_of_all s h
    rw [ht]
    refine ⟨⟨[], s, by simp, rfl, h⟩, by simp, by simp, by simp [h], rfl⟩
  · obtain ⟨init, c', post, e2, hc', hpost, ht⟩ := trim_of_split pre c rest hpre hc
    subst e
    rw [ht]
    have hhead := head_of_split c rest init c' post e2
    refine ⟨⟨pre, post, by rw [e2]; simp, hpre, hpost⟩, ?_, ?_, ?_, ?_⟩
    · intro d hd
      rw [hhead] at hd
      cases hd
      exact hc
    · intro d hd
      simp at hd
      rw [← hd]
      exact hc'
    · constructor
      · intro h0
        simp at h0
      · intro hall
        simp [hc] at hall
    · -- the result starts and ends outside the set, so trimming it again changes nothing
      cases hinit : init ++ [c'] with
      | nil => simp at hinit
      | cons d ds =>
        rw [hinit] at hhead
        simp at hhead
        subst hhead
        obtain ⟨init2, c2, post2, e3, hc2, hpost2, ht2⟩ := trim_of_split [] d ds rfl hc
        simp only [List.nil_append] at ht2
        rw [ht2]
        -- `post2` is empty because the last character is outside the set
        rw [← hinit] at e3
        have hp2 : post2 = [] := by
          cases hq : post2 with
          | nil => rfl
          | cons q qs =>
            rw [hq] at e3 hpost2
            have hlast := congrArg List.getLast? e3
            simp [List.getLast?_append] at hlast
            have hqs : (q :: qs).getLast? = some c' := by
              cases hqs' : (q :: qs).getLast? with
              | none => simp at hqs'
              | some z => rw [hqs'] at hlast; simp at hlast; rw [hlast]
            have hmem : c' ∈ q :: qs := List.mem_of_mem_getLast? hqs
            have := List.all_eq_true.mp hpost2 c' hmem
            rw [hc'] at this
            exact absurd this (by simp)
        subst hp2
        rw [hinit] at e3
        exact e3.symm

theorem split_cons (x : Char) (xs : List Char) (c : Char) :
    split (x :: xs) c =
      if x = c then [] :: split xs c
      else
        match split xs c with
        | [] => [[x]]
        | token :: tokens => (x :: token) :: tokens := by
  by_cases h : x = c
  · simp [split, h]
  · simp [split, h]

theorem split_of_no_sep (a : List Char) (c : Char) (h : c ∉ a) (hne : a ≠ []) :
    split a c = [a] := by
  induction a with
  | nil => exact absurd rfl hne
  | cons x xs ih =>
    have hx : x ≠ c := fun e => h (by simp [e])
    have hxs : c ∉ xs := fun e => h (List.mem_cons_of_mem _ e)
    unfold split
    rw [if_neg hx]
    cases xs with
    | nil => simp [split]
    | cons y ys => rw [ih hxs (by simp)]

theorem split_append_sep (a : List Char) (c : Char) (rest : List Char) (h : c ∉ a) :
    split (a ++ c :: rest) c = a :: split rest c := by
  induction a with
  | nil => simp [split]
  | cons x xs ih =>
    have hx : x ≠ c := fun e => h (by simp [e])
    have hxs : c ∉ xs := fun e => h (List.mem_cons_of_mem _ e)
    rw [List.cons_append, split_cons, if_neg hx, ih hxs]

/-- C20: no token of `split s c` contains `c`; joining the tokens with `c`
gives `s` back, without its final `c` when it ends with one; the empty
string has no token; a separator closes the token before it, so that two
consecutive separators enclose an empty token and a final separator is
followed by no token. -/
theorem split_spec (s : List Char) (c : Char) :
    (∀ t ∈ split s c, c ∉ t) ∧
    [c].intercalate (split s c) = (if s.getLast? = some c then s.dropLast else s) ∧
    split [] c = [] ∧
    (∀ a rest : List Char, c ∉ a → split (a ++ c :: rest) c = a :: split rest c) ∧
    (∀ a rest : List Char, c ∉ a → split (a ++ c :: c :: rest) c = a :: [] :: split rest c) ∧
    (∀ a : List Char, c ∉ a → split (a ++ [c]) c = [a]) ∧
    (∀ a : List Char, c ∉ a → a ≠ [] → split a c = [a]) := by
  refine ⟨split_token_no_sep s c, split_join s c, rfl, ?_, ?_, ?_, ?_⟩
  · intro a rest h
    exact split_append_sep a c rest h
  · intro a rest h
    rw [split_append_sep a c _ h]
    have := split_append_sep [] c rest (by simp)
    simp only [List.nil_append] at this
    rw [this]
  · intro a h
    rw [split_append_sep a c [] h]
    rfl
  · intro a h hne
    exact split_of_no_sep a c h hne

/-- C20, at concrete strings. -/
theorem split_spec_witness :
    split "a..b.".toList '.' = ["a".toList, [], "b".toList] ∧
    ['.'].intercalate (split "a..b.".toList '.') = "a..b".toList ∧
    ['.'].intercalate (split "a..b".toList '.') = "a..b".toList :=
  ⟨by decide, by rw [(split_spec "a..b.".toList '.').2.1]; decide,
    by rw [(split_spec "a..b".toList '.').2.1]; decide⟩

/-! ## The name -/

theorem name_eq (text : List Char) :
    (extractPersonalInfo text).name =
      if (trim (firstLine text)).isEmpty then "Unknown".toList else trim (firstLine text) := rfl

/-- C14: the name is taken from the first line only. For a text whose first
line is blank and whose second line is `John` the name is `Unknown`, not
`John`; the name is the first non-blank line, trimmed, whenever the first
line is non-blank or every line is blank. -/
theorem extractPersonalInfo_name_first_line :
    (extractPersonalInfo blankThenJohn).name = "Unknown".toList ∧
    firstNonBlankName blankThenJohn = "John".toList ∧
    (∀ text : List Char,
      (extractPersonalInfo text).name =
        if (trim (firstLine text)).isEmpty then "Unknown".toList else trim (firstLine text)) ∧
    (∀ text : List Char, (trim (firstLine text)).isEmpty = false →
      (extractPersonalInfo text).name = firstNonBlankName text) ∧
    (∀ text : List Char, (∀ line ∈ getLines text, (trim line).isEmpty = true) →
      (extractPersonalInfo text).name = firstNonBlankName text ∧
      (extractPersonalInfo text).name = "Unknown".toList) := by
  refine ⟨by decide, by decide, name_eq, ?_, ?_⟩
  · intro text h
    rw [name_eq, h]
    unfold firstNonBlankName firstLine at *
    cases hl : getLines text with
    | nil => rw [hl] at h; simp [trim, find_first_not_of] at h
    | cons line rest =>
      rw [hl] at h
      simp only at h
      simp [List.find?, h]
  · intro text h
    have hfirst : (trim (firstLine text)).isEmpty = true := by
      unfold firstLine
      cases hl : getLines text with
      | nil => rfl
      | cons line rest =>
        rw [hl] at h
        exact h line (List.mem_cons_self _ _)
    have hnone : (getLines text).find? (fun line => !(trim line).isEmpty) = none := by
      rw [List.find?_eq_none]
      intro line hmem
      simp [h line hmem]
    rw [name_eq, hfirst]
    unfold firstNonBlankName
    rw [hnone]
    exact ⟨rfl, rfl⟩

/-! ## Scenario E -/

/-- C15, counterexample: for scenario E and the skill `C++` the whole-text
test does not fail, so the skill is not found through the per-sentence test. -/
theorem scenarioE_not_through_fallback :
    ¬ (contains (toLower scenarioE) (toLower "C++".toList) = false ∧
       (split (toLower scenarioE) '.').any
         (fun sentence => contains sentence (toLower "C++".toList)) = true) := by
  decide

/-- C15 (as amended): for scenario E and the required list `C++` the skill is
reported as found, and it is found by the whole-text test on the case-folded
text, which succeeds, so that the per-sentence test is not reached. -/
theorem scenarioE_found_by_whole_text :
    (calculateKeywordMatch scenarioE ["C++".toList]).found_skills = ["C++".toList] ∧
    (calculateKeywordMatch scenarioE ["C++".toList]).missing_skills = [] ∧
    contains (toLower scenarioE) (toLower "C++".toList) = true ∧
    matchStep (toLower scenarioE) ([], []) "C++".toList = (["C++".toList], []) := by
  decide

/-! ## The result of the analysis -/

/-- The fields of a result of `analyzeResume`, in terms of its input. -/
theorem analyzeResume_fields (text : List Char) (required_skills : List (List Char))
    (require_gpa : Bool) (res : ResumeAnalysisResult)
    (h : analyzeResume text required_skills require_gpa = some res) :
    text ≠ [] ∧
    res.personal_info = extractPersonalInfo text ∧
    res.keyword_match = calculateKeywordMatch text required_skills ∧
    res.education = extractEducation file text ∧
    res.experience = extractExperience file text ∧
    res.projects = extractProjects file text ∧
    res.format_score = formatScore text ∧
    res.section_scores = subScores text required_skills require_gpa ∧
    res.ats_score =
      atsScore (groupScore (contactSuggestions (extractPersonalInfo text)).length)
        (toInt (calculateKeywordMatch text required_skills).score)
        (groupScore (experienceSuggestions (extractExperience file text)).length)
        (groupScore (educationSuggestions (extractEducation file text) require_gpa).length)
        (formatScore text) ∧
    res.suggestions =
      (if (suggestionGroups text required_skills require_gpa).flatten.isEmpty then [wellOptimized]
       else (suggestionGroups text required_skills require_gpa).flatten) := by
  have hne : text ≠ [] := by
    intro h0
    subst h0
    rw [analyzeResume_nil] at h
    exact absurd h (by simp)
  unfold analyzeResume at h
  simp only [checkFormatting_of_ne_nil text hne] at h
  cases h
  refine ⟨hne, rfl, rfl, rfl, rfl, rfl, rfl, rfl, rfl, ?_⟩
  simp [suggestionGroups, formatSuggestions, wellOptimized, List.flatten, List.append_assoc]

theorem toInt_eq_floor (x : ℚ) (hx : 0 ≤ x) : toInt x = ⌊x⌋ := by
  unfold toInt
  rw [if_pos hx, Rat.floor_def]
  have hnum : 0 ≤ x.num := Rat.num_nonneg.mpr hx
  have e : ((x.num.toNat : ℕ) : ℤ) = x.num := Int.toNat_of_nonneg hnum
  show ((x.num.toNat / x.den : ℕ) : ℤ) = x.num / (x.den : ℤ)
  rw [Int.ofNat_ediv, e]

theorem toInt_range (x : ℚ) (h0 : 0 ≤ x) (h1 : x ≤ 100) : 0 ≤ toInt x ∧ toInt x ≤ 100 := by
  rw [toInt_eq_floor x h0]
  constructor
  · exact Int.floor_nonneg.mpr h0
  · have : ⌊x⌋ ≤ ⌊(100 : ℚ)⌋ := Int.floor_mono h1
    simpa using this

theorem score_range (text : List Char) (required : List (List Char)) :
    0 ≤ (calculateKeywordMatch text required).score ∧
    (calculateKeywordMatch text required).score ≤ 100 := by
  have hscore : (calculateKeywordMatch text required).score =
      (if required.isEmpty then 0
       else fmul (fdiv (ofInt (calculateKeywordMatch text required).found_skills.length)
         (ofInt required.length)) (ofInt 100)) := by
    cases required <;> simp [calculateKeywordMatch]
  rw [hscore]
  cases required with
  | nil => simp
  | cons s rest =>
    simp only [List.isEmpty_cons, Bool.false_eq_true, if_false]
    exact ratio_score_bounds _ _ (found_le_required text (s :: rest)) (by simp)

theorem groupScore_small : ∀ k : Fin 4, groupScore k.val = 100 - 25 * (k.val : ℤ) := by
  decide

theorem groupScore_of_le (k : ℕ) (h : k ≤ 3) : groupScore k = 100 - 25 * (k : ℤ) :=
  groupScore_small ⟨k, by omega⟩

theorem contactSuggestions_length (info : PersonalInfo) :
    (contactSuggestions info).length ≤ 3 := by
  unfold contactSuggestions
  split_ifs <;> simp

theorem experienceSuggestions_length (experience : List (List Char)) :
    (experienceSuggestions experience).length ≤ 3 := by
  unfold experienceSuggestions
  simp only
  split_ifs <;> simp

theorem educationSuggestions_length (education : List (List Char)) (require_gpa : Bool) :
    (educationSuggestions education require_gpa).length ≤ 3 := by
  unfold educationSuggestions
  simp only
  split_ifs <;> simp

theorem groupScore_range (k : ℕ) (h : k ≤ 3) : 25 ≤ groupScore k ∧ groupScore k ≤ 100 := by
  rw [groupScore_of_le k h]
  omega

theorem formatScore_range (text : List Char) : 0 ≤ formatScore text ∧ formatScore text ≤ 100 :=
  scoreOfChecks_range (formatChecks text)

/-- The five rounded products are bounded by the weights times 100. -/
theorem weighted_terms_range :
    (∀ s : Fin 101, 0 ≤ cround (fmul (ofInt (s.val : ℤ)) (fl (1 / 10))) ∧
      cround (fmul (ofInt (s.val : ℤ)) (fl (1 / 10))) ≤ 10) ∧
    (∀ s : Fin 101, 0 ≤ cround (fmul (ofInt (s.val : ℤ)) (fl (35 / 100))) ∧
      cround (fmul (ofInt (s.val : ℤ)) (fl (35 / 100))) ≤ 35) ∧
    (∀ s : Fin 101, 0 ≤ cround (fmul (ofInt (s.val : ℤ)) (fl (25 / 100))) ∧
      cround (fmul (ofInt (s.val : ℤ)) (fl (25 / 100))) ≤ 25) ∧
    (∀ s : Fin 101, 0 ≤ cround (fmul (ofInt (s.val : ℤ)) (fl (2 / 10))) ∧
      cround (fmul (ofInt (s.val : ℤ)) (fl (2 / 10))) ≤ 20) := by
  decide!

theorem atsScore_range (c s e d f : ℤ) (hc : 0 ≤ c ∧ c ≤ 100) (hs : 0 ≤ s ∧ s ≤ 100)
    (he : 0 ≤ e ∧ e ≤ 100) (hd : 0 ≤ d ∧ d ≤ 100) (hf : 0 ≤ f ∧ f ≤ 100) :
    0 ≤ atsScore c s e d f ∧ atsScore c s e d f ≤ 100 := by
  have cast : ∀ x : ℤ, 0 ≤ x ∧ x ≤ 100 → ∃ k : Fin 101, x = (k.val : ℤ) := by
    intro x hx
    exact ⟨⟨x.toNat, by omega⟩, by simp [Int.toNat_of_nonneg hx.1]⟩
  obtain ⟨kc, rfl⟩ := cast c hc
  obtain ⟨ks, rfl⟩ := cast s hs
  obtain ⟨ke, rfl⟩ := cast e he
  obtain ⟨kd, rfl⟩ := cast d hd
  obtain ⟨kf, rfl⟩ := cast f hf
  have h1 := weighted_terms_range.1 kc
  have h2 := weighted_terms_range.2.1 ks
  have h3 := weighted_terms_range.2.2.1 ke
  have h4 := weighted_terms_range.1 kd
  have h5 := weighted_terms_range.2.2.2 kf
  unfold atsScore
  omega

/-! ## The sub-scores -/

theorem subScores_lookup (text : List Char) (required_skills : List (List Char))
    (require_gpa : Bool) :
    (subScores text required_skills require_gpa).lookup "contact".toList =
      some (groupScore (contactSuggestions (extractPersonalInfo text)).length) ∧
    (subScores text required_skills require_gpa).lookup "skills".toList =
      some (toInt (calculateKeywordMatch text required_skills).score) ∧
    (subScores text required_skills require_gpa).lookup "experience".toList =
      some (groupScore (experienceSuggestions (extractExperience file text)).length) ∧
    (subScores text required_skills require_gpa).lookup "education".toList =
      some (groupScore (educationSuggestions (extractEducation file text) require_gpa).length) ∧
    (subScores text required_skills require_gpa).lookup "format".toList =
      some (formatScore text) :=
  ⟨rfl, rfl, rfl, rfl, rfl⟩

theorem toInt_zero : toInt 0 = 0 := by
  decide!

/-- C11, counterexample: with 2 of 3 required skills found the score is the
double nearest to 66.67; the skills sub-score is 66, while the score rounded
to the nearest integer is 67. -/
theorem skills_score_not_rounded :
    (analyzeResume "a".toList ["a".toList, "a".toList, "b".toList] false).map
        (fun res => sectionScore res "skills") = some (some 66) ∧
    cround (calculateKeywordMatch "a".toList ["a".toList, "a".toList, "b".toList]).score = 67 ∧
    cround (100 * (2 : ℚ) / 3) = 67 := by
  decide!

/-- C11 (as amended): in every result the skills sub-score is the keyword
match score truncated toward zero, that is the largest integer not above the
score; it is 0 for an empty required list and lies in `[0, 100]`. A result
is returned for every non-empty text. -/
theorem analyzeResume_skills_score (text : List Char) (required_skills : List (List Char))
    (require_gpa : Bool) :
    (text ≠ [] → ∃ res, analyzeResume text required_skills require_gpa = some res) ∧
    ∀ res, analyzeResume text required_skills require_gpa = some res →
      sectionScore res "skills" = some (toInt res.keyword_match.score) ∧
      toInt res.keyword_match.score = ⌊res.keyword_match.score⌋ ∧
      res.keyword_match = calculateKeywordMatch text required_skills ∧
      (required_skills = [] → sectionScore res "skills" = some 0) ∧
      0 ≤ toInt res.keyword_match.score ∧ toInt res.keyword_match.score ≤ 100 := by
  refine ⟨analyzeResume_isSome text required_skills require_gpa, ?_⟩
  intro res hres
  obtain ⟨_, _, hk, _, _, _, _, hs, _, _⟩ :=
    analyzeResume_fields text required_skills require_gpa res hres
  have hr := score_range text required_skills
  have hl : sectionScore res "skills" = some (toInt res.keyword_match.score) := by
    unfold sectionScore
    rw [hs, hk]
    exact (subScores_lookup text required_skills require_gpa).2.1
  refine ⟨hl, ?_, hk, ?_, ?_⟩
  · rw [hk]
    exact toInt_eq_floor _ hr.1
  · intro he
    have h0 : (calculateKeywordMatch text []).score = 0 := by simp [calculateKeywordMatch]
    rw [hl, hk, he, h0]
    exact congrArg some toInt_zero
  · rw [hk]
    exact toInt_range _ hr.1 hr.2

/-- C12: in every result each of the five values of `section_scores` is an
integer in `[0, 100]` and so is `ats_score`; a result is returned for every
non-empty text. -/
theorem analyzeResume_scores_range (text : List Char) (required_skills : List (List Char))
    (require_gpa : Bool) :
    (text ≠ [] → ∃ res, analyzeResume text required_skills require_gpa = some res) ∧
    ∀ res, analyzeResume text required_skills require_gpa = some res →
      (∃ contact skills experience education format : Int,
        sectionScore res "contact" = some contact ∧ 0 ≤ contact ∧ contact ≤ 100 ∧
        sectionScore res "skills" = some skills ∧ 0 ≤ skills ∧ skills ≤ 100 ∧
        sectionScore res "experience" = some experience ∧ 0 ≤ experience ∧ experience ≤ 100 ∧
        sectionScore res "education" = some education ∧ 0 ≤ education ∧ education ≤ 100 ∧
        sectionScore res "format" = some format ∧ 0 ≤ format ∧ format ≤ 100) ∧
      res.section_scores.length = 5 ∧
      0 ≤ res.ats_score ∧ res.ats_score ≤ 100 := by
  refine ⟨analyzeResume_isSome text required_skills require_gpa, ?_⟩
  intro res hres
  obtain ⟨_, _, _, _, _, _, _, hs, ha, _⟩ :=
    analyzeResume_fields text required_skills require_gpa res hres
  have hl := subScores_lookup text required_skills require_gpa
  have hc := groupScore_range _ (contactSuggestions_length (extractPersonalInfo text))
  have he := groupScore_range _ (experienceSuggestions_length (extractExperience file text))
  have hd := groupScore_range _
    (educationSuggestions_length (extractEducation file text) require_gpa)
  have hf := formatScore_range text
  have hr := score_range text required_skills
  have hk := toInt_range _ hr.1 hr.2
  refine ⟨⟨_, _, _, _, _, ?_, ?_, hc.2, ?_, hk.1, hk.2, ?_, ?_, he.2, ?_, ?_, hd.2, ?_,
    hf.1, hf.2⟩, ?_, ?_⟩
  · unfold sectionScore; rw [hs]; exact hl.1
  · omega
  · unfold sectionScore; rw [hs]; exact hl.2.1
  · unfold sectionScore; rw [hs]; exact hl.2.2.1
  · omega
  · unfold sectionScore; rw [hs]; exact hl.2.2.2.1
  · omega
  · unfold sectionScore; rw [hs]; exact hl.2.2.2.2
  · rw [hs]; rfl
  · rw [ha]
    exact atsScore_range _ _ _ _ _ ⟨by omega, hc.2⟩ hk ⟨by omega, he.2⟩ ⟨by omega, hd.2⟩ hf

/-- C12, at a concrete input: the five sub-scores and the ATS score of the
text `email: a@b.com` with the required skill `SQL`. -/
theorem analyzeResume_scores_range_witness :
    (∃ res, analyzeResume "email: a@b.com".toList ["SQL".toList] false = some res) ∧
    (analyzeResume "email: a@b.com".toList ["SQL".toList] false).map
        (fun res => ([sectionScore res "contact", sectionScore res "skills",
          sectionScore res "experience", sectionScore res "education",
          sectionScore res "format"], res.ats_score)) =
      some ([some 50, some 0, some 75, some 75, some 30], 38) :=
  ⟨(analyzeResume_scores_range "email: a@b.com".toList ["SQL".toList] false).1 (by decide),
    by decide!⟩

/-! ## The suggestions -/

theorem skillsSuggestions_eq (missing : List (List Char)) :
    skillsSuggestions missing = if missing = [] then [] else skillsHeader :: missing := by
  have hfold : ∀ (l acc : List (List Char)),
      l.foldl (fun acc it => acc ++ [it]) acc = acc ++ l := by
    intro l
    induction l with
    | nil => intro acc; simp
    | cons x xs ih => intro acc; rw [List.foldl_cons, ih]; simp
  unfold skillsSuggestions
  cases missing with
  | nil => rfl
  | cons m ms =>
    simp only [List.isEmpty_cons, Bool.not_false, if_true]
    rw [hfold]
    simp [skillsHeader]

theorem ite_nil_ne_nil (G : List (List Char)) (w : List Char) :
    (if G = [] then [w] else G) ≠ [] := by
  by_cases h : G = []
  · simp [h]
  · simp [h]

/-- C13: in every result the suggestions are the five groups contact, skills,
experience, education, formatting concatenated in this order, or the single
message `wellOptimized` when the concatenation is empty; they are never
empty. A result is returned for every non-empty text. -/
theorem analyzeResume_suggestions (text : List Char) (required_skills : List (List Char))
    (require_gpa : Bool) :
    (text ≠ [] → ∃ res, analyzeResume text required_skills require_gpa = some res) ∧
    ∀ res, analyzeResume text required_skills require_gpa = some res →
      res.suggestions =
        (if contactSuggestions res.personal_info ++
              skillsSuggestions res.keyword_match.missing_skills ++
              experienceSuggestions res.experience ++
              educationSuggestions res.education require_gpa ++
              (if res.format_score < 100 then formatMessages text else []) = []
         then [wellOptimized]
         else contactSuggestions res.personal_info ++
              skillsSuggestions res.keyword_match.missing_skills ++
              experienceSuggestions res.experience ++
              educationSuggestions res.education require_gpa ++
              (if res.format_score < 100 then formatMessages text else [])) ∧
      res.suggestions ≠ [] := by
  refine ⟨analyzeResume_isSome text required_skills require_gpa, ?_⟩
  intro res hres
  obtain ⟨_, hp, hk, hed, hex, _, hf, _, _, hsug⟩ :=
    analyzeResume_fields text required_skills require_gpa res hres
  have hflat : (suggestionGroups text required_skills require_gpa).flatten =
      contactSuggestions res.personal_info ++
        skillsSuggestions res.keyword_match.missing_skills ++
        experienceSuggestions res.experience ++
        educationSuggestions res.education require_gpa ++
        (if res.format_score < 100 then formatMessages text else []) := by
    rw [hp, hk, hed, hex, hf]
    simp [suggestionGroups, formatSuggestions, List.flatten, List.append_assoc]
  rw [hflat] at hsug
  have hsug' : res.suggestions =
      (if contactSuggestions res.personal_info ++
            skillsSuggestions res.keyword_match.missing_skills ++
            experienceSuggestions res.experience ++
            educationSuggestions res.education require_gpa ++
            (if res.format_score < 100 then formatMessages text else []) = []
       then [wellOptimized]
       else contactSuggestions res.personal_info ++
            skillsSuggestions res.keyword_match.missing_skills ++
            experienceSuggestions res.experience ++
            educationSuggestions res.education require_gpa ++
            (if res.format_score < 100 then formatMessages text else [])) := by
    rw [hsug]
    simp only [List.isEmpty_iff]
  refine ⟨hsug', ?_⟩
  rw [hsug']
  exact ite_nil_ne_nil _ _

/-- C13, at two concrete inputs: one with suggestions from four groups, one
with none, where the single message stands for the empty concatenation. -/
theorem analyzeResume_suggestions_witness :
    (∃ res, analyzeResume "email: a@b.com".toList ["SQL".toList] false = some res) ∧
    (analyzeResume "email: a@b.com".toList ["SQL".toList] false).map
        (fun res => res.suggestions) =
      some ["Add your phone number".toList, "Add your LinkedIn profile URL".toList,
        skillsHeader, "SQL".toList, "Add your work experience section".toList,
        "Include graduation dates".toList, "Resume is too short".toList,
        "No clear section headers found".toList,
        "No bullet points found for listing details".toList] ∧
    (analyzeResume completeResume [] false).map (fun res => res.suggestions) =
      some [wellOptimized] :=
  ⟨(analyzeResume_suggestions "email: a@b.com".toList ["SQL".toList] false).1 (by decide),
    by decide!, by decide!⟩

/-! ## The skills suggestions and scenario B -/

/-- The first token of `split` is a prefix of the string, and every token is
a substring of it. -/
theorem split_tokens_substr (s : List Char) (c : Char) :
    (∀ tok toks, split s c = tok :: toks → tok <+: s) ∧ (∀ t ∈ split s c, t <:+: s) := by
  induction s with
  | nil => simp [split]
  | cons x xs ih =>
    rw [split_cons]
    by_cases hx : x = c
    · rw [if_pos hx]
      constructor
      · intro tok toks h
        simp only [List.cons.injEq] at h
        rw [← h.1]
        exact List.nil_prefix
      · intro t ht
        rcases List.mem_cons.mp ht with rfl | h'
        · exact List.nil_infix
        · exact (ih.2 t h').trans (List.infix_cons List.infix_rfl)
    · rw [if_neg hx]
      cases hs : split xs c with
      | nil =>
        simp only [List.cons.injEq, List.mem_singleton]
        constructor
        · rintro tok toks ⟨rfl, -⟩
          exact List.prefix_cons_inj x |>.mpr List.nil_prefix
        · rintro t rfl
          exact (List.prefix_cons_inj x |>.mpr List.nil_prefix).isInfix
      | cons tok toks =>
        rw [hs] at ih
        have hp : x :: tok <+: x :: xs := (List.prefix_cons_inj x).mpr (ih.1 tok toks rfl)
        simp only [List.cons.injEq]
        constructor
        · rintro tok' toks' ⟨rfl, -⟩
          exact hp
        · intro t ht
          rcases List.mem_cons.mp ht with rfl | h'
          · exact hp.isInfix
          · exact (ih.2 t (List.mem_cons_of_mem _ h')).trans (List.infix_cons List.infix_rfl)

/-- A skill that the whole-text test does not find is not found at all. -/
theorem skillFound_eq_contains (lower_text skill : List Char) :
    skillFound lower_text skill = contains lower_text (toLower skill) := by
  unfold skillFound
  by_cases h : contains lower_text (toLower skill) = true
  · simp [h]
  · have hany : (split lower_text '.').any
        (fun sentence => contains sentence (toLower skill)) = false := by
      rw [List.any_eq_false]
      intro t ht hc
      exact h (contains_of_substr ((split_tokens_substr lower_text '.').2 t ht) hc)
    simp [h, hany]

theorem toInt_score_zero : toInt (fmul (fdiv (ofInt 0) (ofInt 1)) (ofInt 100)) = 0 := by
  decide!

/-- C16: the skills suggestions are empty when no skill is missing and
otherwise the header followed by the missing skills in their order. For
every text that contains `email: a@b.com` and whose case-folded form does not
contain `sql`, with the required list `SQL`: the missing skills are `SQL`,
the skills sub-score is 0, and the suggestions contain the header directly
followed by `SQL`. -/
theorem skills_suggestions_spec :
    (∀ (text : List Char) (required_skills : List (List Char)) (require_gpa : Bool) res,
      analyzeResume text required_skills require_gpa = some res →
        skillsSuggestions res.keyword_match.missing_skills =
          (if res.keyword_match.missing_skills = [] then []
           else skillsHeader :: res.keyword_match.missing_skills) ∧
        skillsSuggestions res.keyword_match.missing_skills <:+: res.suggestions) ∧
    (∀ (text : List Char) (require_gpa : Bool),
      contains text "email: a@b.com".toList = true →
      contains (toLower text) "sql".toList = false →
      ∃ res, analyzeResume text ["SQL".toList] require_gpa = some res ∧
        res.keyword_match.missing_skills = ["SQL".toList] ∧
        sectionScore res "skills" = some 0 ∧
        [skillsHeader, "SQL".toList] <:+: res.suggestions) := by
  have hgroup : ∀ (text : List Char) (required_skills : List (List Char)) (require_gpa : Bool)
      res, analyzeResume text required_skills require_gpa = some res →
        skillsSuggestions res.keyword_match.missing_skills <:+: res.suggestions := by
    intro text required_skills require_gpa res hres
    obtain ⟨_, hp, hk, hed, hex, _, hf, _, _, hsug⟩ :=
      analyzeResume_fields text required_skills require_gpa res hres
    rw [hsug, hk]
    by_cases he : (suggestionGroups text required_skills require_gpa).flatten.isEmpty = true
    · rw [if_pos he]
      have hnil : (suggestionGroups text required_skills require_gpa).flatten = [] :=
        List.isEmpty_iff.mp he
      have : skillsSuggestions (calculateKeywordMatch text required_skills).missing_skills
          = [] := by
        rw [List.flatten_eq_nil_iff] at hnil
        exact hnil _ (by simp [suggestionGroups])
      rw [this]
      exact List.nil_infix
    · rw [if_neg he]
      refine ⟨contactSuggestions (extractPersonalInfo text),
        experienceSuggestions (extractExperience file text) ++
          educationSuggestions (extractEducation file text) require_gpa ++
          formatSuggestions text, ?_⟩
      simp [suggestionGroups, List.flatten, List.append_assoc]
  constructor
  · intro text required_skills require_gpa res hres
    exact ⟨skillsSuggestions_eq _, hgroup text required_skills require_gpa res hres⟩
  · intro text require_gpa hmail hsql
    have hne : text ≠ [] := by
      intro h0
      subst h0
      exact absurd hmail (by decide)
    obtain ⟨res, hres⟩ := analyzeResume_isSome text ["SQL".toList] require_gpa hne
    obtain ⟨_, _, hk, _, _, _, _, hs, _, _⟩ :=
      analyzeResume_fields text ["SQL".toList] require_gpa res hres
    have hfound : skillFound (toLower text) "SQL".toList = false := by
      rw [skillFound_eq_contains]
      exact hsql
    have hmiss : (calculateKeywordMatch text ["SQL".toList]).missing_skills = ["SQL".toList] := by
      rw [missing_skills_eq]
      simp only [List.filter_cons, List.filter_nil, hfound, Bool.not_false, if_true]
    have hfnd : (calculateKeywordMatch text ["SQL".toList]).found_skills = [] := by
      rw [found_skills_eq]
      simp only [List.filter_cons, List.filter_nil, hfound, Bool.false_eq_true, if_false]
    have hscore : toInt (calculateKeywordMatch text ["SQL".toList]).score = 0 := by
      have : (calculateKeywordMatch text ["SQL".toList]).score =
          fmul (fdiv (ofInt (calculateKeywordMatch text ["SQL".toList]).found_skills.length)
            (ofInt (["SQL".toList] : List (List Char)).length)) (ofInt 100) := by
        simp [calculateKeywordMatch]
      rw [this, hfnd]
      exact toInt_score_zero
    refine ⟨res, hres, by rw [hk, hmiss], ?_, ?_⟩
    · unfold sectionScore
      rw [hs, (subScores_lookup text ["SQL".toList] require_gpa).2.1, hscore]
    · have h := hgroup text ["SQL".toList] require_gpa res hres
      rw [hk, hmiss, skillsSuggestions_eq] at h
      simpa using h

/-- C16, at the text `email: a@b.com`. -/
theorem skills_suggestions_spec_witness :
    ∃ res, analyzeResume "email: a@b.com".toList ["SQL".toList] false = some res ∧
      res.keyword_match.missing_skills = ["SQL".toList] ∧
      sectionScore res "skills" = some 0 ∧
      [skillsHeader, "SQL".toList] <:+: res.suggestions :=
  skills_suggestions_spec.2 "email: a@b.com".toList false (by decide) (by decide)

/-! ## The entries of the extractors -/

theorem trim_head_outside (s : List Char) (c : Char) (h : (trim s).head? = some c) :
    isTrimChar c = false := by
  rcases trim_split_cases s with hall | ⟨pre, d, rest, e, hpre, hd⟩
  · rw [trim_of_all s hall] at h
    simp at h
  · obtain ⟨init, c', post, e2, _, _, ht⟩ := trim_of_split pre d rest hpre hd
    subst e
    rw [ht, head_of_split d rest init c' post e2] at h
    cases h
    exact hd

theorem entryText_foldl (g : List (List Char)) (acc : List Char) :
    g.foldl (fun oss part => oss ++ part ++ [' ']) acc = acc ++ entryText g := by
  unfold entryText
  induction g generalizing acc with
  | nil => simp
  | cons l ls ih =>
    rw [List.foldl_cons, List.foldl_cons, ih, ih ([] ++ l ++ [' '])]
    simp

theorem entryText_cons (l : List Char) (ls : List (List Char)) :
    entryText (l :: ls) = l ++ ' ' :: entryText ls := by
  have h := entryText_foldl ls ([] ++ l ++ [' '])
  unfold entryText at h ⊢
  rw [List.foldl_cons, h]
  simp

/-- What the segmenter has produced after the lines `processed`. -/
theorem segment_step_inv (headerKeywords foreignKeywords : List (List Char))
    (processed : List (List Char)) (m : Segmenter) (ln : List Char)
    (h : ∃ groups : List (List (List Char)),
      m.output = groups.map entryText ∧ (∀ g ∈ groups, g ≠ []) ∧
      (∀ l ∈ groups.flatten ++ m.buffer, l ≠ []) ∧
      (groups.flatten ++ m.buffer).Sublist (processed.map trim)) :
    ∃ groups : List (List (List Char)),
      (segment.step headerKeywords foreignKeywords m ln).output = groups.map entryText ∧
      (∀ g ∈ groups, g ≠ []) ∧
      (∀ l ∈ groups.flatten ++ (segment.step headerKeywords foreignKeywords m ln).buffer,
        l ≠ []) ∧
      (groups.flatten ++ (segment.step headerKeywords foreignKeywords m ln).buffer).Sublist
        ((processed ++ [ln]).map trim) := by
  obtain ⟨groups, ho, hg, hl, hs⟩ := h
  have hs' : (groups.flatten ++ m.buffer).Sublist ((processed ++ [ln]).map trim) := by
    rw [List.map_append]
    exact hs.trans (List.sublist_append_left _ _)
  -- appending the trimmed line to the buffer
  have happ : (trim ln).isEmpty = false →
      (∀ l ∈ groups.flatten ++ (m.buffer ++ [trim ln]), l ≠ []) ∧
      (groups.flatten ++ (m.buffer ++ [trim ln])).Sublist ((processed ++ [ln]).map trim) := by
    intro hne
    constructor
    · intro l hmem
      rw [← List.append_assoc, List.mem_append] at hmem
      rcases hmem with hmem | hmem
      · exact hl l hmem
      · simp only [List.mem_singleton] at hmem
        subst hmem
        intro h0
        rw [h0] at hne
        simp at hne
    · rw [← List.append_assoc, List.map_append]
      exact hs.append (List.Sublist.refl _)
  -- flushing
  have hflush : ∃ groups' : List (List (List Char)),
      m.flush.output = groups'.map entryText ∧ (∀ g ∈ groups', g ≠ []) ∧
      (∀ l ∈ groups'.flatten ++ m.flush.buffer, l ≠ []) ∧
      (groups'.flatten ++ m.flush.buffer).Sublist ((processed ++ [ln]).map trim) := by
    unfold Segmenter.flush
    by_cases hb : m.buffer.isEmpty = true
    · rw [if_pos hb]
      exact ⟨groups, ho, hg, hl, hs'⟩
    · rw [if_neg hb]
      refine ⟨groups ++ [m.buffer], by simp [ho], ?_, ?_, ?_⟩
      · intro g hmem
        rcases List.mem_append.mp hmem with hmem | hmem
        · exact hg g hmem
        · simp only [List.mem_singleton] at hmem
          subst hmem
          intro h0
          rw [h0] at hb
          simp at hb
      · simpa using hl
      · simpa using hs'
  unfold segment.step
  simp only
  by_cases h1 : (headerKeywords.any fun keyword => contains (toLower (trim ln)) keyword) = true
  · rw [if_pos h1]
    by_cases h2 : (trim ln).isEmpty = true
    · simp only [h2, if_true]
      exact ⟨groups, ho, hg, hl, hs'⟩
    · simp only [h2, Bool.false_eq_true, if_false]
      exact ⟨groups, ho, hg, (happ (by simpa using h2)).1, (happ (by simpa using h2)).2⟩
  · rw [if_neg h1]
    cases hst : m.state with
    | OUTSIDE => exact ⟨groups, ho, hg, hl, hs'⟩
    | INSIDE =>
      simp only
      by_cases h4 : (foreignKeywords.any fun keyword => contains (toLower (trim ln)) keyword) = true
      · rw [if_pos h4]
        exact hflush
      · rw [if_neg h4]
        by_cases h2 : (trim ln).isEmpty = true
        · simp only [h2, Bool.not_true, Bool.false_eq_true, if_false]
          exact hflush
        · simp only [h2, Bool.not_false, if_true]
          exact ⟨groups, ho, hg, (happ (by simpa using h2)).1, (happ (by simpa using h2)).2⟩

theorem segment_foldl_inv (headerKeywords foreignKeywords : List (List Char))
    (lines : List (List Char)) :
    ∀ (processed : List (List Char)) (m : Segmenter),
      (∃ groups : List (List (List Char)),
        m.output = groups.map entryText ∧ (∀ g ∈ groups, g ≠ []) ∧
        (∀ l ∈ groups.flatten ++ m.buffer, l ≠ []) ∧
        (groups.flatten ++ m.buffer).Sublist (processed.map trim)) →
      ∃ groups : List (List (List Char)),
        (lines.foldl (segment.step headerKeywords foreignKeywords) m).output =
          groups.map entryText ∧
        (∀ g ∈ groups, g ≠ []) ∧
        (∀ l ∈ groups.flatten ++
          (lines.foldl (segment.step headerKeywords foreignKeywords) m).buffer, l ≠ []) ∧
        (groups.flatten ++
          (lines.foldl (segment.step headerKeywords foreignKeywords) m).buffer).Sublist
            ((processed ++ lines).map trim) := by
  induction lines with
  | nil => intro processed m h; simpa using h
  | cons ln rest ih =>
    intro processed m h
    have h1 := segment_step_inv headerKeywords foreignKeywords processed m ln h
    have h2 := ih (processed ++ [ln]) _ h1
    simpa using h2

theorem segment_entriesInOrder (headerKeywords foreignKeywords : List (List Char))
    (text : List Char) :
    EntriesInOrder text (segment headerKeywords foreignKeywords text) := by
  have h := segment_foldl_inv headerKeywords foreignKeywords (getLines text) []
    { state := SegState.OUTSIDE, buffer := [], output := [] } ⟨[], by simp⟩
  unfold segment EntriesInOrder Segmenter.flush
  generalize (getLines text).foldl (segment.step headerKeywords foreignKeywords)
    { state := SegState.OUTSIDE, buffer := [], output := [] } = m at h ⊢
  obtain ⟨groups, ho, hg, hl, hs⟩ := h
  simp only [List.nil_append] at hs
  by_cases hb : m.buffer.isEmpty = true
  · rw [if_pos hb]
    have hnil := List.isEmpty_iff.mp hb
    rw [hnil] at hl hs
    exact ⟨groups, ho, hg, by simpa using hl, by simpa using hs⟩
  · rw [if_neg hb]
    refine ⟨groups ++ [m.buffer], by simp [ho], ?_, by simpa using hl, by simpa using hs⟩
    intro g hmem
    rcases List.mem_append.mp hmem with hmem | hmem
    · exact hg g hmem
    · simp only [List.mem_singleton] at hmem
      subst hmem
      intro h0
      rw [h0] at hb
      simp at hb

/-- An entry built in order from the lines of a text is not empty and holds
a character other than space, tab, CR and LF. -/
theorem entriesInOrder_nonblank (text : List Char) (entries : List (List Char))
    (h : EntriesInOrder text entries) :
    ∀ e ∈ entries, e ≠ [] ∧ ∃ c ∈ e, isTrimChar c = false := by
  obtain ⟨groups, he, hg, hl, hs⟩ := h
  intro e hmem
  rw [he, List.mem_map] at hmem
  obtain ⟨g, hgm, rfl⟩ := hmem
  cases g with
  | nil => exact absurd rfl (hg [] hgm)
  | cons l ls =>
    have hlmem : l ∈ groups.flatten := List.mem_flatten.mpr ⟨l :: ls, hgm, List.mem_cons_self _ _⟩
    have hlne := hl l hlmem
    have htrim : l ∈ (getLines text).map trim := hs.subset hlmem
    obtain ⟨ln, _, rfl⟩ := List.mem_map.mp htrim
    rw [entryText_cons]
    cases hc : trim ln with
    | nil => exact absurd hc hlne
    | cons c cs =>
      have hout := trim_head_outside ln c (by rw [hc]; rfl)
      exact ⟨by simp, c, by simp, hout⟩

/-- C17: for each of the three extractors the entries are built, in order,
from groups of non-blank trimmed lines that follow one another in the
document, so that entries appear in the order of their first lines; every
entry is non-empty and holds a character other than space, tab, CR and LF. -/
theorem extractors_entries (text : List Char) :
    (EntriesInOrder text (extractEducation file text) ∧
      ∀ e ∈ extractEducation file text, e ≠ [] ∧ ∃ c ∈ e, isTrimChar c = false) ∧
    (EntriesInOrder text (extractExperience file text) ∧
      ∀ e ∈ extractExperience file text, e ≠ [] ∧ ∃ c ∈ e, isTrimChar c = false) ∧
    (EntriesInOrder text (extractProjects file text) ∧
      ∀ e ∈ extractProjects file text, e ≠ [] ∧ ∃ c ∈ e, isTrimChar c = false) := by
  have h1 := segment_entriesInOrder education_keywords file text
  have h2 := segment_entriesInOrder experience_keywords file text
  have h3 := segment_entriesInOrder project_keywords file text
  rw [← extractEducation_eq_segment] at h1
  rw [← extractExperience_eq_segment] at h2
  rw [← extractProjects_eq_segment] at h3
  exact ⟨⟨h1, entriesInOrder_nonblank text _ h1⟩, ⟨h2, entriesInOrder_nonblank text _ h2⟩,
    ⟨h3, entriesInOrder_nonblank text _ h3⟩⟩

/-! ## Matching -/

theorem charBefore_cons (prev : Option Char) (x : Char) (xs : List Char) :
    charBefore prev (x :: xs) = charBefore (some x) xs := by
  unfold charBefore
  cases xs with
  | nil => rfl
  | cons y ys =>
    rw [List.getLast?_cons_cons]
    cases h : (y :: ys).getLast? with
    | none => simp at h
    | some c => rfl

theorem charBefore_none (a : List Char) : charBefore none a = a.getLast? := by
  unfold charBefore
  cases a.getLast? <;> rfl

/-- A match that starts somewhere in the string makes the search succeed. -/
theorem searchFrom_isSome (r : Regex) (a b : List Char) :
    ∀ prev : Option Char, r.run (charBefore prev a) b ≠ [] →
      (searchFrom r prev (a ++ b)).isSome = true := by
  induction a with
  | nil =>
    intro prev h
    have h' : r.run prev b ≠ [] := h
    cases b with
    | nil =>
      simp only [List.append_nil, searchFrom]
      cases hr : r.run prev [] with
      | nil => exact absurd hr h'
      | cons x xs => rfl
    | cons c s =>
      simp only [List.nil_append, searchFrom]
      cases hr : r.run prev (c :: s) with
      | nil => exact absurd hr h'
      | cons x xs => rfl
  | cons x xs ih =>
    intro prev h
    rw [charBefore_cons] at h
    simp only [List.cons_append, searchFrom]
    cases hr : r.run prev (x :: (xs ++ b)) with
    | nil => exact ih (some x) h
    | cons y ys => rfl

theorem regex_search_of_run (r : Regex) (a b : List Char)
    (h : r.run a.getLast? b ≠ []) : regex_search (a ++ b) r = true := by
  unfold regex_search
  apply searchFrom_isSome
  rw [charBefore_none]
  exact h

theorem mem_run_seq (a b : Regex) (p p1 p2 : Option Char) (s s1 s2 : List Char)
    (h1 : (p1, s1) ∈ a.run p s) (h2 : (p2, s2) ∈ b.run p1 s1) :
    (p2, s2) ∈ (Regex.seq a b).run p s := by
  simp only [Regex.run, List.mem_flatMap]
  exact ⟨(p1, s1), h1, h2⟩

theorem mem_run_eps (p : Option Char) (s : List Char) : (p, s) ∈ Regex.eps.run p s := by
  simp [Regex.run]

theorem mem_run_cls (f : Char → Bool) (p : Option Char) (c : Char) (s : List Char)
    (h : f c = true) : (some c, s) ∈ (Regex.cls f).run p (c :: s) := by
  simp [Regex.run, h]

theorem mem_run_wordB (p : Option Char) (s : List Char)
    (h : isWordOpt p ≠ isWordOpt s.head?) : (p, s) ∈ Regex.wordB.run p s := by
  simp [Regex.run, h]

theorem mem_run_alt_left (a b : Regex) (p p1 : Option Char) (s s1 : List Char)
    (h : (p1, s1) ∈ a.run p s) : (p1, s1) ∈ (Regex.alt a b).run p s := by
  simp only [Regex.run, List.mem_append]
  exact Or.inl h

theorem mem_run_alt_right (a b : Regex) (p p1 : Option Char) (s s1 : List Char)
    (h : (p1, s1) ∈ b.run p s) : (p1, s1) ∈ (Regex.alt a b).run p s := by
  simp only [Regex.run, List.mem_append]
  exact Or.inr h

/-- A literal matches itself. -/
theorem mem_run_chars (cs : List Char) :
    ∀ (p : Option Char) (post : List Char),
      (charBefore p cs, post) ∈
        (cs.foldr (fun c r => Regex.seq (Regex.chr c) r) Regex.eps).run p (cs ++ post) := by
  induction cs with
  | nil => intro p post; exact mem_run_eps p post
  | cons c cs ih =>
    intro p post
    rw [charBefore_cons]
    simp only [List.foldr_cons, List.cons_append]
    exact mem_run_seq _ _ _ _ _ _ _ _ (mem_run_cls _ p c _ (by simp)) (ih (some c) post)

theorem mem_run_lit (w : String) (p : Option Char) (post : List Char) :
    (charBefore p w.toList, post) ∈ (Regex.lit w).run p (w.toList ++ post) :=
  mem_run_chars w.toList p post

theorem isWordChar_of_isDigit (c : Char) (h : isDigit c = true) : isWordChar c = true := by
  simp [isWordChar, h]

/-- The date pattern matches a year that stands as a word of its own. -/
theorem date_pattern_run (w : List Char) (hw : IsYear w) (p : Option Char) (post : List Char)
    (hp : isWordOpt p = false) (hpost : isWordOpt post.head? = false) :
    date_pattern.run p (w ++ post) ≠ [] := by
  obtain ⟨d3, d4, hcase, h3, h4⟩ := hw
  have hend : (some d4, post) ∈
      (Regex.seq Regex.digit (Regex.seq Regex.digit (Regex.seq Regex.wordB Regex.eps))).run
        (some (if w = ['1', '9', d3, d4] then '9' else '0')) (d3 :: d4 :: post) := by
    apply mem_run_seq _ _ _ (some d3) _ _ (d4 :: post)
    · exact mem_run_cls _ _ _ _ h3
    · apply mem_run_seq _ _ _ (some d4) _ _ post
      · exact mem_run_cls _ _ _ _ h4
      · apply mem_run_seq _ _ _ (some d4) _ _ post
        · apply mem_run_wordB
          rw [hpost]
          simp [isWordOpt, isWordChar_of_isDigit d4 h4]
        · exact mem_run_eps _ _
  have hmem : (some d4, post) ∈ date_pattern.run p (w ++ post) := by
    unfold date_pattern Regex.cat
    simp only [List.foldr_cons, List.foldr_nil]
    rcases hcase with rfl | rfl
    · apply mem_run_seq _ _ _ p _ _ ('1' :: '9' :: d3 :: d4 :: post)
      · apply mem_run_wordB
        rw [hp]
        change false ≠ true
        decide
      · apply mem_run_seq _ _ _ (some '9') _ _ (d3 :: d4 :: post)
        · apply mem_run_alt_left
          exact mem_run_lit "19" p (d3 :: d4 :: post)
        · simpa using hend
    · apply mem_run_seq _ _ _ p _ _ ('2' :: '0' :: d3 :: d4 :: post)
      · apply mem_run_wordB
        rw [hp]
        change false ≠ true
        decide
      · apply mem_run_seq _ _ _ (some '0') _ _ (d3 :: d4 :: post)
        · apply mem_run_alt_right
          exact mem_run_lit "20" p (d3 :: d4 :: post)
        · have hne : ¬ (['2', '0', d3, d4] = ['1', '9', d3, d4]) := by simp
          simpa [hne] using hend
  exact List.ne_nil_of_mem hmem

theorem regex_search_date (e : List Char) (h : ∃ w, IsYear w ∧ OccursAsWord w e) :
    regex_search e date_pattern = true := by
  obtain ⟨w, hw, pre, post, rfl, hpre, hpost⟩ := h
  rw [List.append_assoc]
  exact regex_search_of_run _ pre (w ++ post) (date_pattern_run w hw _ post hpre hpost)

/-- The verb pattern matches `developed` standing as a word of its own. -/
theorem regex_search_developed (e : List Char) (h : OccursAsWord "developed".toList e) :
    regex_search e action_verbs = true := by
  obtain ⟨pre, post, rfl, hpre, hpost⟩ := h
  rw [List.append_assoc]
  apply regex_search_of_run
  have hmem : (some 'd', post) ∈ action_verbs.run pre.getLast? ("developed".toList ++ post) := by
    unfold action_verbs Regex.cat Regex.alts
    simp only [List.foldr_cons, List.foldr_nil]
    apply mem_run_seq _ _ _ pre.getLast? _ _ ("developed".toList ++ post)
    · apply mem_run_wordB
      rw [hpre]
      change false ≠ true
      decide
    · apply mem_run_seq _ _ _ (some 'd') _ _ post
      · apply mem_run_alt_left
        exact mem_run_lit "developed" pre.getLast? post
      · apply mem_run_seq _ _ _ (some 'd') _ _ post
        · apply mem_run_wordB
          rw [hpost]
          decide
        · exact mem_run_eps _ _
  exact List.ne_nil_of_mem hmem

/-- The bullet pattern matches at a bullet glyph, a `-` or a `*`. -/
theorem regex_search_bullet (e : List Char) (h : HasBullet e) :
    regex_search e bullet_pattern = true := by
  have key : ∀ (a b : List Char) (c : Char),
      (bulletGlyph.contains c || c == '-' || c == '*') = true →
      regex_search (a ++ c :: b) bullet_pattern = true := by
    intro a b c hc
    apply regex_search_of_run
    unfold bullet_pattern
    exact List.ne_nil_of_mem (mem_run_cls _ _ c b hc)
  rcases h with ⟨a, b, rfl⟩ | h | h
  · have := key a (bulletGlyph.tail ++ b) (Char.ofNat 0xE2) (by decide)
    simpa [bulletGlyph] using this
  · obtain ⟨a, b, rfl⟩ := List.append_of_mem h
    exact key a b '-' (by decide)
  · obtain ⟨a, b, rfl⟩ := List.append_of_mem h
    exact key a b '*' (by decide)

/-! ## Scenario D -/

theorem experienceSuggestions_nil (experience : List (List Char))
    (hne : experience ≠ [])
    (hd : experience.any (fun exp => regex_search exp date_pattern) = true)
    (hb : experience.any (fun exp => regex_search exp bullet_pattern) = true)
    (hv : experience.any (fun exp => regex_search (toLower exp) action_verbs) = true) :
    experienceSuggestions experience = [] := by
  unfold experienceSuggestions
  have he : experience.isEmpty = false := by
    cases experience with
    | nil => exact absurd rfl hne
    | cons x xs => rfl
  simp [he, hd, hb, hv]

theorem extractExperience_nil : extractExperience file [] = [] := by
  decide

/-- C18, counterexample: the experience entry of `attachedYearText` contains
the year 2019, a bullet character and the verb `developed` as a word, yet a
suggestion about dates is emitted and the experience sub-score is 75. -/
theorem experience_year_attached :
    extractExperience file attachedYearText = ["EXPERIENCE - developed tools in FY2019 ".toList] ∧
    IsYear "2019".toList ∧
    "2019".toList <:+: "EXPERIENCE - developed tools in FY2019 ".toList ∧
    HasBullet "EXPERIENCE - developed tools in FY2019 ".toList ∧
    OccursAsWord "developed".toList (toLower "EXPERIENCE - developed tools in FY2019 ".toList) ∧
    experienceSuggestions (extractExperience file attachedYearText) =
      ["Include dates for each work experience".toList] ∧
    (analyzeResume attachedYearText [] false).map (fun res => sectionScore res "experience") =
      some (some 75) := by
  refine ⟨by decide, ⟨'1', '9', Or.inr rfl, by decide, by decide⟩, ?_, Or.inr (Or.inl (by decide)),
    ?_, by decide, by decide!⟩
  · exact ⟨"EXPERIENCE - developed tools in FY".toList, " ".toList, by decide⟩
  · exact ⟨"experience - ".toList, " tools in fy2019 ".toList, by decide, by decide, by decide⟩

/-- C18 (as amended): if the experience entries are non-empty, some entry
holds a year from 1900 to 2099 standing as a word of its own (not next to a
letter, digit or underscore), some entry holds a bullet character, and some
case-folded entry holds `developed` as a word, then `analyzeResume` returns a
result with no experience suggestion and the experience sub-score 100. -/
theorem experience_complete (text : List Char) (required_skills : List (List Char))
    (require_gpa : Bool)
    (hne : extractExperience file text ≠ [])
    (hyear : ∃ e ∈ extractExperience file text, ∃ w, IsYear w ∧ OccursAsWord w e)
    (hbullet : ∃ e ∈ extractExperience file text, HasBullet e)
    (hverb : ∃ e ∈ extractExperience file text, OccursAsWord "developed".toList (toLower e)) :
    ∃ res, analyzeResume text required_skills require_gpa = some res ∧
      res.experience = extractExperience file text ∧
      experienceSuggestions res.experience = [] ∧
      sectionScore res "experience" = some 100 := by
  have htext : text ≠ [] := by
    intro h0
    subst h0
    exact hne extractExperience_nil
  obtain ⟨res, hres⟩ := analyzeResume_isSome text required_skills require_gpa htext
  obtain ⟨_, _, _, _, hex, _, _, hs, _, _⟩ :=
    analyzeResume_fields text required_skills require_gpa res hres
  have hd : (extractExperience file text).any (fun exp => regex_search exp date_pattern)
      = true := by
    obtain ⟨e, hmem, hw⟩ := hyear
    exact List.any_eq_true.mpr ⟨e, hmem, regex_search_date e hw⟩
  have hb : (extractExperience file text).any (fun exp => regex_search exp bullet_pattern)
      = true := by
    obtain ⟨e, hmem, hw⟩ := hbullet
    exact List.any_eq_true.mpr ⟨e, hmem, regex_search_bullet e hw⟩
  have hv : (extractExperience file text).any
      (fun exp => regex_search (toLower exp) action_verbs) = true := by
    obtain ⟨e, hmem, hw⟩ := hverb
    exact List.any_eq_true.mpr ⟨e, hmem, regex_search_developed _ hw⟩
  have hnil := experienceSuggestions_nil _ hne hd hb hv
  refine ⟨res, hres, hex, by rw [hex]; exact hnil, ?_⟩
  unfold sectionScore
  rw [hs, (subScores_lookup text required_skills require_gpa).2.2.1, hnil]
  rfl

/-- C18, at scenario D: the entry `EXPERIENCE - Developed a cache in 2019`. -/
theorem experience_complete_witness :
    extractExperience file scenarioD = ["EXPERIENCE - Developed a cache in 2019 ".toList] ∧
    ∃ res, analyzeResume scenarioD [] false = some res ∧
      res.experience = extractExperience file scenarioD ∧
      experienceSuggestions res.experience = [] ∧
      sectionScore res "experience" = some 100 := by
  have hE : extractExperience file scenarioD =
      ["EXPERIENCE - Developed a cache in 2019 ".toList] := by decide
  refine ⟨hE, experience_complete scenarioD [] false (by decide) ?_ ?_ ?_⟩
  · rw [hE]
    refine ⟨_, List.mem_singleton.mpr rfl, "2019".toList,
      ⟨'1', '9', Or.inr rfl, by decide, by decide⟩,
      "EXPERIENCE - Developed a cache in ".toList, " ".toList, by decide, by decide, by decide⟩
  · rw [hE]
    exact ⟨_, List.mem_singleton.mpr rfl, Or.inr (Or.inl (by decide))⟩
  · rw [hE]
    exact ⟨_, List.mem_singleton.mpr rfl, "experience - ".toList, " a cache in 2019 ".toList,
      by decide, by decide, by decide⟩

/-! ## A blank line inside a section -/

theorem segment_blank_line (headerKeywords foreignKeywords : List (List Char))
    (text h a blank b : List Char)
    (hhk : headerKeywords.any (fun keyword => contains [] keyword) = false)
    (hfk : foreignKeywords.any (fun keyword => contains [] keyword) = false)
    (hlines : getLines text = [h, a, blank, b])
    (hblank : trim blank = []) (ha : trim a ≠ []) (hb : trim b ≠ [])
    (hh : headerKeywords.any (fun keyword => contains (toLower (trim h)) keyword) = true)
    (hah : headerKeywords.any (fun keyword => contains (toLower (trim a)) keyword) = false)
    (haf : foreignKeywords.any (fun keyword => contains (toLower (trim a)) keyword) = false)
    (hbh : headerKeywords.any (fun keyword => contains (toLower (trim b)) keyword) = false)
    (hbf : foreignKeywords.any (fun keyword => contains (toLower (trim b)) keyword) = false) :
    segment headerKeywords foreignKeywords text =
      [entryText [trim h, trim a], entryText [trim b]] := by
  have hhne : trim h ≠ [] := by
    intro h0
    rw [h0] at hh
    have : toLower [] = ([] : List Char) := rfl
    rw [this, hhk] at hh
    exact Bool.false_ne_true hh
  have htl : toLower ([] : List Char) = [] := rfl
  have e1 : (trim h).isEmpty = false := by
    cases hx : trim h with
    | nil => exact absurd hx hhne
    | cons _ _ => rfl
  have e2 : (trim a).isEmpty = false := by
    cases hx : trim a with
    | nil => exact absurd hx ha
    | cons _ _ => rfl
  have e3 : (trim b).isEmpty = false := by
    cases hx : trim b with
    | nil => exact absurd hx hb
    | cons _ _ => rfl
  simp only [segment, hlines, List.foldl_cons, List.foldl_nil]
  simp only [segment.step, Segmenter.flush, hh, hah, haf, hbh, hbf, hblank, htl, hhk, hfk, e1,
    e2, e3, if_true, if_false, Bool.not_false, Bool.not_true, Bool.false_eq_true,
    List.nil_append, List.isEmpty_nil, List.isEmpty_cons, List.cons_append]

theorem keywords_nonempty :
    education_keywords.any (fun keyword => contains [] keyword) = false ∧
    experience_keywords.any (fun keyword => contains [] keyword) = false ∧
    project_keywords.any (fun keyword => contains [] keyword) = false ∧
    file.any (fun keyword => contains [] keyword) = false := by
  decide

/-- C21: for a text whose lines are `h`, `a`, `blank`, `b`, where `blank` is
blank after trimming and `a` and `b` are non-blank lines that, trimmed and
case-folded, contain no word of the global section vocabulary: each extractor
for which `h` contains a header keyword and `a` and `b` contain none returns
exactly two entries, the first built from the trimmed lines `h` and `a` and
the second from the trimmed line `b` alone. -/
theorem extractors_blank_line (text h a blank b : List Char)
    (hlines : getLines text = [h, a, blank, b])
    (hblank : trim blank = []) (ha : trim a ≠ []) (hb : trim b ≠ [])
    (haf : file.any (fun keyword => contains (toLower (trim a)) keyword) = false)
    (hbf : file.any (fun keyword => contains (toLower (trim b)) keyword) = false) :
    (education_keywords.any (fun keyword => contains (toLower (trim h)) keyword) = true →
      education_keywords.any (fun keyword => contains (toLower (trim a)) keyword) = false →
      education_keywords.any (fun keyword => contains (toLower (trim b)) keyword) = false →
      extractEducation file text = [entryText [trim h, trim a], entryText [trim b]]) ∧
    (experience_keywords.any (fun keyword => contains (toLower (trim h)) keyword) = true →
      experience_keywords.any (fun keyword => contains (toLower (trim a)) keyword) = false →
      experience_keywords.any (fun keyword => contains (toLower (trim b)) keyword) = false →
      extractExperience file text = [entryText [trim h, trim a], entryText [trim b]]) ∧
    (project_keywords.any (fun keyword => contains (toLower (trim h)) keyword) = true →
      project_keywords.any (fun keyword => contains (toLower (trim a)) keyword) = false →
      project_keywords.any (fun keyword => contains (toLower (trim b)) keyword) = false →
      extractProjects file text = [entryText [trim h, trim a], entryText [trim b]]) ∧
    entryText [trim h, trim a] = trim h ++ [' '] ++ trim a ++ [' '] ∧
    entryText [trim b] = trim b ++ [' '] := by
  obtain ⟨k1, k2, k3, k4⟩ := keywords_nonempty
  obtain ⟨s1, s2, s3, _⟩ := extractors_eq_segment text
  refine ⟨fun hh hah hbh => ?_, fun hh hah hbh => ?_, fun hh hah hbh => ?_, ?_, ?_⟩
  · rw [s1]
    exact segment_blank_line _ _ text h a blank b k1 k4 hlines hblank ha hb hh hah haf hbh hbf
  · rw [s2]
    exact segment_blank_line _ _ text h a blank b k2 k4 hlines hblank ha hb hh hah haf hbh hbf
  · rw [s3]
    exact segment_blank_line _ _ text h a blank b k3 k4 hlines hblank ha hb hh hah haf hbh hbf
  · simp [entryText]
  · simp [entryText]

/-- C21, at the text `blankLineText`: each of the three extractors returns
the two entries `Education, Experience and Projects Acme 2019 ` and
`Initech 2020 `. -/
theorem extractors_blank_line_witness :
    getLines blankLineText =
      ["Education, Experience and Projects".toList, "Acme 2019".toList, " ".toList,
       "Initech 2020".toList] ∧
    extractEducation file blankLineText =
      ["Education, Experience and Projects Acme 2019 ".toList, "Initech 2020 ".toList] ∧
    extractExperience file blankLineText =
      ["Education, Experience and Projects Acme 2019 ".toList, "Initech 2020 ".toList] ∧
    extractProjects file blankLineText =
      ["Education, Experience and Projects Acme 2019 ".toList, "Initech 2020 ".toList] := by
  have hl : getLines blankLineText =
      ["Education, Experience and Projects".toList, "Acme 2019".toList, " ".toList,
       "Initech 2020".toList] := by decide
  have key := extractors_blank_line blankLineText _ _ _ _ hl (by decide) (by decide)
    (by decide) (by decide) (by decide)
  refine ⟨hl, ?_, ?_, ?_⟩
  · rw [key.1 (by decide) (by decide) (by decide)]; decide
  · rw [key.2.1 (by decide) (by decide) (by decide)]; decide
  · rw [key.2.2.1 (by decide) (by decide) (by decide)]; decide

/-! ## Repeated suggestions -/

theorem ite_sublist_singleton (b : Bool) (m : List Char) :
    (if b then [m] else []).Sublist [m] := by
  cases b <;> simp

theorem contactSuggestions_sublist (info : PersonalInfo) :
    (contactSuggestions info).Sublist (fixedMessages.take 3) := by
  unfold contactSuggestions
  exact ((ite_sublist_singleton _ _).append (ite_sublist_singleton _ _)).append
    (ite_sublist_singleton _ _)

theorem experienceSuggestions_sublist (experience : List (List Char)) :
    (experienceSuggestions experience).Sublist ((fixedMessages.drop 3).take 4) := by
  unfold experienceSuggestions
  split_ifs
  · exact List.Sublist.cons₂ _ (List.nil_sublist _)
  · exact List.Sublist.cons _
      (((ite_sublist_singleton _ _).append (ite_sublist_singleton _ _)).append
        (ite_sublist_singleton _ _))

theorem educationSuggestions_sublist (education : List (List Char)) (require_gpa : Bool) :
    (educationSuggestions education require_gpa).Sublist ((fixedMessages.drop 7).take 4) := by
  unfold educationSuggestions
  split_ifs
  · exact List.Sublist.cons₂ _ (List.nil_sublist _)
  · exact List.Sublist.cons _
      (((ite_sublist_singleton _ _).append (ite_sublist_singleton _ _)).append
        (ite_sublist_singleton _ _))

theorem message_sublist (fired : Bool) (text : String) :
    (message fired text).Sublist [text.toList] := by
  cases fired <;> simp [message]

theorem formatSuggestions_sublist (text : List Char) :
    (formatSuggestions text).Sublist (fixedMessages.drop 11) := by
  unfold formatSuggestions
  split_ifs
  · unfold formatMessages messagesOfChecks
    exact ((((message_sublist _ _).append (message_sublist _ _)).append
      (message_sublist _ _)).append (message_sublist _ _)).append (message_sublist _ _)
  · exact List.nil_sublist _

theorem fixedGroupSuggestions_sublist (text : List Char) (require_gpa : Bool) :
    (fixedGroupSuggestions text require_gpa).Sublist fixedMessages := by
  have h : fixedMessages = fixedMessages.take 3 ++ (fixedMessages.drop 3).take 4 ++
      (fixedMessages.drop 7).take 4 ++ fixedMessages.drop 11 := by
    rfl
  rw [h]
  exact (((contactSuggestions_sublist _).append (experienceSuggestions_sublist _)).append
    (educationSuggestions_sublist _ _)).append (formatSuggestions_sublist _)

theorem fixedMessages_nodup : fixedMessages.Nodup ∧ skillsHeader ∉ fixedMessages := by
  decide

theorem suggestionGroups_perm (text : List Char) (required_skills : List (List Char))
    (require_gpa : Bool) :
    (suggestionGroups text required_skills require_gpa).flatten.Perm
      (skillsSuggestions (calculateKeywordMatch text required_skills).missing_skills ++
        fixedGroupSuggestions text require_gpa) := by
  simp only [suggestionGroups, fixedGroupSuggestions, List.flatten_cons, List.flatten_nil,
    List.append_nil, List.append_assoc]
  exact List.perm_append_comm_assoc _ _ _

theorem suggestions_nodup_iff (text : List Char) (required_skills : List (List Char))
    (require_gpa : Bool) :
    (if (suggestionGroups text required_skills require_gpa).flatten.isEmpty then [wellOptimized]
     else (suggestionGroups text required_skills require_gpa).flatten).Nodup ↔
    (calculateKeywordMatch text required_skills).missing_skills.Nodup ∧
    ∀ s ∈ (calculateKeywordMatch text required_skills).missing_skills,
      s ≠ skillsHeader ∧ s ∉ fixedGroupSuggestions text require_gpa := by
  have hsub := fixedGroupSuggestions_sublist text require_gpa
  have hfn : (fixedGroupSuggestions text require_gpa).Nodup := hsub.nodup fixedMessages_nodup.1
  have hh : skillsHeader ∉ fixedGroupSuggestions text require_gpa :=
    fun h => fixedMessages_nodup.2 (hsub.subset h)
  have hperm := suggestionGroups_perm text required_skills require_gpa
  generalize (calculateKeywordMatch text required_skills).missing_skills = missing at *
  generalize (suggestionGroups text required_skills require_gpa).flatten = flat at *
  generalize fixedGroupSuggestions text require_gpa = fg at *
  rw [skillsSuggestions_eq] at hperm
  by_cases hm : missing = []
  · subst hm
    simp only [if_true] at hperm
    have : (if flat.isEmpty then [wellOptimized] else flat).Nodup := by
      split_ifs
      · exact List.nodup_singleton _
      · exact hperm.nodup_iff.2 (by simpa using hfn)
    exact ⟨fun _ => ⟨List.nodup_nil, fun s hs => absurd hs (List.not_mem_nil s)⟩,
      fun _ => this⟩
  · simp only [hm, if_false] at hperm
    have hne : flat.isEmpty = false := by
      cases flat with
      | nil => exact absurd hperm.length_eq (by simp)
      | cons _ _ => rfl
    rw [hne]
    simp only [Bool.false_eq_true, if_false]
    rw [hperm.nodup_iff, List.cons_append, List.nodup_cons, List.nodup_append]
    constructor
    · rintro ⟨hnot, hmn, _, hdis⟩
      refine ⟨hmn, fun s hs => ⟨?_, fun hsf => hdis hs hsf⟩⟩
      rintro rfl
      exact hnot (List.mem_append_left _ hs)
    · rintro ⟨hmn, hall⟩
      refine ⟨?_, hmn, hfn, fun s hs hsf => (hall s hs).2 hsf⟩
      intro hmem
      rcases List.mem_append.1 hmem with h | h
      · exact (hall _ h).1 rfl
      · exact hh h

/-- C22, counterexample: for the text `a` and the required skills `SQL`,
`SQL` the suggestions hold the string `SQL` twice. -/
theorem suggestions_not_deduplicated :
    (analyzeResume "a".toList ["SQL".toList, "SQL".toList] false).map
        (fun res => res.suggestions) =
      some ["Add your email address".toList, "Add your phone number".toList,
        "Add your LinkedIn profile URL".toList, "Mising skills are: ".toList,
        "SQL".toList, "SQL".toList, "Add your work experience section".toList,
        "Add your educational background".toList, "Resume is too short".toList,
        "No clear section headers found".toList,
        "No bullet points found for listing details".toList,
        "Missing or improperly formatted contact information".toList] ∧
    (analyzeResume "a".toList ["SQL".toList, "SQL".toList] false).map
        (fun res => decide res.suggestions.Nodup) = some false := by
  decide!

/-- C22 (as amended): in every result the suggestions of the contact,
experience, education and formatting groups are pairwise distinct, and the
whole suggestions list holds no string twice exactly when the missing skills
are pairwise distinct and none of them is the skills header or a suggestion
of another group; this is so whenever the required skills are pairwise
distinct and none of them is spelled like a message of the analyser. A
result exists for every non-empty text. -/
theorem analyzeResume_suggestions_nodup (text : List Char) (required_skills : List (List Char))
    (require_gpa : Bool) :
    (text ≠ [] → ∃ res, analyzeResume text required_skills require_gpa = some res) ∧
    ∀ res, analyzeResume text required_skills require_gpa = some res →
      (fixedGroupSuggestions text require_gpa).Nodup ∧
      (res.suggestions.Nodup ↔
        res.keyword_match.missing_skills.Nodup ∧
        ∀ s ∈ res.keyword_match.missing_skills,
          s ≠ skillsHeader ∧ s ∉ fixedGroupSuggestions text require_gpa) ∧
      (required_skills.Nodup →
        (∀ s ∈ required_skills, s ≠ skillsHeader ∧ s ∉ fixedMessages) →
        res.suggestions.Nodup) := by
  refine ⟨analyzeResume_isSome text required_skills require_gpa, ?_⟩
  intro res hres
  obtain ⟨_, _, hk, _, _, _, _, _, _, hsug⟩ :=
    analyzeResume_fields text required_skills require_gpa res hres
  have hsub := fixedGroupSuggestions_sublist text require_gpa
  have hiff := suggestions_nodup_iff text required_skills require_gpa
  rw [hsug, hk]
  refine ⟨hsub.nodup fixedMessages_nodup.1, hiff, ?_⟩
  intro hn hall
  have hms := (calculateKeywordMatch_partition text required_skills).2.1
  refine hiff.2 ⟨hms.nodup hn, fun s hs => ?_⟩
  have := hall s (hms.subset hs)
  exact ⟨this.1, fun h => this.2 (hsub.subset h)⟩

/-- C22 (as amended), at the text `email: a@b.com` with the required skills
`SQL` and `Java`. -/
theorem analyzeResume_suggestions_nodup_witness :
    (∃ res, analyzeResume "email: a@b.com".toList ["SQL".toList, "Java".toList] false =
      some res) ∧
    (analyzeResume "email: a@b.com".toList ["SQL".toList, "Java".toList] false).map
        (fun res => decide res.suggestions.Nodup) = some true :=
  ⟨(analyzeResume_suggestions_nodup "email: a@b.com".toList ["SQL".toList, "Java".toList]
      false).1 (by decide), by decide!⟩

/-! ## The per-sentence test is redundant -/

theorem matchStep_eq_onePhaseStep (lower_text : List Char) :
    matchStep lower_text = onePhaseStep lower_text := by
  funext acc skill
  rw [matchStep_eq, skillFound_eq_contains]
  rfl

/-- C23: a case-folded skill that is not a substring of the case-folded text
is a substring of none of its `'.'`-separated segments, and
`calculateKeywordMatch` is equal on every input to the one-phase matcher,
whose found skills are the required skills whose case-folded form is a
substring of the case-folded text. -/
theorem calculateKeywordMatch_eq_onePhaseMatch (text : List Char)
    (required_skills : List (List Char)) :
    (∀ skill : List Char, ¬ toLower skill <:+: toLower text →
      ∀ sentence ∈ split (toLower text) '.', ¬ toLower skill <:+: sentence) ∧
    calculateKeywordMatch text required_skills = onePhaseMatch text required_skills ∧
    (onePhaseMatch text required_skills).found_skills =
      required_skills.filter (fun skill => contains (toLower text) (toLower skill)) ∧
    (onePhaseMatch text required_skills).missing_skills =
      required_skills.filter (fun skill => !contains (toLower text) (toLower skill)) ∧
    (∀ skill, skill ∈ (calculateKeywordMatch text required_skills).found_skills ↔
      skill ∈ required_skills ∧ toLower skill <:+: toLower text) := by
  have heq : calculateKeywordMatch text required_skills = onePhaseMatch text required_skills := by
    simp only [calculateKeywordMatch, onePhaseMatch, matchStep_eq_onePhaseStep]
  have hf : (onePhaseMatch text required_skills).found_skills =
      required_skills.filter (fun skill => contains (toLower text) (toLower skill)) := by
    rw [← heq, found_skills_eq]
    congr 1
    funext s
    exact skillFound_eq_contains _ _
  have hm : (onePhaseMatch text required_skills).missing_skills =
      required_skills.filter (fun skill => !contains (toLower text) (toLower skill)) := by
    rw [← heq, missing_skills_eq]
    congr 1
    funext s
    rw [skillFound_eq_contains]
  refine ⟨?_, heq, hf, hm, ?_⟩
  · intro skill hno sentence hs hsub
    exact hno (hsub.trans ((split_tokens_substr (toLower text) '.').2 sentence hs))
  · intro skill
    rw [heq, hf, List.mem_filter, contains_iff_substr]

/-! ## The lower bound of the ATS score -/

/-- The rounded products of the sub-scores 25, 50, 75 and 100 with the weights
0.1 and 0.25 are at least 3 and 6. -/
theorem weighted_terms_quarter :
    (∀ k : Fin 4, 3 ≤ cround (fmul (ofInt (100 - 25 * (k.val : ℤ))) (fl (1 / 10)))) ∧
    (∀ k : Fin 4, 6 ≤ cround (fmul (ofInt (100 - 25 * (k.val : ℤ))) (fl (25 / 100)))) := by
  decide!

theorem atsScore_lower (kc ke kd : ℕ) (s f : ℤ) (hc : kc ≤ 3) (he : ke ≤ 3) (hd : kd ≤ 3)
    (hs : 0 ≤ s ∧ s ≤ 100) (hf : 0 ≤ f ∧ f ≤ 100) :
    12 ≤ atsScore (100 - 25 * (kc : ℤ)) s (100 - 25 * (ke : ℤ)) (100 - 25 * (kd : ℤ)) f := by
  have cast : ∀ x : ℤ, 0 ≤ x ∧ x ≤ 100 → ∃ k : Fin 101, x = (k.val : ℤ) := by
    intro x hx
    exact ⟨⟨x.toNat, by omega⟩, by simp [Int.toNat_of_nonneg hx.1]⟩
  obtain ⟨ks, rfl⟩ := cast s hs
  obtain ⟨kf, rfl⟩ := cast f hf
  have h1 := weighted_terms_quarter.1 ⟨kc, by omega⟩
  have h2 := weighted_terms_quarter.2 ⟨ke, by omega⟩
  have h3 := weighted_terms_quarter.1 ⟨kd, by omega⟩
  have h4 := (weighted_terms_range.2.1 ks).1
  have h5 := (weighted_terms_range.2.2.2 kf).1
  simp only at h1 h2 h3
  unfold atsScore
  omega

/-- C24: in every result the contact, experience and education groups hold at
most three suggestions, so the three sub-scores `100 - 25 * size` are among
25, 50, 75 and 100, and the ATS score lies between 12 and 100; a result
exists for every non-empty text. -/
theorem analyzeResume_group_scores (text : List Char) (required_skills : List (List Char))
    (require_gpa : Bool) :
    (text ≠ [] → ∃ res, analyzeResume text required_skills require_gpa = some res) ∧
    ∀ res, analyzeResume text required_skills require_gpa = some res →
      (contactSuggestions res.personal_info).length ≤ 3 ∧
      (experienceSuggestions res.experience).length ≤ 3 ∧
      (educationSuggestions res.education require_gpa).length ≤ 3 ∧
      (∃ contact experience education : Int,
        sectionScore res "contact" = some contact ∧
        contact = 100 - 25 * ((contactSuggestions res.personal_info).length : ℤ) ∧
        (contact = 25 ∨ contact = 50 ∨ contact = 75 ∨ contact = 100) ∧
        sectionScore res "experience" = some experience ∧
        experience = 100 - 25 * ((experienceSuggestions res.experience).length : ℤ) ∧
        (experience = 25 ∨ experience = 50 ∨ experience = 75 ∨ experience = 100) ∧
        sectionScore res "education" = some education ∧
        education = 100 - 25 * ((educationSuggestions res.education require_gpa).length : ℤ) ∧
        (education = 25 ∨ education = 50 ∨ education = 75 ∨ education = 100)) ∧
      12 ≤ res.ats_score ∧ res.ats_score ≤ 100 := by
  refine ⟨analyzeResume_isSome text required_skills require_gpa, ?_⟩
  intro res hres
  obtain ⟨_, hp, _, hedu, hexp, _, _, hs, ha, _⟩ :=
    analyzeResume_fields text required_skills require_gpa res hres
  have hl := subScores_lookup text required_skills require_gpa
  have lc := contactSuggestions_length (extractPersonalInfo text)
  have le := experienceSuggestions_length (extractExperience file text)
  have ld := educationSuggestions_length (extractEducation file text) require_gpa
  have gc := groupScore_of_le _ lc
  have ge := groupScore_of_le _ le
  have gd := groupScore_of_le _ ld
  have hf := formatScore_range text
  have hr := score_range text required_skills
  have hk := toInt_range _ hr.1 hr.2
  rw [hp, hedu, hexp]
  refine ⟨lc, le, ld, ⟨_, _, _, ?_, gc, ?_, ?_, ge, ?_, ?_, gd, ?_⟩, ?_, ?_⟩
  · unfold sectionScore; rw [hs]; exact hl.1
  · omega
  · unfold sectionScore; rw [hs]; exact hl.2.2.1
  · omega
  · unfold sectionScore; rw [hs]; exact hl.2.2.2.1
  · omega
  · rw [ha, gc, ge, gd]
    exact atsScore_lower _ _ _ _ _ lc le ld hk hf
  · rw [ha]
    exact (atsScore_range _ _ _ _ _ ⟨by omega, by omega⟩ hk ⟨by omega, by omega⟩
      ⟨by omega, by omega⟩ hf).2

/-- C24, at a concrete input: the text `lowestScoreText` with no required
skill and the GPA flag set has the three sub-scores 25 and the ATS score 12. -/
theorem analyzeResume_group_scores_witness :
    (∃ res, analyzeResume lowestScoreText [] true = some res) ∧
    (analyzeResume lowestScoreText [] true).map
        (fun res => ([sectionScore res "contact", sectionScore res "skills",
          sectionScore res "experience", sectionScore res "education",
          sectionScore res "format"], res.ats_score)) =
      some ([some 25, some 0, some 25, some 25, some 0], 12) :=
  ⟨(analyzeResume_group_scores lowestScoreText [] true).1 (by decide), by decide!⟩

/-! ## The weighted sum against exact arithmetic -/

/-- For scores from 0 to 100 the weighted sum of the code is the weighted sum
of the specification, except at the skills score 90, where it is one less. -/
theorem atsScore_claimed (c s e d f : ℤ) (hc : 0 ≤ c ∧ c ≤ 100) (hs : 0 ≤ s ∧ s ≤ 100)
    (he : 0 ≤ e ∧ e ≤ 100) (hd : 0 ≤ d ∧ d ≤ 100) (hf : 0 ≤ f ∧ f ≤ 100) :
    atsScore c s e d f = claimedAtsScore c s e d f - (if s = 90 then 1 else 0) := by
  have cast : ∀ x : ℤ, 0 ≤ x ∧ x ≤ 100 → ∃ k : Fin 101, x = (k.val : ℤ) := by
    intro x hx
    exact ⟨⟨x.toNat, by omega⟩, by simp [Int.toNat_of_nonneg hx.1]⟩
  obtain ⟨kc, rfl⟩ := cast c hc
  obtain ⟨ks, rfl⟩ := cast s hs
  obtain ⟨ke, rfl⟩ := cast e he
  obtain ⟨kd, rfl⟩ := cast d hd
  obtain ⟨kf, rfl⟩ := cast f hf
  have h1 := weighted_terms_exact.1 kc
  have h2 := weighted_terms_exact.2.2.2.1 ks
  have h3 := weighted_terms_exact.2.1 ke
  have h4 := weighted_terms_exact.1 kd
  have h5 := weighted_terms_exact.2.2.1 kf
  have h90 := weighted_terms_exact.2.2.2.2
  unfold atsScore claimedAtsScore
  rw [h1, h2, h3, h4, h5]
  simp only [Int.cast_natCast, ← mul_div_assoc]
  by_cases h : ks.val = 90
  · have h' : (ks.val : ℤ) = 90 := by omega
    rw [if_pos h, if_pos h', h]
    have : ((90 : ℕ) : ℚ) = 90 := by norm_num
    rw [this, h90]
    omega
  · have h' : ¬ (ks.val : ℤ) = 90 := by omega
    rw [if_neg h, if_neg h']
    omega

/-- C10, counterexample: for the text `abcdefghi email` and ten required
skills of which nine are found the stored scores are 25, 90, 75, 75 and 15
and `ats_score` is 64, while the sum of the exact products rounded half away
from zero is 65: the double product `90 * 0.35` lies below 31.5 and rounds
to 31, the exact product 31.5 rounds to 32. -/
theorem analyzeResume_ats_score_not_exact :
    (analyzeResume nineOfTenText nineOfTenSkills false).map
        (fun res => (res.section_scores, res.ats_score)) =
      some ([("contact".toList, 25), ("education".toList, 75), ("experience".toList, 75),
        ("format".toList, 15), ("skills".toList, 90)], 64) ∧
    claimedAtsScore 25 90 75 75 15 = 65 ∧
    cround (fmul (ofInt 90) (fl (35 / 100))) = 31 ∧
    cround ((90 : ℚ) * (35 / 100)) = 32 ∧
    fmul (ofInt 90) (fl (35 / 100)) < 63 / 2 := by
  decide!

/-- C10 (as amended): whenever `analyzeResume` returns a result (it does for
every non-empty text), `section_scores` holds five scores and `ats_score` is
the sum of the five products score × weight, each product computed in
`double`, rounded half away from zero and converted to `int` on its own.
This is the sum of the exact products rounded half away from zero when the
skills score is not 90, and one less than that sum when it is 90. -/
theorem analyzeResume_ats_score (text : List Char) (required_skills : List (List Char))
    (require_gpa : Bool) :
    (text ≠ [] → ∃ res, analyzeResume text required_skills require_gpa = some res) ∧
    ∀ res, analyzeResume text required_skills require_gpa = some res →
      ∃ contact skills experience education format : Int,
        res.section_scores =
          [("contact".toList, contact), ("education".toList, education),
           ("experience".toList, experience), ("format".toList, format),
           ("skills".toList, skills)] ∧
        res.ats_score =
          cround (fmul (ofInt contact) (fl (1 / 10))) +
          cround (fmul (ofInt skills) (fl (35 / 100))) +
          cround (fmul (ofInt experience) (fl (25 / 100))) +
          cround (fmul (ofInt education) (fl (1 / 10))) +
          cround (fmul (ofInt format) (fl (2 / 10))) ∧
        (skills ≠ 90 →
          res.ats_score = claimedAtsScore contact skills experience education format) ∧
        (skills = 90 →
          res.ats_score = claimedAtsScore contact skills experience education format - 1) := by
  refine ⟨analyzeResume_isSome text required_skills require_gpa, ?_⟩
  intro res hres
  obtain ⟨_, _, _, _, _, _, _, hs, ha, _⟩ :=
    analyzeResume_fields text required_skills require_gpa res hres
  have hc := groupScore_range _ (contactSuggestions_length (extractPersonalInfo text))
  have he := groupScore_range _ (experienceSuggestions_length (extractExperience file text))
  have hd := groupScore_range _
    (educationSuggestions_length (extractEducation file text) require_gpa)
  have hf := formatScore_range text
  have hr := score_range text required_skills
  have hk := toInt_range _ hr.1 hr.2
  have key := atsScore_claimed _ _ _ _ _ ⟨by omega, hc.2⟩ hk ⟨by omega, he.2⟩
    ⟨by omega, hd.2⟩ hf
  refine ⟨_, _, _, _, _, hs, ha, ?_, ?_⟩
  · intro h90
    rw [ha, key, if_neg h90, sub_zero]
  · intro h90
    rw [ha, key, if_pos h90]

/-- C10 (as amended), at two concrete inputs: for the text `email: a@b.com`
and the required skill `SQL` the five scores are 50, 75, 75, 30 and 0 and
the sum of the rounded products is `5 + 0 + 19 + 8 + 6 = 38`, equal to the
sum of the specification; for `nineOfTenText` the skills score is 90 and the
sum `3 + 31 + 19 + 8 + 3 = 64` is one less than that of the specification. -/
theorem analyzeResume_ats_score_witness :
    (∃ res, analyzeResume "email: a@b.com".toList ["SQL".toList] false = some res) ∧
    (analyzeResume "email: a@b.com".toList ["SQL".toList] false).map
        (fun res => (res.section_scores, res.ats_score)) =
      some ([("contact".toList, 50), ("education".toList, 75), ("experience".toList, 75),
        ("format".toList, 30), ("skills".toList, 0)], 38) ∧
    claimedAtsScore 50 0 75 75 30 = 38 ∧
    (analyzeResume nineOfTenText nineOfTenSkills false).map (fun res => res.ats_score) =
      some (claimedAtsScore 25 90 75 75 15 - 1) :=
  ⟨(analyzeResume_ats_score "email: a@b.com".toList ["SQL".toList] false).1 (by decide),
    by decide!, by decide!, by decide!⟩

end ATS
